import Mathlib

/-!
# A shallow embedding of AttackMatrix (`src/attackmatrix.py`)

This file embeds the transform-and-query core of the AttackMatrix program in
Lean 4 and settles the claims of the accompanying specification against it.

Modelling conventions:
* Python dicts whose keys are strings become association lists
  (`List (String × α)`); assignment `d[k] = v` replaces the value in place when
  the key is present and appends a new pair otherwise, matching CPython's
  insertion-ordered dicts (`dinsert`).
* Python truthiness is modelled explicitly: `None` and `''` are falsy for
  string-valued fields, `[]`/`{}` are falsy for containers, absent boolean
  fields are falsy.
* Local variables of `Transform` that leak from one loop iteration (and one
  construction pass) into the next — `id`, `technique`, `relationship_type`,
  `sourcetype`, `targettype` — are threaded through an explicit state
  (`TState`).  A variable that has never been assigned is `none`; reading it
  raises `NameError` in Python, which the embedding models by returning `none`
  from the surrounding function (as it does for every other uncaught
  exception: `KeyError`, `AttributeError`, …).
* The one non-string key the original can create — when a record resolves no
  ATT&CK id and no earlier record has assigned `id`, the entity is stored
  under the Python builtin function `id` — is not representable in a
  string-keyed map.  Such an entry is unreachable by every string lookup in
  the program, so the embedding simply skips the insertion (`dinsOpt`).
* Every record is assumed to carry the STIX-mandatory `id` field; fields the
  code reads only conditionally are `Option`s.
-/

/-- Python truthiness of an optional string field: `None` and `''` are falsy. -/
def pyTruthy? : Option String → Bool
  | none => false
  | some s => s ≠ ""

/-- Python truthiness of an optional boolean field (`entry.get(k)` where the
value, when present, is a bool): absent and `False` are falsy. -/
def pyTruthyB : Option Bool → Bool
  | none => false
  | some b => b

/-- Substring test on lists (helper for `strContains`). -/
def containsSub (hayc needlec : List Char) : Bool :=
  match hayc with
  | [] => needlec.isEmpty
  | _ :: rest => needlec.isPrefixOf hayc || containsSub rest needlec

/-- Python's `needle in hay` on strings: substring containment
(the empty needle is contained in everything). -/
def strContains (hay needle : String) : Bool :=
  containsSub hay.toList needle.toList

/-- ASCII lower-casing of one character (`str.lower()`; every string the
program case-folds is ASCII). -/
def lowChar (c : Char) : Char :=
  if 65 ≤ c.toNat ∧ c.toNat ≤ 90 then Char.ofNat (c.toNat + 32) else c

/-- ASCII upper-casing of one character (`str.upper()`). -/
def upChar (c : Char) : Char :=
  if 97 ≤ c.toNat ∧ c.toNat ≤ 122 then Char.ofNat (c.toNat - 32) else c

/-- `s.lower()`. -/
def strLower (s : String) : String := ⟨s.data.map lowChar⟩

/-- `s.upper()`. -/
def strUpper (s : String) : String := ⟨s.data.map upChar⟩

/-- Drop trailing characters satisfying `p`. -/
def dropTrailing (p : Char → Bool) (l : List Char) : List Char :=
  (l.reverse.dropWhile p).reverse

/-- Python's `s.rstrip('/')`: drop every trailing `/`. -/
def pyRstripSlash (s : String) : String :=
  ⟨dropTrailing (· = '/') s.data⟩

/-- Python's whitespace class used by `str.strip()`. -/
def isPySpace (c : Char) : Bool :=
  c = ' ' ∨ c = '\t' ∨ c = '\n' ∨ c = '\r' ∨ c = '\x0b' ∨ c = '\x0c'

/-- `s.strip()`: drop leading and trailing whitespace. -/
def pyStrip (s : String) : String :=
  ⟨dropTrailing isPySpace (s.data.dropWhile isPySpace)⟩

/-- Split a character list on one separator character (keeping empty runs). -/
def splitChar (sep : Char) : List Char → List (List Char)
  | [] => [[]]
  | c :: rest =>
    let r := splitChar sep rest
    if c = sep then [] :: r
    else match r with
      | [] => [[c]]
      | w :: ws => (c :: w) :: ws

/-- `word.capitalize()`: first character upper-cased, the rest lower-cased. -/
def capWord : List Char → List Char
  | [] => []
  | c :: rest => upChar c :: rest.map lowChar

/-- Join words with single spaces. -/
def joinSpaces : List (List Char) → List Char
  | [] => []
  | [w] => w
  | w :: ws => w ++ ' ' :: joinSpaces ws

/-- `string.capwords(s)`: split on whitespace runs, capitalize each word, join
with single spaces.  Only the space character is treated as whitespace here;
the kill-chain phase names this is applied to contain no other whitespace. -/
def capwords (s : String) : String :=
  ⟨joinSpaces (((splitChar ' ' s.data).filter (· ≠ [])).map capWord)⟩

/-- Python's `id.split('.')[0]`: the prefix before the first `.` (the whole
string when it has no `.`). -/
def dotPrefix (s : String) : String :=
  ⟨s.data.takeWhile (· ≠ '.')⟩

/-- Dict lookup: first binding of the key, if any. -/
def dlookup {κ α : Type} [DecidableEq κ] (l : List (κ × α)) (k : κ) : Option α :=
  (l.find? (fun p => p.1 = k)).map (·.2)

/-- Dict assignment `d[k] = v`: replace in place when present, else append. -/
def dinsert {κ α : Type} [DecidableEq κ] (l : List (κ × α)) (k : κ) (v : α) : List (κ × α) :=
  if (l.find? (fun p => p.1 = k)).isSome then
    l.map (fun p => if p.1 = k then (k, v) else p)
  else l ++ [(k, v)]

/-- The closed set of entity kinds, named by the plural labels the source uses
as dict keys (`'Tactics'`, …, `'Tools'`). -/
inductive Kind : Type
  | Tactics | Techniques | Subtechniques | Actors | Malwares | Mitigations | Tools
  deriving DecidableEq, Repr

/-- An entity's `name` value: a scalar string (Tactic/Technique/Subtechnique/
Mitigation, and Actors built from a record without aliases) or a list of
alias strings. -/
inductive NameF : Type
  | scalar (s : String)
  | list (l : List String)
  deriving DecidableEq, Repr

/-- The `{name, description}` pair produced when a relation id is unfolded. -/
structure NameDesc : Type where
  name : NameF
  description : String
  deriving DecidableEq, Repr

/-- The value stored under a relation key of an entity dict: a list of ids as
built by `Transform`, or — after `findTTPOverlap` mutates a matched actor in
place — a mapping id ↦ `{name, description}`. -/
inductive RelVal : Type
  | ids (l : List String)
  | unfolded (m : List (String × NameDesc))
  deriving DecidableEq, Repr

/-- An entity dict.  A `none` relation field models an absent dict key: each
construction pass only creates the keys of its dict literal
(src/attackmatrix.py:424-428, 454-462, 491-500, 521-528, 545-551, 565-570,
584-590), and reading an absent key raises `KeyError`. -/
structure Entity : Type where
  name : NameF
  description : String
  subtechnique_of : Option String := none
  rActors : Option RelVal := none
  rMalwares : Option RelVal := none
  rMitigations : Option RelVal := none
  rSubtechniques : Option RelVal := none
  rTechniques : Option RelVal := none
  rTools : Option RelVal := none
  deriving DecidableEq, Repr

/-- Look up an entity's relation key for a kind.  No entity dict ever carries
a `'Tactics'` key. -/
def Entity.rel (e : Entity) : Kind → Option RelVal
  | .Tactics => none
  | .Techniques => e.rTechniques
  | .Subtechniques => e.rSubtechniques
  | .Actors => e.rActors
  | .Malwares => e.rMalwares
  | .Mitigations => e.rMitigations
  | .Tools => e.rTools

/-- Overwrite an entity's relation key for a kind.  The program never assigns
under a `'Tactics'` key (no linker branch produces that kind), so that case is
the identity. -/
def Entity.setRel (e : Entity) (k : Kind) (v : RelVal) : Entity :=
  match k with
  | .Tactics => e
  | .Techniques => { e with rTechniques := some v }
  | .Subtechniques => { e with rSubtechniques := some v }
  | .Actors => { e with rActors := some v }
  | .Malwares => { e with rMalwares := some v }
  | .Mitigations => { e with rMitigations := some v }
  | .Tools => { e with rTools := some v }

/-- One matrix graph: the seven per-kind entity dicts, in the creation order
of `Transform`. -/
structure Graph : Type where
  tactics : List (String × Entity) := []
  techniques : List (String × Entity) := []
  subtechniques : List (String × Entity) := []
  actors : List (String × Entity) := []
  malwares : List (String × Entity) := []
  mitigations : List (String × Entity) := []
  tools : List (String × Entity) := []
  deriving DecidableEq, Repr

/-- The per-kind map of a graph. -/
def Graph.kmap (g : Graph) : Kind → List (String × Entity)
  | .Tactics => g.tactics
  | .Techniques => g.techniques
  | .Subtechniques => g.subtechniques
  | .Actors => g.actors
  | .Malwares => g.malwares
  | .Mitigations => g.mitigations
  | .Tools => g.tools

/-- Replace the per-kind map of a graph. -/
def Graph.setKmap (g : Graph) (k : Kind) (m : List (String × Entity)) : Graph :=
  match k with
  | .Tactics => { g with tactics := m }
  | .Techniques => { g with techniques := m }
  | .Subtechniques => { g with subtechniques := m }
  | .Actors => { g with actors := m }
  | .Malwares => { g with malwares := m }
  | .Mitigations => { g with mitigations := m }
  | .Tools => { g with tools := m }

/-- One element of a record's `external_references` list. -/
structure ExtRef : Type where
  source_name : String
  external_id : Option String := none
  deriving DecidableEq, Repr

/-- One element of a record's `kill_chain_phases` list. -/
structure KCP : Type where
  kill_chain_name : String
  phase_name : Option String := none
  deriving DecidableEq, Repr

/-- A decoded bundle record (one element of `AttackMatrix['objects']`).
Fields the code reads only through `.get` or only on some record types are
`Option`s; `kill_chain_phases` is only ever truthiness-tested, so an absent
key is indistinguishable from `[]`. -/
structure Record : Type where
  id : String
  type : Option String := none
  name : Option String := none
  description : Option String := none
  aliases : Option (List String) := none
  x_mitre_aliases : Option (List String) := none
  external_references : Option (List ExtRef) := none
  kill_chain_phases : List KCP := []
  x_mitre_is_subtechnique : Option Bool := none
  revoked : Bool := false
  x_mitre_deprecated : Bool := false
  relationship_type : Option String := none
  source_ref : Option String := none
  target_ref : Option String := none
  deriving DecidableEq, Repr

/-- The filter policy (`options.revoked` = include revoked,
`options.deprecated` = include deprecated). -/
structure Options : Type where
  revoked : Bool := false
  deprecated : Bool := false
  deriving DecidableEq, Repr

/-- The standard eligibility guard of every construction pass
(src/attackmatrix.py:413-414 and its copies): a record passes unless it is
revoked with `includeRevoked` off or deprecated with `includeDeprecated`
off. -/
def elig (o : Options) (r : Record) : Bool :=
  (!r.revoked || o.revoked) && (!r.x_mitre_deprecated || o.deprecated)

/-- The Malware/Tool eligibility guard (lines 532 and 574): revoked records
are dropped unconditionally, irrespective of `includeRevoked`. -/
def eligNoRev (o : Options) (r : Record) : Bool :=
  !r.revoked && (!r.x_mitre_deprecated || o.deprecated)

/-- The `external_references` scan shared by all passes (e.g. lines 420-423).
Python's `'mitre' and 'attack' in source_name.lower()` evaluates to
`'attack' in source_name.lower()` (the literal `'mitre'` is truthy), and the
loop keeps overwriting `id`, so the LAST matching reference wins; when no
reference matches, the previous value of the `id` variable persists. -/
def resolveId (prev : Option String) (refs : List ExtRef) : Option String :=
  refs.foldl (fun acc er =>
    if pyTruthy? er.external_id && strContains (strLower er.source_name) "attack" then
      er.external_id
    else acc) prev

/-- `description` defaulting used by the Technique/Subtechnique/Actor/Malware
passes: `entry.get('description')` is truthiness-tested, so an absent or empty
description becomes `'Not available.'`. -/
def descOrNA (d : Option String) : String :=
  if pyTruthy? d then d.getD "Not available." else "Not available."

/-- The state of `Transform`'s function-scope variables that survive from one
loop iteration (and pass) into the next, plus the graph under construction. -/
structure TState : Type where
  g : Graph := {}
  id : Option String := none
  technique : Option String := none
  relationship_type : Option String := none
  sourcetype : Option Kind := none
  targettype : Option Kind := none
  deriving DecidableEq, Repr

/-- Insert under a resolved id; with `id` unassigned (`none`) the original
stores the entity under the builtin `id` function object, which no string
lookup can ever reach, so the embedding drops it. -/
def dinsOpt (m : List (String × Entity)) (i : Option String) (e : Entity) :
    List (String × Entity) :=
  match i with
  | some k => dinsert m k e
  | none => m

/-- The Tactics pass (src/attackmatrix.py:410-428): for each eligible
`x-mitre-tactic` record, read `name` and `description` (a `KeyError` — here
`none` — if absent), resolve the id, and store the tactic with an empty
`Techniques` list.  `name` is stored as a scalar string. -/
def tacticsStep (o : Options) (st : TState) (r : Record) : Option TState :=
  if elig o r && pyTruthy? r.type then
    if r.type = some "x-mitre-tactic" then do
      let tac ← r.name
      let desc ← r.description
      let refs ← r.external_references
      let i := resolveId st.id refs
      let e : Entity := { name := .scalar tac, description := desc,
                          rTechniques := some (.ids []) }
      pure { st with id := i, g := { st.g with tactics := dinsOpt st.g.tactics i e } }
    else pure st
  else pure st

/-- The technique entity literal (lines 454-462). -/
def techEntity (nm desc : String) : Entity :=
  { name := .scalar nm, description := desc,
    rActors := some (.ids []), rMalwares := some (.ids []),
    rMitigations := some (.ids []), rSubtechniques := some (.ids []),
    rTools := some (.ids []) }

/-- The kill-chain loop of the Techniques pass (lines 463-470): for each phase
whose `kill_chain_name` contains `'attack'` and whose raw `phase_name` is
truthy, normalise the phase name with `capwords` after replacing `-` by a
space, and append the technique id (deduplicated) to every tactic whose
(scalar) name is a case-insensitive substring of it.  A tactic whose `name`
were a list would raise `AttributeError` on `.lower()` (never happens: the
Tactics pass stores only scalars). -/
def killChainFold (i : Option String) (kcps : List KCP) (g0 : Graph) : Option Graph :=
  kcps.foldlM (fun g kcp =>
    if strContains kcp.kill_chain_name "attack" && pyTruthy? kcp.phase_name then
      let phase := capwords ⟨(kcp.phase_name.getD "").data.map (fun c => if c = '-' then ' ' else c)⟩
      (g.tactics.map Prod.fst).foldlM (fun g tid =>
        match dlookup g.tactics tid with
        | none => pure g
        | some te =>
          match te.name with
          | .list _ => none
          | .scalar nm =>
            if strContains (strLower phase) (strLower nm) then
              match i, te.rTechniques with
              | some iv, some (.ids l) =>
                  if iv ∈ l then pure g
                  else
                    let te' := { te with rTechniques := some (.ids (l ++ [iv])) }
                    pure { g with tactics := dinsert g.tactics tid te' }
              | some _, _ => none
              | none, _ => pure g
            else pure g) g
    else pure g) g0

/-- The Techniques pass (lines 429-470): eligible `attack-pattern` records
whose `x_mitre_is_subtechnique` is falsy.  Also updates the function-scope
`technique` variable (line 445) to the record's *name*. -/
def techniquesStep (o : Options) (st : TState) (r : Record) : Option TState :=
  if elig o r && pyTruthy? r.type then
    if r.type = some "attack-pattern" then
      if pyTruthyB r.x_mitre_is_subtechnique then pure st
      else do
        let nm ← r.name
        let desc := descOrNA r.description
        let refs ← r.external_references
        let i := resolveId st.id refs
        let g1 := { st.g with techniques := dinsOpt st.g.techniques i (techEntity nm desc) }
        let g2 ← if r.kill_chain_phases ≠ [] then killChainFold i r.kill_chain_phases g1
                 else pure g1
        pure { st with id := i, technique := some nm, g := g2 }
    else pure st
  else pure st

/-- The reference scan of the Subtechniques pass (lines 485-490): for each
matching reference, set `id`, derive the parent technique id as the prefix
before the first `.`, and read the parent's name from the Techniques map —
a `KeyError` (crash) when the parent is absent. -/
def subResolveFold (st : TState) (refs : List ExtRef) (g : Graph) :
    Option (Option String × Option String) :=
  refs.foldlM (fun (acc : Option String × Option String) er =>
    if pyTruthy? er.external_id && strContains (strLower er.source_name) "attack" then
      let i := er.external_id.getD ""
      let tech := dotPrefix i
      match dlookup g.techniques tech with
      | some _ => pure (some i, some tech)
      | none => none
    else pure acc) (st.id, st.technique)

/-- The Subtechniques pass (lines 471-501): eligible `attack-pattern` records
whose `x_mitre_is_subtechnique` is truthy (the nested test at line 479 is
implied by the truthiness test at line 478).  The entity is stored under the
current value of `id` and its `subtechnique_of` / parent-append use the
current `technique` — both stale when no reference matched; the parent append
at line 501 has NO dedup check, and a missing parent there is a fatal
`KeyError`. -/
def subtechniquesStep (o : Options) (st : TState) (r : Record) : Option TState :=
  if elig o r && pyTruthy? r.type then
    if r.type = some "attack-pattern" then
      if pyTruthyB r.x_mitre_is_subtechnique then do
        let nm ← r.name
        let desc := descOrNA r.description
        let refs ← r.external_references
        let (i, tech) ← subResolveFold st refs st.g
        let t ← tech
        let e : Entity :=
          { name := .scalar nm, subtechnique_of := some t, description := desc,
            rActors := some (.ids []), rMalwares := some (.ids []),
            rMitigations := some (.ids []), rSubtechniques := some (.ids []),
            rTools := some (.ids []) }
        let g1 := { st.g with subtechniques := dinsOpt st.g.subtechniques i e }
        match dlookup g1.techniques t with
        | none => none
        | some pe =>
          let g2 ← match i with
            | none => pure g1
            | some iv =>
              match pe.rSubtechniques with
              | some (.ids l) =>
                  let pe' := { pe with rSubtechniques := some (.ids (l ++ [iv])) }
                  pure { g1 with techniques := dinsert g1.techniques t pe' }
              | _ => none
          pure { st with g := g2, id := i, technique := tech }
      else pure st
    else pure st
  else pure st

/-- The Actors pass (lines 502-528): eligible `intrusion-set` records.
`entry.get('aliases')` is truthiness-tested, so a missing OR empty alias list
falls back to the scalar `entry['name']`. -/
def actorsStep (o : Options) (st : TState) (r : Record) : Option TState :=
  if elig o r && pyTruthy? r.type then
    if r.type = some "intrusion-set" then do
      let names ← match r.aliases with
        | some l => if l ≠ [] then pure (NameF.list l) else NameF.scalar <$> r.name
        | none => NameF.scalar <$> r.name
      let desc := descOrNA r.description
      let refs ← r.external_references
      let i := resolveId st.id refs
      let e : Entity := { name := names, description := desc,
                          rMalwares := some (.ids []), rSubtechniques := some (.ids []),
                          rTechniques := some (.ids []), rTools := some (.ids []) }
      pure { st with id := i, g := { st.g with actors := dinsOpt st.g.actors i e } }
    else pure st
  else pure st

/-- The Malwares pass (lines 529-551): `if not entry.get('revoked')` — revoked
malware is dropped regardless of `includeRevoked`.  `names` comes from the
mandatory access `entry['x_mitre_aliases']` (a list). -/
def malwaresStep (o : Options) (st : TState) (r : Record) : Option TState :=
  if eligNoRev o r && pyTruthy? r.type then
    if r.type = some "malware" then do
      let al ← r.x_mitre_aliases
      let desc := descOrNA r.description
      let refs ← r.external_references
      let i := resolveId st.id refs
      let e : Entity := { name := .list al, description := desc,
                          rActors := some (.ids []), rSubtechniques := some (.ids []),
                          rTechniques := some (.ids []) }
      pure { st with id := i, g := { st.g with malwares := dinsOpt st.g.malwares i e } }
    else pure st
  else pure st

/-- The Mitigations pass (lines 552-570): eligible `course-of-action` records;
`name` and `description` are mandatory accesses. -/
def mitigationsStep (o : Options) (st : TState) (r : Record) : Option TState :=
  if elig o r && pyTruthy? r.type then
    if r.type = some "course-of-action" then do
      let nm ← r.name
      let desc ← r.description
      let refs ← r.external_references
      let i := resolveId st.id refs
      let e : Entity := { name := .scalar nm, description := desc,
                          rSubtechniques := some (.ids []), rTechniques := some (.ids []) }
      pure { st with id := i, g := { st.g with mitigations := dinsOpt st.g.mitigations i e } }
    else pure st
  else pure st

/-- The Tools pass (lines 571-590): like Malwares, revoked tools are dropped
unconditionally; `x_mitre_aliases` and `description` are mandatory
accesses. -/
def toolsStep (o : Options) (st : TState) (r : Record) : Option TState :=
  if eligNoRev o r && pyTruthy? r.type then
    if r.type = some "tool" then do
      let al ← r.x_mitre_aliases
      let desc ← r.description
      let refs ← r.external_references
      let i := resolveId st.id refs
      let e : Entity := { name := .list al, description := desc,
                          rActors := some (.ids []), rSubtechniques := some (.ids []),
                          rTechniques := some (.ids []) }
      pure { st with id := i, g := { st.g with tools := dinsOpt st.g.tools i e } }
    else pure st
  else pure st

/-- The endpoint-resolution scan of the linker (lines 603-620 for the source,
621-638 for the target): for EVERY bundle record whose internal STIX `id`
matches the reference case-insensitively, derive the kind from the record's
`type` (reading `sourceentry['type']` is a fatal `KeyError` when absent), then
let the LAST matching external reference set the external id, switching the
kind to `Subtechniques` when that id contains a `.`.  The id accumulator is
re-initialised to `None` per relationship (lines 601-602) but the kind
variable is stale from the previous relationship (or unbound). -/
def scanEndpoint (bundle : List Record) (refStr : String) (ty0 : Option Kind) :
    Option (Option Kind × Option String) :=
  bundle.foldlM (fun (acc : Option Kind × Option String) se =>
    if strLower se.id = strLower refStr then do
      let sty ← se.type
      let k1 := if sty = "attack-pattern" then some Kind.Techniques else acc.1
      let k2 := if sty = "intrusion-set" then some Kind.Actors else k1
      let k3 := if sty = "malware" then some Kind.Malwares else k2
      let k4 := if sty = "course-of-action" then some Kind.Mitigations else k3
      let k5 := if sty = "tool" then some Kind.Tools else k4
      let refs ← se.external_references
      pure (refs.foldl (fun (acc2 : Option Kind × Option String) er =>
        if pyTruthy? er.external_id && strContains (strLower er.source_name) "attack" then
          let sid := er.external_id.getD ""
          (if strContains sid "." then some Kind.Subtechniques else acc2.1, some sid)
        else acc2) (k5, acc.2))
    else pure acc) (ty0, none)

/-- One guarded linker append (the `try` blocks at lines 640-647 and 648-655):
evaluate the kind variable (`NameError` — fatal — when unbound), look up the
entity (`KeyError` — caught, skip), evaluate the other kind variable (fatal
when unbound), read the relation key (`KeyError` — caught, skip) and append
the id unless already present.  A non-list relation value would fail on
`.append` (`AttributeError`, fatal) — unreachable on transform output. -/
def tryAppend (g : Graph) (sk : Option Kind) (sid : String) (tk : Option Kind)
    (tid : String) : Option Graph := do
  let k ← sk
  match dlookup (g.kmap k) sid with
  | none => pure g
  | some e => do
    let k' ← tk
    match e.rel k' with
    | none => pure g
    | some (.ids l) =>
        if tid ∈ l then pure g
        else pure (g.setKmap k (dinsert (g.kmap k) sid (e.setRel k' (.ids (l ++ [tid])))))
    | some (.unfolded m) =>
        if tid ∈ m.map (·.1) then pure g
        else none

/-- The linker pass (lines 591-655, "LINK ALL THE THINGS!").  Eligible typed
records first refresh the function-scope `relationship_type` when they carry a
truthy one (lines 596-597); records of type `relationship` with a (possibly
stale) `relationship_type` of `mitigates`/`uses` resolve both endpoints by
scanning the whole bundle, then perform the two guarded appends when both ids
resolved, are truthy, and differ. -/
def linkStep (o : Options) (bundle : List Record) (st : TState) (r : Record) :
    Option TState :=
  if elig o r && pyTruthy? r.type then
    let rt := if pyTruthy? r.relationship_type then r.relationship_type
              else st.relationship_type
    if r.type = some "relationship" then do
      let rtv ← rt
      if rtv = "mitigates" || rtv = "uses" then do
        let src ← r.source_ref
        let tgt ← r.target_ref
        let (sk, sid?) ← scanEndpoint bundle src st.sourcetype
        let (tk, tid?) ← scanEndpoint bundle tgt st.targettype
        let st' := { st with relationship_type := rt, sourcetype := sk, targettype := tk }
        match sid?, tid? with
        | some sid, some tid =>
            if sid ≠ "" && tid ≠ "" && sid ≠ tid then do
              let g1 ← tryAppend st.g sk sid tk tid
              let g2 ← tryAppend g1 tk tid sk sid
              pure { st' with g := g2 }
            else pure st'
        | _, _ => pure st'
      else pure { st with relationship_type := rt }
    else pure { st with relationship_type := rt }
  else pure st

/-- `Transform(options, AttackMatrix)` (lines 406-656): the seven sequential
construction passes, then the linker, each a full fold over the bundle,
threading the leaked local variables from pass to pass.  The outer
`{options.matrix: …}` wrapper is dropped: this is the graph of the single
matrix being built.  `none` models an uncaught exception. -/
def Transform (o : Options) (bundle : List Record) : Option Graph := do
  let st1 ← bundle.foldlM (tacticsStep o) {}
  let st2 ← bundle.foldlM (techniquesStep o) st1
  let st3 ← bundle.foldlM (subtechniquesStep o) st2
  let st4 ← bundle.foldlM (actorsStep o) st3
  let st5 ← bundle.foldlM (malwaresStep o) st4
  let st6 ← bundle.foldlM (mitigationsStep o) st5
  let st7 ← bundle.foldlM (toolsStep o) st6
  let st8 ← bundle.foldlM (linkStep o bundle) st7
  pure st8.g

/-- Python truthiness of `entity.get(relationKey)`: absent, `[]` and `{}` are
falsy. -/
def relTruthy : Option RelVal → Bool
  | none => false
  | some (.ids l) => l ≠ []
  | some (.unfolded m) => m ≠ []

/-- Python iteration over a relation value: a list yields its elements, a dict
yields its keys. -/
def relKeys : RelVal → List String
  | .ids l => l
  | .unfolded m => m.map (·.1)

/-- Python `len` of a relation value. -/
def relLen : RelVal → Nat
  | .ids l => l.length
  | .unfolded m => m.length

/-- The plural dict label of a kind. -/
def kindLabel : Kind → String
  | .Tactics => "Tactics"
  | .Techniques => "Techniques"
  | .Subtechniques => "Subtechniques"
  | .Actors => "Actors"
  | .Malwares => "Malwares"
  | .Mitigations => "Mitigations"
  | .Tools => "Tools"

/-- The placeholder description of `unfoldKeys` (lines 399-400):
`'*** DEPRECATED OR REVOKED ' + unfoldField.rstrip('s').upper() + ' ***'`. -/
def deprLabel (k : Kind) : String :=
  "*** DEPRECATED OR REVOKED " ++ strUpper ⟨dropTrailing (· = 's') (kindLabel k).data⟩ ++ " ***"

/-- The kinds `unfoldKeys` unfolds (line 381) — note: `Tools` is NOT among
them. -/
def unfoldFields : List Kind := [.Actors, .Malwares, .Mitigations, .Subtechniques, .Techniques]

/-- The result dict of `unfoldKeys`: `name`/`description` plus one optional
sub-dict per unfolded kind. -/
structure Unfolded : Type where
  name : NameF
  description : String
  uActors : Option (List (String × NameDesc)) := none
  uMalwares : Option (List (String × NameDesc)) := none
  uMitigations : Option (List (String × NameDesc)) := none
  uSubtechniques : Option (List (String × NameDesc)) := none
  uTechniques : Option (List (String × NameDesc)) := none
  deriving DecidableEq, Repr

/-- Write one unfolded sub-dict (only the five `unfoldFields` kinds occur). -/
def Unfolded.setU (u : Unfolded) (k : Kind) (v : List (String × NameDesc)) : Unfolded :=
  match k with
  | .Actors => { u with uActors := some v }
  | .Malwares => { u with uMalwares := some v }
  | .Mitigations => { u with uMitigations := some v }
  | .Subtechniques => { u with uSubtechniques := some v }
  | .Techniques => { u with uTechniques := some v }
  | _ => u

/-- `unfoldKeys` (lines 380-403): start from the entity's `name`/`description`;
for each unfold kind whose key is PRESENT (membership in `.keys()`, not
truthiness) and whose value has positive length, build an id ↦
`{name, description}` dict, substituting the deprecated/revoked placeholder
for ids that do not resolve in the same matrix. -/
def unfoldKeys (g : Graph) (e : Entity) : Unfolded :=
  unfoldFields.foldl (fun u k =>
    match e.rel k with
    | none => u
    | some v =>
      if relLen v > 0 then
        u.setU k ((relKeys v).foldl (fun acc key =>
          dinsert acc key (match dlookup (g.kmap k) key with
            | some t => { name := t.name, description := t.description }
            | none => { name := .scalar key, description := deprLabel k })) [])
      else u)
    { name := e.name, description := e.description }

/-- The entity-dict creation order of `Transform`, which is the key order
`searchMatrix` iterates (line 363). -/
def kindOrder : List Kind := [.Tactics, .Techniques, .Subtechniques, .Actors, .Malwares, .Mitigations, .Tools]

/-- One field test of `searchMatrix` (lines 368-374).  The searched fields are
`name` (scalar or list) and `description` (always scalar).  For a list field
every element is lowercased before the substring test; for a SCALAR field only
the query is lowercased (line 374 has no `.lower()` on the field), so scalar
matching is case-sensitive in the field. -/
def fieldMatches (q : String) : NameF → Bool
  | .list l => l.any (fun item => strContains (strLower item) (strLower q))
  | .scalar s => strContains s (strLower q)

/-- Truthiness of `results.get(entitytype)` at line 364: absent or empty dict
is falsy, and then the group is (re)set to `{}`. -/
def grpTruthy : Option (List (String × Unfolded)) → Bool
  | none => false
  | some m => m ≠ []

/-- `searchMatrix` (lines 353-377).  `cache` is `loadCache`'s value for this
matrix (`none` = falsy, return `{}`).  Results are grouped kind → id →
unfolded entity; a matched entity is inserted once (the truthiness guard at
lines 371/375 — an unfolded dict is never empty); empty kind groups are
dropped at the end (line 377). -/
def searchMatrix (params : List String) (matrixname : String) (cache : Option Graph) :
    List (Kind × List (String × Unfolded)) :=
  if matrixname = "" then []
  else match cache with
  | none => []
  | some g =>
    let res := params.foldl (fun res q =>
      kindOrder.foldl (fun res k =>
        let res := if grpTruthy (dlookup res k) then res else dinsert res k []
        (g.kmap k).foldl (fun res (p : String × Entity) =>
          [p.2.name, NameF.scalar p.2.description].foldl (fun res fv =>
            if fieldMatches q fv then
              match dlookup res k with
              | some m => if (dlookup m p.1).isSome then res
                          else dinsert res k (dinsert m p.1 (unfoldKeys g p.2))
              | none => res
            else res) res) res) res) []
    res.filter (fun p => p.2 ≠ [])

/-- The TTP kinds of `findTTPOverlap` (lines 284-289, dict `overlapkeys`). -/
def ttpKinds : List Kind := [.Malwares, .Subtechniques, .Techniques, .Tools]

/-- `candidatecontent` (lines 295-298): the concatenation of the candidate's
truthy TTP-kind relation values (list elements / dict keys). -/
def actorContent (e : Entity) : List String :=
  ttpKinds.foldl (fun acc k =>
    match e.rel k with
    | some v => if relTruthy (some v) then acc ++ relKeys v else acc
    | none => acc) []

/-- The dict rebuilt at lines 306-312: id ↦ `{name, description}` for each id
that still resolves in this matrix's map for the kind; unresolvable ids are
silently dropped (there is NO placeholder branch here, unlike
`unfoldKeys`). -/
def resolveKind (g : Graph) (k : Kind) (l : List String) : List (String × NameDesc) :=
  l.foldl (fun acc ttp =>
    match dlookup (g.kmap k) ttp with
    | some t => dinsert acc ttp { name := t.name, description := t.description }
    | none => acc) []

/-- The in-place mutation of one matched actor (lines 302-312): every truthy
TTP-kind relation value is deleted and replaced by the resolved
`{name, description}` dict.  Because `results[...][actor]` aliases
`cache[matrixname]['Actors'][candidate]`, this writes through into the
queried graph. -/
def unfoldStep (g : Graph) (e : Entity) (k : Kind) : Entity :=
  match e.rel k with
  | some v => if relTruthy (some v) then e.setRel k (.unfolded (resolveKind g k (relKeys v))) else e
  | none => e

def unfoldTTP (g : Graph) (e : Entity) : Entity :=
  ttpKinds.foldl (unfoldStep g) e

/-- The per-matrix candidate loop of `findTTPOverlap` (lines 294-312): iterate
the (stable) actor keys; a candidate matches when its content is non-empty and
contains every requested TTP; after each candidate, EVERY matched actor so far
is (re-)unfolded in place.  Returns the mutated graph and the matched actor
ids in match order (an actor id can match at most once, so a plain append
mirrors the dict insert of line 300). -/
def unfoldInPlace (g : Graph) (a : String) : Graph :=
  match dlookup g.actors a with
  | some ea => { g with actors := dinsert g.actors a (unfoldTTP g ea) }
  | none => g

def ttpCandStep (TTPs : List String) (acc : Graph × List String) (candidate : String) :
    Graph × List String :=
  match dlookup acc.1.actors candidate with
  | none => acc
  | some e =>
    let content := actorContent e
    let matched := if content.length > 0 && TTPs.all (· ∈ content) then acc.2 ++ [candidate]
                   else acc.2
    (matched.foldl unfoldInPlace acc.1, matched)

def ttpMatrixFold (TTPs : List String) (g0 : Graph) : Graph × List String :=
  (g0.actors.map Prod.fst).foldl (ttpCandStep TTPs) (g0, [])

/-- Read the (final) entities of the matched actors out of a graph, preserving
match order — the Python `results` dict holds references into the mutated
cache, so its final contents are exactly the mutated entities. -/
def materializeActors (g : Graph) (matched : List String) : List (String × Entity) :=
  matched.foldl (fun acc a =>
    match dlookup g.actors a with
    | some e => acc ++ [(a, e)]
    | none => acc) []

/-- `findTTPOverlap` (lines 283-316) over a loaded multi-matrix cache.
Returns BOTH the cache as it stands after the call (the function mutates
matched actors in place) and the results mapping: matrix → `Actors` →
id → entity, with zero-match matrices deleted (lines 313-315). -/
def findTTPOverlap (TTPs : List String) (cache : List (String × Graph)) :
    (List (String × Graph)) × (List (String × List (String × Entity))) :=
  let step := cache.foldl (fun (acc : (List (String × Graph)) × (List (String × List String))) p =>
      let r := ttpMatrixFold TTPs p.2
      (acc.1 ++ [(p.1, r.1)], acc.2 ++ [(p.1, r.2)])) ([], [])
  let results := step.2.filterMap (fun p =>
    if p.2.length = 0 then none
    else match dlookup step.1 p.1 with
      | some g => some (p.1, materializeActors g p.2)
      | none => none)
  (step.1, results)

/-- The overlap kinds of `findActorOverlap` (lines 193-199, dict
`overlapkeys`). -/
def aoKinds : List Kind := [.Malwares, .Mitigations, .Subtechniques, .Techniques, .Tools]

/-- An `overlap['Actors']` entry: accumulated alias list and concatenated
description. -/
structure ActorSum : Type where
  name : List String
  description : String
  deriving DecidableEq, Repr

/-- The result dict of `findActorOverlap`; a `none` kind field is a deleted
(empty-overlap) key. -/
structure Overlap : Type where
  actors : List (String × ActorSum)
  matrices : List String
  oMalwares : Option (List (String × NameDesc)) := none
  oMitigations : Option (List (String × NameDesc)) := none
  oSubtechniques : Option (List (String × NameDesc)) := none
  oTechniques : Option (List (String × NameDesc)) := none
  oTools : Option (List (String × NameDesc)) := none
  deriving DecidableEq, Repr

/-- Ordered-set append. -/
def dedupAppend (l : List String) (x : String) : List String :=
  if x ∈ l then l else l ++ [x]

/-- First-occurrence deduplication.  Stands in for `list(set(…))` (lines
274/276) and the set union of line 220; CPython set iteration order is
unspecified, so the embedding fixes first-insertion order — every property
proved about these lists is membership-based. -/
def dedupList (l : List String) : List String := l.foldl dedupAppend []

/-- `set(l1).union(set(l2))` pivot of lines 219-222, in first-insertion
order. -/
def setUnion (l1 l2 : List String) : List String :=
  l2.foldl dedupAppend (l1.foldl dedupAppend [])

/-- Collect one actor across matrices (lines 186-192): the truthiness test
uses the id with trailing `/` stripped (line 189), the collected value uses
the RAW id (line 190) — a fatal `KeyError` when the stripped key exists but
the raw one does not. -/
def collectActor (cache : List (String × Graph)) (mid : String) :
    Option (List (String × Entity)) :=
  cache.foldlM (fun acc (p : String × Graph) =>
    match dlookup p.2.actors (pyRstripSlash mid) with
    | some _ =>
      match dlookup p.2.actors mid with
      | some e => pure (dinsert acc p.1 e)
      | none => none
    | none => pure acc) []

/-- Iterating `entity['name']` (lines 244/254): a list yields its elements; a
scalar string yields its one-character substrings. -/
def nameElems : NameF → List String
  | .list l => l
  | .scalar s => s.toList.map Char.toString

/-- One side of the per-matrix accumulation (lines 238-247 resp. 248-257):
fold the actor's truthy kind lists into the ordered-set kind map, append the
name elements, and append the stripped description unless the raw description
is already a substring of the accumulator. -/
def accumSide (acts : List (String × Entity)) (m : String) (theId : String)
    (amap : List (Kind × List String)) (asum : List (String × ActorSum)) :
    (List (Kind × List String)) × (List (String × ActorSum)) :=
  match dlookup acts m with
  | none => (amap, asum)
  | some e =>
    let amap := aoKinds.foldl (fun am k =>
      match e.rel k with
      | some v =>
        if relTruthy (some v) then
          dinsert am k ((relKeys v).foldl dedupAppend ((dlookup am k).getD []))
        else am
      | none => am) amap
    let s := (dlookup asum theId).getD { name := [], description := "" }
    let s1 := { s with name := s.name ++ nameElems e.name }
    let s2 := if strContains s1.description e.description then s1
              else { s1 with description := s1.description ++ pyStrip e.description ++ " " }
    (amap, dinsert asum theId s2)

/-- The unfolding of one overlap kind (lines 262-272): for each overlapping id
and each matrix IN CACHE ORDER, overwrite the entry with that matrix's
`{name, description}` when the id resolves there (the last resolving matrix
wins); an id resolving nowhere is left out of the dict. -/
def kindOverlapDict (cache : List (String × Graph)) (k : Kind) (keys : List String) :
    List (String × NameDesc) :=
  keys.foldl (fun acc key =>
    cache.foldl (fun acc (p : String × Graph) =>
      match dlookup (p.2.kmap k) key with
      | some t => dinsert acc key { name := t.name, description := t.description }
      | none => acc) acc) []

/-- Strip/dedup finalisation of one actor summary (lines 273-276). -/
def finalizeActor (asum : List (String × ActorSum)) (i : String) :
    List (String × ActorSum) :=
  match dlookup asum i with
  | some s => dinsert asum i { name := dedupList s.name, description := pyStrip s.description }
  | none => asum

/-- `findActorOverlap` (lines 183-280).  The outer `Option` is a fatal
exception (the raw-vs-stripped lookup of `collectActor`); the inner `Option`
is the function's explicit `return None` when no kind overlaps (lines
277-280). -/
def findActorOverlap (cache : List (String × Graph)) (id1 id2 : String) :
    Option (Option Overlap) := do
  let actor1 ← collectActor cache id1
  let actor2 ← collectActor cache id2
  let asum0 : List (String × ActorSum) :=
    dinsert (dinsert [] id1 { name := [], description := "" }) id2 { name := [], description := "" }
  let morder := setUnion (actor1.map Prod.fst) (actor2.map Prod.fst)
  let amap0 : List (Kind × List String) := aoKinds.map (fun k => (k, []))
  let acc := morder.foldl (fun (acc : (List (Kind × List String)) × (List (Kind × List String)) × (List (String × ActorSum))) m =>
      let a1 := accumSide actor1 m id1 acc.1 acc.2.2
      let a2 := accumSide actor2 m id2 acc.2.1 a1.2
      (a1.1, a2.1, a2.2)) (amap0, amap0, asum0)
  let mkKind := fun (k : Kind) =>
    let keys := ((dlookup acc.1 k).getD []).filter (fun x => x ∈ (dlookup acc.2.1 k).getD [])
    if keys.length = 0 then none else some (kindOverlapDict cache k keys)
  let oMal := mkKind .Malwares
  let oMit := mkKind .Mitigations
  let oSub := mkKind .Subtechniques
  let oTech := mkKind .Techniques
  let oTool := mkKind .Tools
  let asum1 := finalizeActor (finalizeActor acc.2.2 id1) id2
  if oMal.isSome || oMit.isSome || oSub.isSome || oTech.isSome || oTool.isSome then
    pure (some { actors := asum1, matrices := morder, oMalwares := oMal,
                 oMitigations := oMit, oSubtechniques := oSub,
                 oTechniques := oTech, oTools := oTool })
  else pure none

/-- The exceptions relevant to `loadCache`. -/
inductive PyExc : Type
  | valueError | fileNotFoundError | unpicklingError | eofError
  deriving DecidableEq, Repr

/-- What a cache path holds: nothing, undecodable bytes (tagged with the
exception the unpickler raises for that corruption), or a pickled matrix
dict. -/
inductive CacheFile : Type
  | absent
  | corrupt (e : PyExc)
  | ok (m : List (String × Graph))

/-- `open(cachefile, 'rb')` + `pickle.load(cache)` (lines 324-325), modelled
from the Python library contract: opening a missing path raises
`FileNotFoundError`; `pickle.load` on undecodable bytes raises
`pickle.UnpicklingError` (or `EOFError` on truncated input) — neither is a
subclass of `ValueError`. -/
def openAndUnpickle : CacheFile → Except PyExc (List (String × Graph))
  | .absent => .error .fileNotFoundError
  | .corrupt e => .error e
  | .ok m => .ok m

/-- `loadCache` (lines 319-329): return the unpickled matrix dict; the
`except (ValueError, FileNotFoundError)` clause logs and falls through,
returning `None`; any other exception propagates to the caller. -/
def loadCache (fs : String → CacheFile) (matrixname : String) :
    Except PyExc (Option (List (String × Graph))) :=
  match openAndUnpickle (fs matrixname) with
  | .ok m => .ok (some m)
  | .error e =>
    if e = .valueError || e = .fileNotFoundError then .ok none
    else .error e

/-- Which relation keys the dict literal of each kind's construction pass
carries (lines 424-428, 454-462, 491-500, 521-528, 545-551, 565-570,
584-590): Tactic ↦ {Techniques}; Technique/Subtechnique ↦ {Actors, Malwares,
Mitigations, Subtechniques, Tools}; Actor ↦ {Malwares, Subtechniques,
Techniques, Tools}; Malware/Tool ↦ {Actors, Subtechniques, Techniques};
Mitigation ↦ {Subtechniques, Techniques}. -/
def schemaHas : Kind → Kind → Bool
  | .Tactics, .Techniques => true
  | .Techniques, .Actors => true
  | .Techniques, .Malwares => true
  | .Techniques, .Mitigations => true
  | .Techniques, .Subtechniques => true
  | .Techniques, .Tools => true
  | .Subtechniques, .Actors => true
  | .Subtechniques, .Malwares => true
  | .Subtechniques, .Mitigations => true
  | .Subtechniques, .Subtechniques => true
  | .Subtechniques, .Tools => true
  | .Actors, .Malwares => true
  | .Actors, .Subtechniques => true
  | .Actors, .Techniques => true
  | .Actors, .Tools => true
  | .Malwares, .Actors => true
  | .Malwares, .Subtechniques => true
  | .Malwares, .Techniques => true
  | .Mitigations, .Subtechniques => true
  | .Mitigations, .Techniques => true
  | .Tools, .Actors => true
  | .Tools, .Subtechniques => true
  | .Tools, .Techniques => true
  | _, _ => false

/-- `x ∈ e.relations[k]`: membership of an id in an entity's relation value
for a kind; an absent key holds nothing. -/
def relMem (e : Entity) (k : Kind) (x : String) : Prop :=
  match e.rel k with
  | some v => x ∈ relKeys v
  | none => False

/-- Claim C1 as stated: in every graph `Transform` produces, every stored
relation is bidirectionally symmetric (for all kinds) and every relation list
is duplicate-free. -/
def c1Claim : Prop :=
  ∀ (o : Options) (bundle : List Record) (g : Graph), Transform o bundle = some g →
    (∀ A B s es t et, dlookup (g.kmap A) s = some es → dlookup (g.kmap B) t = some et →
       (relMem es B t ↔ relMem et A s)) ∧
    (∀ A i e, dlookup (g.kmap A) i = some e → ∀ B v, e.rel B = some v → (relKeys v).Nodup)

/-- The per-kind `name`-shape contract: scalar for Tactic/Technique/
Subtechnique/Mitigation; a list for Malware/Tool; for Actors a non-empty
aliases list OR (when the record carries no truthy `aliases`) the scalar
record name. -/
def namePred : Kind → Entity → Prop
  | .Tactics, e => ∃ s, e.name = NameF.scalar s
  | .Techniques, e => ∃ s, e.name = NameF.scalar s
  | .Subtechniques, e => ∃ s, e.name = NameF.scalar s
  | .Mitigations, e => ∃ s, e.name = NameF.scalar s
  | .Malwares, e => ∃ l, e.name = NameF.list l
  | .Tools, e => ∃ l, e.name = NameF.list l
  | .Actors, e => (∃ l, l ≠ [] ∧ e.name = NameF.list l) ∨ (∃ s, e.name = NameF.scalar s)

/-- Claim C9 as stated: Tactic/Technique/Subtechnique/Mitigation names are
scalars and Actor/Malware/Tool names are lists — including for actor records
without an `aliases` field. -/
def c9Claim : Prop :=
  ∀ (o : Options) (bundle : List Record) (g : Graph), Transform o bundle = some g →
    (∀ k, k ∈ [Kind.Tactics, .Techniques, .Subtechniques, .Mitigations] →
       ∀ i e, dlookup (g.kmap k) i = some e → ∃ s, e.name = NameF.scalar s) ∧
    (∀ k, k ∈ [Kind.Actors, .Malwares, .Tools] →
       ∀ i e, dlookup (g.kmap k) i = some e → ∃ l, e.name = NameF.list l)

/-- Claim C8 as stated for the only operation that could write: the queried
cache is unchanged by `findTTPOverlap`.  (`explore`, `search` and
`findActorOverlap` contain no assignment into the cache at all; the mutation
question is entirely about `findTTPOverlap`, lines 299-312.) -/
def c8Claim : Prop :=
  ∀ (TTPs : List String) (cache : List (String × Graph)),
    (findTTPOverlap TTPs cache).1 = cache

/-- Claim C4 as stated: actors matched by `findTTPOverlap` have each truthy
TTP-kind id list replaced by `{name, description}` pairs with the
`unfoldKeys`-style placeholder for every id that no longer resolves. -/
def c4Claim : Prop :=
  ∀ (TTPs : List String) (cache : List (String × Graph)) (m : String)
    (res : List (String × Entity)) (a : String) (e : Entity) (g : Graph) (e0 : Entity),
    dlookup (findTTPOverlap TTPs cache).2 m = some res →
    dlookup res a = some e →
    dlookup cache m = some g →
    dlookup g.actors a = some e0 →
    ∀ k v, k ∈ ttpKinds → e0.rel k = some v → relTruthy (some v) = true →
      ∃ m', e.rel k = some (.unfolded m') ∧
        ∀ x, x ∈ relKeys v →
          (∀ t, dlookup (g.kmap k) x = some t →
             (x, ({ name := t.name, description := t.description } : NameDesc)) ∈ m') ∧
          (dlookup (g.kmap k) x = none →
             (x, ({ name := .scalar x, description := deprLabel k } : NameDesc)) ∈ m')

/-- The union of an actor's relation-id lists for one kind across every loaded
matrix in which the actor appears (the "union-set" of claim C7). -/
def actorKindUnion (cache : List (String × Graph)) (a : String) (k : Kind) : List String :=
  cache.foldl (fun acc p =>
    match dlookup p.2.actors a with
    | some e =>
      match e.rel k with
      | some v => acc ++ relKeys v
      | none => acc
    | none => acc) []

/-- The overlap dict of one kind in a `findActorOverlap` result. -/
def Overlap.okind (ov : Overlap) : Kind → Option (List (String × NameDesc))
  | .Malwares => ov.oMalwares
  | .Mitigations => ov.oMitigations
  | .Subtechniques => ov.oSubtechniques
  | .Techniques => ov.oTechniques
  | .Tools => ov.oTools
  | _ => none

/-- Claim C7 as stated: for an actor id present in at least one matrix,
`actorOverlap(a, a)` completes and returns — for each kind — a dict containing
EVERY id of the actor's union-set for that kind, and returns the explicit
absent result exactly when every kind union-set is empty. -/
def c7Claim : Prop :=
  ∀ (cache : List (String × Graph)) (a : String),
    (∃ p, p ∈ cache ∧ (dlookup p.2.actors a).isSome) →
    ∃ res, findActorOverlap cache a a = some res ∧
      ((res = none) ↔ ∀ k, k ∈ aoKinds → actorKindUnion cache a k = []) ∧
      (∀ ov, res = some ov → ∀ k, k ∈ aoKinds → ∀ x, x ∈ actorKindUnion cache a k →
         ∃ dict, ov.okind k = some dict ∧ x ∈ dict.map Prod.fst)

/-- The matching predicate claim C2 asserts: some term occurs as a
CASE-INSENSITIVE substring of the entity's name or description — elementwise
when the field is a list, on the scalar itself when it is a scalar. -/
def specSearchMatches (terms : List String) (e : Entity) : Prop :=
  ∃ q, q ∈ terms ∧
    ((match e.name with
      | .list l => ∃ item, item ∈ l ∧ strContains (strLower item) (strLower q) = true
      | .scalar s => strContains (strLower s) (strLower q) = true) ∨
     strContains (strLower e.description) (strLower q) = true)

/-- Shape invariant: every entity of kind `A` carries exactly the relation
keys of `A`'s dict literal, each holding an id list. -/
def ShapeX (g : Graph) : Prop :=
  ∀ A i e, dlookup (g.kmap A) i = some e → ∀ B,
    (schemaHas A B = true → ∃ l, e.rel B = some (.ids l)) ∧
    (schemaHas A B = false → e.rel B = none)

/-- Duplicate-freedom of every relation list, exempting the `Subtechniques`
list of a Technique (the append at line 501 has no dedup guard). -/
def NodupX (g : Graph) : Prop :=
  ∀ A i e, dlookup (g.kmap A) i = some e → ∀ B v, e.rel B = some v →
    ¬(A = Kind.Techniques ∧ B = Kind.Subtechniques) → (relKeys v).Nodup

/-- Name-shape invariant (see `namePred`). -/
def NameInv (g : Graph) : Prop :=
  ∀ A i e, dlookup (g.kmap A) i = some e → namePred A e

/-- Bidirectional symmetry restricted to kind pairs whose dict literals carry
reciprocal relation keys. -/
def SymmX (g : Graph) : Prop :=
  ∀ A B, schemaHas A B = true → schemaHas B A = true →
    ∀ s es t et, dlookup (g.kmap A) s = some es → dlookup (g.kmap B) t = some et →
      (relMem es B t ↔ relMem et A s)

/-- During construction, every reciprocal-pair relation list is still empty
(the only construction-phase appends — tactic→technique and
technique→subtechnique containment — target non-reciprocal pairs). -/
def CrossEmpty (g : Graph) : Prop :=
  ∀ A B, schemaHas A B = true → schemaHas B A = true →
    ∀ i e, dlookup (g.kmap A) i = some e → e.rel B = some (.ids [])

/-- The invariants carried through the seven construction passes. -/
def ConsInv (g : Graph) : Prop :=
  ShapeX g ∧ NodupX g ∧ NameInv g ∧ CrossEmpty g

/-- The invariants carried through the linker pass. -/
def LinkInv (g : Graph) : Prop :=
  ShapeX g ∧ NodupX g ∧ NameInv g ∧ SymmX g

/-- An external reference in the ATT&CK namespace. -/
def mref (i : String) : ExtRef := { source_name := "mitre-attack", external_id := some i }

/-- Concrete technique record `T1`. -/
def recTech : Record :=
  { id := "ap--1", type := some "attack-pattern", name := some "Tech One",
    description := some "d1", external_references := some [mref "T1"] }

/-- Concrete subtechnique record `T1.001`. -/
def recSub : Record :=
  { id := "ap--2", type := some "attack-pattern", name := some "Sub One",
    description := some "d2", x_mitre_is_subtechnique := some true,
    external_references := some [mref "T1.001"] }

/-- Concrete actor record `G0001` (with an ATT&CK reference). -/
def recActorA : Record :=
  { id := "is--1", type := some "intrusion-set", name := some "ActorA",
    description := some "da", external_references := some [mref "G0001"] }

/-- Concrete actor record WITHOUT any ATT&CK external reference. -/
def recActorB : Record :=
  { id := "is--2", type := some "intrusion-set", name := some "ActorB",
    description := some "db", external_references := some [] }

/-- Concrete actor record with TWO ATT&CK references (`G0001` first,
`G0002` second). -/
def recActorTwoRefs : Record :=
  { id := "is--3", type := some "intrusion-set", name := some "ActorC",
    description := some "dc",
    external_references := some [mref "G0001",
      { source_name := "attack-x", external_id := some "G0002" }] }

/-- The single-tactic entity of the C2 search counterexample. -/
def entPersist : Entity :=
  { name := .scalar "Persistence", description := "x", rTechniques := some (.ids []) }

/-- A one-tactic graph whose scalar name contains an upper-case letter. -/
def gSearch : Graph := { tactics := [("TA1", entPersist)] }

/-- The same entity with its name as a LIST instead of a scalar. -/
def gSearchL : Graph :=
  { tactics := [("TA1", { name := .list ["Persistence"], description := "x",
                          rTechniques := some (.ids []) })] }

/-- An actor whose `Techniques` list holds one resolvable id (`T1`) and one
unresolvable id (`T9999`). -/
def actGA : Entity :=
  { name := .list ["A"], description := "da",
    rMalwares := some (.ids []), rSubtechniques := some (.ids []),
    rTechniques := some (.ids ["T9999", "T1"]), rTools := some (.ids []) }

/-- An actor with only empty TTP lists. -/
def actGB : Entity :=
  { name := .list ["B"], description := "db",
    rMalwares := some (.ids []), rSubtechniques := some (.ids []),
    rTechniques := some (.ids []), rTools := some (.ids []) }

/-- A one-matrix cache graph for the `findTTPOverlap` counterexamples. -/
def gTTP : Graph :=
  { techniques := [("T1", techEntity "Tech One" "d1")],
    actors := [("GA", actGA), ("GB", actGB)] }

/-- An actor whose only relation id (`S1`) resolves nowhere. -/
def actG1 : Entity :=
  { name := .list ["X"], description := "d",
    rMalwares := some (.ids ["S1"]), rSubtechniques := some (.ids []),
    rTechniques := some (.ids []), rTools := some (.ids []) }

/-- Cache for the C7 counterexample: `G1`'s malware id `S1` is unresolvable. -/
def gAO1 : Graph := { actors := [("G1", actG1)] }

/-- Cache for the C7 trailing-slash facet: the actor is stored under `G1/`
(and its stripped form `G1` is absent), with `S1` resolvable. -/
def gAO2 : Graph :=
  { actors := [("G1/", actG1)],
    malwares := [("S1", { name := .list ["Mal"], description := "dm" })] }

/-- The technique entity of the C1 counterexample graph: its `Subtechniques`
list holds `T1.001` twice (duplicate subtechnique records each append at line
501 without a dedup guard). -/
def eT1 : Entity :=
  { name := .scalar "Tech One", description := "d1",
    rActors := some (.ids []), rMalwares := some (.ids []),
    rMitigations := some (.ids []), rSubtechniques := some (.ids ["T1.001", "T1.001"]),
    rTools := some (.ids []) }

/-- The subtechnique entity of the C1 counterexample graph: it has NO
`Techniques` key at all (only `subtechnique_of`), so the containment edge is
stored one-directionally. -/
def eSub : Entity :=
  { name := .scalar "Sub One", description := "d2", subtechnique_of := some "T1",
    rActors := some (.ids []), rMalwares := some (.ids []),
    rMitigations := some (.ids []), rSubtechniques := some (.ids []),
    rTools := some (.ids []) }

/-- The graph `Transform` produces from `[recTech, recSub, recSub]`. -/
def gC1 : Graph :=
  { techniques := [("T1", eT1)], subtechniques := [("T1.001", eSub)] }

/-- The actor entity built from `recActorB` (stored under the stale id). -/
def eActB : Entity :=
  { name := .scalar "ActorB", description := "db",
    rMalwares := some (.ids []), rSubtechniques := some (.ids []),
    rTechniques := some (.ids []), rTools := some (.ids []) }

/-- The actor entity built from `recActorA` — note the SCALAR name: the
record has no `aliases` field, so line 512 falls back to `entry['name']`. -/
def eActA : Entity :=
  { name := .scalar "ActorA", description := "da",
    rMalwares := some (.ids []), rSubtechniques := some (.ids []),
    rTechniques := some (.ids []), rTools := some (.ids []) }

/-- The graph `Transform` produces from `[recActorA]`. -/
def gActA : Graph := { actors := [("G0001", eActA)] }

/-- `actGA` after `findTTPOverlap` mutates it: `T9999` is silently dropped
from the unfolded `Techniques` dict. -/
def eGAunf : Entity :=
  { name := .list ["A"], description := "da",
    rMalwares := some (.ids []), rSubtechniques := some (.ids []),
    rTechniques := some (.unfolded [("T1", { name := .scalar "Tech One", description := "d1" })]),
    rTools := some (.ids []) }

/-- The overlap result of `findActorOverlap [("M", gAO1)] "G1" "G1"`: the
`Malwares` overlap dict is PRESENT but EMPTY — the unresolvable `S1` was
dropped, not listed. -/
def ovG1 : Overlap :=
  { actors := [("G1", { name := ["X"], description := "d" })],
    matrices := ["M"], oMalwares := some [] }

def recMal : Record :=
  { id := "mw--1", type := some "malware", x_mitre_aliases := some ["Mal"],
    description := some "dm", external_references := some [mref "S0001"] }

def recMalRevoked : Record := { recMal with revoked := true }

def recTool : Record :=
  { id := "tl--1", type := some "tool", x_mitre_aliases := some ["Tl"],
    description := some "dt", external_references := some [mref "S0002"] }

def recMit : Record :=
  { id := "co--1", type := some "course-of-action", name := some "Mit",
    description := some "dmi", external_references := some [mref "M1"] }

def recTacC5 : Record :=
  { id := "ta--9", type := some "x-mitre-tactic", name := some "Tac",
    description := some "dta", external_references := some [mref "TA9"] }

def recActC5 : Record :=
  { id := "is--9", type := some "intrusion-set", aliases := some ["AA"],
    external_references := some [mref "G9"] }

def stT1 : TState := { g := { techniques := [("T1", techEntity "Tech One" "d1")] } }

def rkFold (f : String → Option NameDesc) (l : List String)
    (acc : List (String × NameDesc)) : List (String × NameDesc) :=
  l.foldl (fun acc x =>
    match f x with
    | some d => dinsert acc x d
    | none => acc) acc

def rkF (g : Graph) (k : Kind) (x : String) : Option NameDesc :=
  (dlookup (g.kmap k) x).map (fun t => { name := t.name, description := t.description })

/-- The per-field effect of the in-place unfold of `findTTPOverlap`
(lines 302-312): a truthy relation value is replaced by the resolved
`{name, description}` dict; absent and falsy values are untouched. -/
def updK (g : Graph) (k : Kind) : Option RelVal → Option RelVal
  | some v => if relTruthy (some v) then some (.unfolded (resolveKind g k (relKeys v))) else some v
  | none => none

/-- The six non-actor maps of a graph agree. -/
def sameNonActors (g g0 : Graph) : Prop :=
  g.tactics = g0.tactics ∧ g.techniques = g0.techniques ∧
  g.subtechniques = g0.subtechniques ∧ g.malwares = g0.malwares ∧
  g.mitigations = g0.mitigations ∧ g.tools = g0.tools
/-- The qualification test of line 299. -/
def ttpQual (TTPs : List String) (e : Entity) : Bool :=
  (actorContent e).length > 0 && TTPs.all (fun t => t ∈ actorContent e)

def kstep (e : Entity) (am : List (Kind × List String)) (k : Kind) :
    List (Kind × List String) :=
  match e.rel k with
  | some v =>
    if relTruthy (some v) then
      dinsert am k ((relKeys v).foldl dedupAppend ((dlookup am k).getD []))
    else am
  | none => am
def cActs (cache : List (String × Graph)) (a : String) : List (String × Entity) :=
  cache.foldl (fun acc p =>
    match dlookup p.2.actors a with
    | some e => dinsert acc p.1 e
    | none => acc) []
def amapStep (acts : List (String × Entity)) (am : List (Kind × List String)) (m : String) :
    List (Kind × List String) :=
  match dlookup acts m with
  | none => am
  | some e => aoKinds.foldl (kstep e) am
def aoAsum0 (a1 a2 : String) : List (String × ActorSum) :=
  dinsert (dinsert [] a1 { name := [], description := "" }) a2 { name := [], description := "" }
def aoAmap0 : List (Kind × List String) := aoKinds.map (fun k => (k, []))
def aoAccSelf (cache : List (String × Graph)) (a : String) :
    (List (Kind × List String)) × (List (Kind × List String)) × (List (String × ActorSum)) :=
  (setUnion ((cActs cache a).map Prod.fst) ((cActs cache a).map Prod.fst)).foldl
    (fun acc m =>
      let a1 := accumSide (cActs cache a) m a acc.1 acc.2.2
      let a2 := accumSide (cActs cache a) m a acc.2.1 a1.2
      (a1.1, a2.1, a2.2)) (aoAmap0, aoAmap0, aoAsum0 a a)
def aoMkSelf (cache : List (String × Graph)) (a : String) (k : Kind) :
    Option (List (String × NameDesc)) :=
  let keys := ((dlookup (aoAccSelf cache a).1 k).getD []).filter
    (fun x => x ∈ (dlookup (aoAccSelf cache a).2.1 k).getD [])
  if keys.length = 0 then none else some (kindOverlapDict cache k keys)
def aoResSelf (cache : List (String × Graph)) (a : String) : Option Overlap :=
  if (aoMkSelf cache a .Malwares).isSome || (aoMkSelf cache a .Mitigations).isSome ||
     (aoMkSelf cache a .Subtechniques).isSome || (aoMkSelf cache a .Techniques).isSome ||
     (aoMkSelf cache a .Tools).isSome then
    some { actors := finalizeActor (finalizeActor (aoAccSelf cache a).2.2 a) a,
           matrices := setUnion ((cActs cache a).map Prod.fst) ((cActs cache a).map Prod.fst),
           oMalwares := aoMkSelf cache a .Malwares,
           oMitigations := aoMkSelf cache a .Mitigations,
           oSubtechniques := aoMkSelf cache a .Subtechniques,
           oTechniques := aoMkSelf cache a .Techniques,
           oTools := aoMkSelf cache a .Tools }
  else none

def Pres (g : Graph) (A : Kind) (x : String) : Prop := (dlookup (g.kmap A) x).isSome
def MEdge (g : Graph) (A : Kind) (x : String) (B : Kind) (y : String) : Prop :=
  ∃ e, dlookup (g.kmap A) x = some e ∧ relMem e B y
def appendForm (g : Graph) (k : Kind) (sid : String) (e : Entity) (k' : Kind)
    (l : List String) (tid : String) : Graph :=
  g.setKmap k (dinsert (g.kmap k) sid (e.setRel k' (.ids (l ++ [tid]))))
def FreshAt (K : Kind) (e0 : Entity) : Prop :=
  (∀ B, (schemaHas K B = true → e0.rel B = some (.ids [])) ∧
        (schemaHas K B = false → e0.rel B = none)) ∧ namePred K e0

theorem dlookup_nil {κ α : Type} [DecidableEq κ] (k : κ) :
    dlookup ([] : List (κ × α)) k = none := rfl

theorem dlookup_cons {κ α : Type} [DecidableEq κ] (p : κ × α) (t : List (κ × α)) (k : κ) :
    dlookup (p :: t) k = if p.1 = k then some p.2 else dlookup t k := by
  by_cases h : p.1 = k
  · simp [dlookup, List.find?, h]
  · simp [dlookup, List.find?, h]

theorem dinsert_isSome {κ α : Type} [DecidableEq κ] (l : List (κ × α)) (k : κ) :
    (l.find? (fun p => p.1 = k)).isSome = (dlookup l k).isSome := by
  simp [dlookup]

theorem dlookup_map_replace {κ α : Type} [DecidableEq κ] (l : List (κ × α)) (k k' : κ) (v : α)
    (hne : k' ≠ k) :
    dlookup (l.map (fun q => if q.1 = k then (k, v) else q)) k' = dlookup l k' := by
  have hkk : ¬((k : κ) = k') := fun h => hne h.symm
  induction l with
  | nil => rfl
  | cons q s ih =>
    simp only [List.map]
    rw [dlookup_cons, dlookup_cons]
    by_cases hq : q.1 = k <;> by_cases hqk : q.1 = k' <;> simp_all

theorem dlookup_map_replace_self {κ α : Type} [DecidableEq κ] (l : List (κ × α)) (k : κ) (v : α)
    (h : (dlookup l k).isSome) :
    dlookup (l.map (fun q => if q.1 = k then (k, v) else q)) k = some v := by
  induction l with
  | nil => simp [dlookup] at h
  | cons q s ih =>
    simp only [List.map]
    rw [dlookup_cons] at h
    rw [dlookup_cons]
    by_cases hq : q.1 = k
    · simp [hq]
    · simp only [hq, if_false]
      simp only [hq, if_false] at h
      simpa [hq] using ih (by simpa [hq] using h)

theorem dlookup_append_single {κ α : Type} [DecidableEq κ] (l : List (κ × α)) (k k' : κ) (v : α)
    (h : dlookup l k = none) :
    dlookup (l ++ [(k, v)]) k' = if k' = k then some v else dlookup l k' := by
  induction l with
  | nil =>
    simp only [List.nil_append]
    rw [dlookup_cons, dlookup_nil]
    by_cases hk : k' = k
    · simp [hk]
    · have : ¬((k : κ) = k') := fun hh => hk hh.symm
      simp [this, hk]
  | cons q s ih =>
    rw [dlookup_cons] at h
    by_cases hq : q.1 = k
    · simp [hq] at h
    · simp only [hq, if_false] at h
      simp only [List.cons_append]
      rw [dlookup_cons, dlookup_cons, ih h]
      by_cases hqk' : q.1 = k'
      · by_cases hk : k' = k
        · exact absurd (hqk'.trans hk) hq
        · simp [hqk', hk]
      · simp [hqk']

theorem dlookup_dinsert {κ α : Type} [DecidableEq κ] (l : List (κ × α)) (k k' : κ) (v : α) :
    dlookup (dinsert l k v) k' = if k' = k then some v else dlookup l k' := by
  unfold dinsert
  rw [dinsert_isSome]
  by_cases h : (dlookup l k).isSome
  · simp only [h, if_true]
    by_cases hk : k' = k
    · subst hk; rw [dlookup_map_replace_self l k' v h, if_pos rfl]
    · rw [dlookup_map_replace l k k' v hk, if_neg hk]
  · have hnone : dlookup l k = none := by
      cases hc : dlookup l k
      · rfl
      · rw [hc] at h; simp at h
    simp only [h, Bool.false_eq_true, if_false]
    exact dlookup_append_single l k k' v hnone

theorem dinsert_keys_of_mem {κ α : Type} [DecidableEq κ] (l : List (κ × α)) (k : κ) (v : α)
    (h : (dlookup l k).isSome) :
    (dinsert l k v).map Prod.fst = l.map Prod.fst := by
  unfold dinsert
  rw [dinsert_isSome, h, if_pos rfl, List.map_map]
  apply List.map_congr_left
  intro p _
  by_cases hp : p.1 = k <;> simp [hp]

theorem dlookup_isSome_iff_mem {κ α : Type} [DecidableEq κ] (l : List (κ × α)) (k : κ) :
    (dlookup l k).isSome ↔ k ∈ l.map Prod.fst := by
  induction l with
  | nil => simp [dlookup]
  | cons q s ih =>
    rw [dlookup_cons]
    by_cases hq : q.1 = k
    · simp [hq]
    · simp only [hq, if_false, List.map, List.mem_cons]
      rw [ih]
      constructor
      · exact Or.inr
      · rintro (h | h)
        · exact absurd h.symm hq
        · exact h

theorem dlookup_eq_none_iff_not_mem {κ α : Type} [DecidableEq κ] (l : List (κ × α)) (k : κ) :
    dlookup l k = none ↔ k ∉ l.map Prod.fst := by
  rw [← dlookup_isSome_iff_mem]
  cases dlookup l k <;> simp

theorem dinsert_keys_of_not_mem {κ α : Type} [DecidableEq κ] (l : List (κ × α)) (k : κ) (v : α)
    (h : dlookup l k = none) :
    (dinsert l k v).map Prod.fst = l.map Prod.fst ++ [k] := by
  unfold dinsert
  rw [dinsert_isSome, h]
  simp

/-- Invariant preservation along a monadic fold over `Option`. -/
theorem foldlM_option_inv {σ α : Type} (P : σ → Prop) (f : σ → α → Option σ)
    (hf : ∀ s a s', P s → f s a = some s' → P s') :
    ∀ (l : List α) (s s' : σ), P s → l.foldlM f s = some s' → P s' := by
  intro l
  induction l with
  | nil =>
    intro s s' h hr
    simp only [List.foldlM_nil, Option.pure_def, Option.some.injEq] at hr
    exact hr ▸ h
  | cons a t ih =>
    intro s s' h hr
    simp only [List.foldlM_cons] at hr
    cases hfa : f s a with
    | none => rw [hfa] at hr; simp at hr
    | some s1 =>
      rw [hfa] at hr
      simp only [Option.bind_eq_bind, Option.some_bind] at hr
      exact ih s1 s' (hf s a s1 h hfa) hr

/-- `Entity.rel` after `Entity.setRel`. -/
theorem rel_setRel (e : Entity) (k k' : Kind) (v : RelVal) :
    (e.setRel k v).rel k' =
      if k' = k ∧ k ≠ Kind.Tactics then some v else e.rel k' := by
  cases k <;> cases k' <;> simp [Entity.setRel, Entity.rel]

/-- `Entity.setRel` does not change the name. -/
theorem name_setRel (e : Entity) (k : Kind) (v : RelVal) :
    (e.setRel k v).name = e.name := by
  cases k <;> simp [Entity.setRel]

/-- `Graph.kmap` after `Graph.setKmap`. -/
theorem kmap_setKmap (g : Graph) (k k' : Kind) (m : List (String × Entity)) :
    (g.setKmap k m).kmap k' = if k' = k then m else g.kmap k' := by
  cases k <;> cases k' <;> simp [Graph.setKmap, Graph.kmap]

/-- An entity never has a `Tactics` relation key. -/
theorem rel_tactics (e : Entity) : e.rel Kind.Tactics = none := rfl

/-- Claim C2 (code bug): the search API's own documentation and the spec say
matching is case-insensitive, but line 374 lowercases only the query, not a
scalar field.  The term `"Persistence"` occurs case-insensitively in the
scalar name `"Persistence"` (the spec predicate holds), yet `searchMatrix`
returns nothing; the identical name as a LIST matches. -/
theorem C2_scalar_search_case_sensitive :
    specSearchMatches ["Persistence"] entPersist ∧
    searchMatrix ["Persistence"] "M" (some gSearch) = [] ∧
    searchMatrix ["Persistence"] "M" (some gSearchL) ≠ [] := by
  refine ⟨⟨"Persistence", by simp, Or.inl ?_⟩, by rfl, by decide⟩
  show strContains (strLower "Persistence") (strLower "Persistence") = true
  decide

/-- Claim C3 (code bug): a record with no ATT&CK external reference is NOT
dropped — the stale `id` variable makes it overwrite the previous record's
entry (`recActorB` is stored under `G0001`); and with several matching
references the LAST one wins, not the first (`recActorTwoRefs` is stored
under `G0002`). -/
theorem C3_stale_id_reuse :
    (∃ g, Transform {} [recActorA, recActorB] = some g ∧ g.actors = [("G0001", eActB)]) ∧
    (∃ g, Transform {} [recActorTwoRefs] = some g ∧ g.actors.map Prod.fst = ["G0002"]) :=
  ⟨⟨_, rfl, rfl⟩, ⟨_, rfl, rfl⟩⟩

/-- Claim C10 (code bug): an absent cache file is absorbed into an explicit
absent result, but an undecodable one raising `pickle.UnpicklingError` is not
caught by `except (ValueError, FileNotFoundError)` and propagates to the
caller. -/
theorem C10_loadCache_corrupt_raises :
    loadCache (fun _ => .corrupt .unpicklingError) "Enterprise" = .error .unpicklingError ∧
    loadCache (fun _ => .absent) "Enterprise" = .ok none := ⟨rfl, rfl⟩

/-- Claim C1 is false as stated: on the bundle `[recTech, recSub, recSub]`
the containment edge `T1.001 ∈ T1.Subtechniques` has no mirror (a
Subtechnique entity carries no `Techniques` key), and the duplicate
subtechnique record makes `T1.Subtechniques = [T1.001, T1.001]`. -/
theorem C1_counterexample :
    ¬ c1Claim ∧
    Transform {} [recTech, recSub, recSub] = some gC1 ∧
    relMem eT1 .Subtechniques "T1.001" ∧ ¬ relMem eSub .Techniques "T1" ∧
    ¬ (relKeys (.ids ["T1.001", "T1.001"])).Nodup := by
  refine ⟨?_, rfl, ?_, ?_, by decide⟩
  · intro h
    obtain ⟨hs, hn⟩ := h {} [recTech, recSub, recSub] gC1 rfl
    have hd := hn .Techniques "T1" eT1 (by rfl) .Subtechniques (.ids ["T1.001", "T1.001"]) (by rfl)
    simp [relKeys] at hd
  · simp [relMem, Entity.rel, eT1, relKeys]
  · simp [relMem, Entity.rel, eSub]

/-- Claim C9 is false as stated: an `intrusion-set` record without an
`aliases` field gets the SCALAR `entry['name']` (line 512), so the actor
entity's name is not a list. -/
theorem C9_counterexample :
    ¬ c9Claim ∧
    Transform {} [recActorA] = some gActA ∧
    eActA.name = NameF.scalar "ActorA" := by
  refine ⟨?_, rfl, rfl⟩
  intro h
  obtain ⟨hsc, hlst⟩ := h {} [recActorA] gActA rfl
  obtain ⟨l, hl⟩ := hlst .Actors (by simp) "G0001" eActA (by rfl)
  simp [eActA] at hl

/-- Claim C8 is false as stated: `findTTPOverlap` writes through into the
queried graphs (its result dict aliases the cache entities it mutates), so
the cache after the call differs from the input. -/
theorem C8_counterexample :
    ¬ c8Claim ∧ (findTTPOverlap [] [("M", gTTP)]).1 ≠ [("M", gTTP)] := by
  have hne : (findTTPOverlap [] [("M", gTTP)]).1 ≠ [("M", gTTP)] := by decide
  exact ⟨fun h => hne (h [] [("M", gTTP)]), hne⟩

/-- Claim C4 is false as stated: `findTTPOverlap` does NOT unfold like
`unfoldKeys` — the unresolvable id `T9999` is silently dropped from the
matched actor's `Techniques` dict instead of being replaced by the
deprecated/revoked placeholder. -/
theorem C4_counterexample :
    ¬ c4Claim ∧
    dlookup (findTTPOverlap [] [("M", gTTP)]).2 "M" = some [("GA", eGAunf)] ∧
    eGAunf.rel .Techniques = some (.unfolded [("T1", { name := .scalar "Tech One", description := "d1" })]) := by
  refine ⟨?_, by rfl, rfl⟩
  intro h
  have h2 := h [] [("M", gTTP)] "M" [("GA", eGAunf)] "GA" eGAunf gTTP actGA
    (by rfl) (by rfl) (by rfl) (by rfl)
    .Techniques (.ids ["T9999", "T1"]) (by simp [ttpKinds]) (by rfl) (by rfl)
  obtain ⟨m', hm', hall⟩ := h2
  have hmv : m' = [("T1", ({ name := .scalar "Tech One", description := "d1" } : NameDesc))] := by
    have : eGAunf.rel .Techniques = some (.unfolded [("T1", { name := .scalar "Tech One", description := "d1" })]) := rfl
    rw [this] at hm'
    exact (RelVal.unfolded.inj (Option.some.inj hm')).symm ▸ rfl
  obtain ⟨hres, hnores⟩ := hall "T9999" (by simp [relKeys])
  have := hnores (by rfl)
  rw [hmv] at this
  simp at this

/-- Claim C7 is false as stated: (1) an id of the actor's union-set that
resolves in no matrix (`S1` in `gAO1`) is missing from the returned overlap
dict (which is present but empty); (2) an actor id with a trailing slash
(`G1/` in `gAO2`) is skipped by the stripped-key truthiness test, so the
call returns the absent result although the actor's kind-sets are
non-empty. -/
theorem C7_counterexample :
    ¬ c7Claim ∧
    findActorOverlap [("M", gAO2)] "G1/" "G1/" = some none ∧
    actorKindUnion [("M", gAO2)] "G1/" .Malwares = ["S1"] := by
  refine ⟨?_, rfl, rfl⟩
  intro h
  obtain ⟨res, hres, hiff, hov⟩ := h [("M", gAO1)] "G1" ⟨("M", gAO1), by simp, by decide⟩
  have hcomp : findActorOverlap [("M", gAO1)] "G1" "G1" = some (some ovG1) := by rfl
  rw [hcomp] at hres
  have hres2 : res = some ovG1 := (Option.some.inj hres).symm
  obtain ⟨dict, hd, hx⟩ := hov ovG1 hres2 .Malwares (by simp [aoKinds]) "S1"
    (by show "S1" ∈ actorKindUnion [("M", gAO1)] "G1" .Malwares; rw [show actorKindUnion [("M", gAO1)] "G1" .Malwares = ["S1"] from rfl]; simp)
  have : dict = [] := Option.some.inj ((show ovG1.okind .Malwares = some [] from rfl) ▸ hd).symm
  rw [this] at hx
  simp at hx

theorem c5h_revoked_skip :
    ∀ (o : Options) (st : TState) (r : Record),
      r.revoked = true → malwaresStep o st r = some st ∧ toolsStep o st r = some st := by
  intro o st r h
  constructor <;> simp [malwaresStep, toolsStep, eligNoRev, h]

theorem c5h_malware_retain :
    ∀ (o : Options) (st : TState) (r : Record) (al : List String) (refs : List ExtRef) (i : String),
      r.type = some "malware" → r.x_mitre_aliases = some al →
      r.external_references = some refs → resolveId st.id refs = some i →
      dlookup st.g.malwares i = none →
      ∃ st', malwaresStep o st r = some st' ∧
        ((dlookup st'.g.malwares i).isSome ↔
          (r.revoked = false ∧ (r.x_mitre_deprecated = false ∨ o.deprecated = true))) := by
  intro o st r al refs i hty hal href hres hnone
  by_cases hel : eligNoRev o r = true
  · simp only [malwaresStep, hel, hty, hal, href, hres, pyTruthy?, dinsOpt]
    simp [hres, dlookup_dinsert]
    unfold eligNoRev at hel
    simp only [Bool.and_eq_true, Bool.not_eq_true', Bool.or_eq_true, Bool.not_eq_true] at hel
    obtain ⟨h1, h2⟩ := hel
    refine ⟨h1, ?_⟩
    rcases h2 with h2 | h2
    · exact Or.inl h2
    · exact Or.inr h2
  · have hel2 : eligNoRev o r = false := by
      cases h : eligNoRev o r
      · rfl
      · exact absurd h hel
    refine ⟨st, ?_, ?_⟩
    · simp [malwaresStep, hel2]
    · rw [hnone]
      simp only [Option.isSome_none, Bool.false_eq_true, false_iff]
      rintro ⟨h1, h2⟩
      apply hel
      unfold eligNoRev
      rcases h2 with h2 | h2 <;> simp [h1, h2]

theorem c5h_tool_retain :
    ∀ (o : Options) (st : TState) (r : Record) (al : List String) (d : String)
      (refs : List ExtRef) (i : String),
      r.type = some "tool" → r.x_mitre_aliases = some al → r.description = some d →
      r.external_references = some refs → resolveId st.id refs = some i →
      dlookup st.g.tools i = none →
      ∃ st', toolsStep o st r = some st' ∧
        ((dlookup st'.g.tools i).isSome ↔
          (r.revoked = false ∧ (r.x_mitre_deprecated = false ∨ o.deprecated = true))) := by
  intro o st r al d refs i hty hal hd href hres hnone
  by_cases hel : eligNoRev o r = true
  · simp only [toolsStep, hel, hty, hal, hd, href, hres, pyTruthy?, dinsOpt]
    simp [hres, dlookup_dinsert]
    unfold eligNoRev at hel
    simp only [Bool.and_eq_true, Bool.not_eq_true', Bool.or_eq_true, Bool.not_eq_true] at hel
    obtain ⟨h1, h2⟩ := hel
    exact ⟨h1, h2.imp id id⟩
  · have hel2 : eligNoRev o r = false := by
      cases h : eligNoRev o r
      · rfl
      · exact absurd h hel
    refine ⟨st, by simp [toolsStep, hel2], ?_⟩
    rw [hnone]
    simp only [Option.isSome_none, Bool.false_eq_true, false_iff]
    rintro ⟨h1, h2⟩
    apply hel
    unfold eligNoRev
    rcases h2 with h2 | h2 <;> simp [h1, h2]

theorem c5h_actor_retain :
    ∀ (o : Options) (st : TState) (r : Record) (al : List String)
      (refs : List ExtRef) (i : String),
      r.type = some "intrusion-set" → r.aliases = some al → al ≠ [] →
      r.external_references = some refs → resolveId st.id refs = some i →
      dlookup st.g.actors i = none →
      ∃ st', actorsStep o st r = some st' ∧
        ((dlookup st'.g.actors i).isSome ↔
          ((r.revoked = false ∨ o.revoked = true) ∧
           (r.x_mitre_deprecated = false ∨ o.deprecated = true))) := by
  intro o st r al refs i hty hal hne href hres hnone
  by_cases hel : elig o r = true
  · simp only [actorsStep, hel, hty, hal, hne, href, hres, pyTruthy?, dinsOpt]
    simp [hres, hne, dlookup_dinsert]
    unfold elig at hel
    simp only [Bool.and_eq_true, Bool.not_eq_true', Bool.or_eq_true, Bool.not_eq_true] at hel
    obtain ⟨h1, h2⟩ := hel
    exact ⟨h1.imp id id, h2.imp id id⟩
  · have hel2 : elig o r = false := by
      cases h : elig o r
      · rfl
      · exact absurd h hel
    refine ⟨st, by simp [actorsStep, hel2], ?_⟩
    rw [hnone]
    simp only [Option.isSome_none, Bool.false_eq_true, false_iff]
    rintro ⟨h1, h2⟩
    apply hel
    unfold elig
    rcases h1 with h1 | h1 <;> rcases h2 with h2 | h2 <;> simp [h1, h2]

theorem c5h_mitigation_retain :
    ∀ (o : Options) (st : TState) (r : Record) (nm d : String)
      (refs : List ExtRef) (i : String),
      r.type = some "course-of-action" → r.name = some nm → r.description = some d →
      r.external_references = some refs → resolveId st.id refs = some i →
      dlookup st.g.mitigations i = none →
      ∃ st', mitigationsStep o st r = some st' ∧
        ((dlookup st'.g.mitigations i).isSome ↔
          ((r.revoked = false ∨ o.revoked = true) ∧
           (r.x_mitre_deprecated = false ∨ o.deprecated = true))) := by
  intro o st r nm d refs i hty hnm hd href hres hnone
  by_cases hel : elig o r = true
  · simp only [mitigationsStep, hel, hty, hnm, hd, href, hres, pyTruthy?, dinsOpt]
    simp [hres, dlookup_dinsert]
    unfold elig at hel
    simp only [Bool.and_eq_true, Bool.not_eq_true', Bool.or_eq_true, Bool.not_eq_true] at hel
    obtain ⟨h1, h2⟩ := hel
    exact ⟨h1.imp id id, h2.imp id id⟩
  · have hel2 : elig o r = false := by
      cases h : elig o r
      · rfl
      · exact absurd h hel
    refine ⟨st, by simp [mitigationsStep, hel2], ?_⟩
    rw [hnone]
    simp only [Option.isSome_none, Bool.false_eq_true, false_iff]
    rintro ⟨h1, h2⟩
    apply hel
    unfold elig
    rcases h1 with h1 | h1 <;> rcases h2 with h2 | h2 <;> simp [h1, h2]

theorem c5h_tactic_retain :
    ∀ (o : Options) (st : TState) (r : Record) (nm d : String)
      (refs : List ExtRef) (i : String),
      r.type = some "x-mitre-tactic" → r.name = some nm → r.description = some d →
      r.external_references = some refs → resolveId st.id refs = some i →
      dlookup st.g.tactics i = none →
      ∃ st', tacticsStep o st r = some st' ∧
        ((dlookup st'.g.tactics i).isSome ↔
          ((r.revoked = false ∨ o.revoked = true) ∧
           (r.x_mitre_deprecated = false ∨ o.deprecated = true))) := by
  intro o st r nm d refs i hty hnm hd href hres hnone
  by_cases hel : elig o r = true
  · simp only [tacticsStep, hel, hty, hnm, hd, href, hres, pyTruthy?, dinsOpt]
    simp [hres, dlookup_dinsert]
    unfold elig at hel
    simp only [Bool.and_eq_true, Bool.not_eq_true', Bool.or_eq_true, Bool.not_eq_true] at hel
    obtain ⟨h1, h2⟩ := hel
    exact ⟨h1.imp id id, h2.imp id id⟩
  · have hel2 : elig o r = false := by
      cases h : elig o r
      · rfl
      · exact absurd h hel
    refine ⟨st, by simp [tacticsStep, hel2], ?_⟩
    rw [hnone]
    simp only [Option.isSome_none, Bool.false_eq_true, false_iff]
    rintro ⟨h1, h2⟩
    apply hel
    unfold elig
    rcases h1 with h1 | h1 <;> rcases h2 with h2 | h2 <;> simp [h1, h2]

theorem c5h_technique_retain :
    ∀ (o : Options) (st : TState) (r : Record) (nm : String)
      (refs : List ExtRef) (i : String),
      r.type = some "attack-pattern" → r.x_mitre_is_subtechnique = none →
      r.name = some nm → r.kill_chain_phases = [] →
      r.external_references = some refs → resolveId st.id refs = some i →
      dlookup st.g.techniques i = none →
      ∃ st', techniquesStep o st r = some st' ∧
        ((dlookup st'.g.techniques i).isSome ↔
          ((r.revoked = false ∨ o.revoked = true) ∧
           (r.x_mitre_deprecated = false ∨ o.deprecated = true))) := by
  intro o st r nm refs i hty hsub hnm hkcp href hres hnone
  by_cases hel : elig o r = true
  · simp only [techniquesStep, hel, hty, hsub, hnm, hkcp, href, hres, pyTruthy?, pyTruthyB, dinsOpt]
    simp [hres, dlookup_dinsert]
    unfold elig at hel
    simp only [Bool.and_eq_true, Bool.not_eq_true', Bool.or_eq_true, Bool.not_eq_true] at hel
    obtain ⟨h1, h2⟩ := hel
    exact ⟨h1.imp id id, h2.imp id id⟩
  · have hel2 : elig o r = false := by
      cases h : elig o r
      · rfl
      · exact absurd h hel
    refine ⟨st, by simp [techniquesStep, hel2], ?_⟩
    rw [hnone]
    simp only [Option.isSome_none, Bool.false_eq_true, false_iff]
    rintro ⟨h1, h2⟩
    apply hel
    unfold elig
    rcases h1 with h1 | h1 <;> rcases h2 with h2 | h2 <;> simp [h1, h2]

theorem c5h_subtechnique_retain :
    ∀ (o : Options) (st : TState) (r : Record) (nm : String) (i : String) (pe : Entity)
      (pl : List String),
      r.type = some "attack-pattern" → r.x_mitre_is_subtechnique = some true →
      r.name = some nm → r.external_references = some [mref i] → i ≠ "" →
      dlookup st.g.techniques (dotPrefix i) = some pe →
      pe.rSubtechniques = some (.ids pl) →
      dlookup st.g.subtechniques i = none →
      ∃ st', subtechniquesStep o st r = some st' ∧
        ((dlookup st'.g.subtechniques i).isSome ↔
          ((r.revoked = false ∨ o.revoked = true) ∧
           (r.x_mitre_deprecated = false ∨ o.deprecated = true))) := by
  intro o st r nm i pe pl hty hsub hnm href hi hpar hpes hnone
  by_cases hel : elig o r = true
  · have hsc : strContains (strLower "mitre-attack") "attack" = true := by decide
    simp only [subtechniquesStep, hel, hty, hsub, hnm, href, pyTruthy?, pyTruthyB,
      subResolveFold, List.foldlM_cons, List.foldlM_nil, mref, dinsOpt]
    simp [hi, hsc, hpar, hpes, dlookup_dinsert]
    unfold elig at hel
    simp only [Bool.and_eq_true, Bool.not_eq_true', Bool.or_eq_true, Bool.not_eq_true] at hel
    obtain ⟨h1, h2⟩ := hel
    exact ⟨h1.imp id id, h2.imp id id⟩
  · have hel2 : elig o r = false := by
      cases h : elig o r
      · rfl
      · exact absurd h hel
    refine ⟨st, by simp [subtechniquesStep, hel2], ?_⟩
    rw [hnone]
    simp only [Option.isSome_none, Bool.false_eq_true, false_iff]
    rintro ⟨h1, h2⟩
    apply hel
    unfold elig
    rcases h1 with h1 | h1 <;> rcases h2 with h2 | h2 <;> simp [h1, h2]

/-- Claim C5: revoked Malware and Tool records are excluded unconditionally —
even under `includeRevoked` — while for every other kind a (well-formed,
id-resolving, fresh) record is retained exactly when the standard policy
allows it: revoked needs `includeRevoked`, deprecated needs
`includeDeprecated`; deprecated Malware/Tool records follow
`includeDeprecated` as well (their retention iff below has `revoked = false`
in place of the `revoked = false ∨ includeRevoked` disjunct). -/
theorem C5_filtering_policy :
    (∀ (o : Options) (st : TState) (r : Record),
      r.revoked = true → malwaresStep o st r = some st ∧ toolsStep o st r = some st) ∧
    (∀ (o : Options) (st : TState) (r : Record) (al : List String) (refs : List ExtRef) (i : String),
      r.type = some "malware" → r.x_mitre_aliases = some al →
      r.external_references = some refs → resolveId st.id refs = some i →
      dlookup st.g.malwares i = none →
      ∃ st', malwaresStep o st r = some st' ∧
        ((dlookup st'.g.malwares i).isSome ↔
          (r.revoked = false ∧ (r.x_mitre_deprecated = false ∨ o.deprecated = true)))) ∧
    (∀ (o : Options) (st : TState) (r : Record) (al : List String) (d : String)
      (refs : List ExtRef) (i : String),
      r.type = some "tool" → r.x_mitre_aliases = some al → r.description = some d →
      r.external_references = some refs → resolveId st.id refs = some i →
      dlookup st.g.tools i = none →
      ∃ st', toolsStep o st r = some st' ∧
        ((dlookup st'.g.tools i).isSome ↔
          (r.revoked = false ∧ (r.x_mitre_deprecated = false ∨ o.deprecated = true)))) ∧
    (∀ (o : Options) (st : TState) (r : Record) (al : List String)
      (refs : List ExtRef) (i : String),
      r.type = some "intrusion-set" → r.aliases = some al → al ≠ [] →
      r.external_references = some refs → resolveId st.id refs = some i →
      dlookup st.g.actors i = none →
      ∃ st', actorsStep o st r = some st' ∧
        ((dlookup st'.g.actors i).isSome ↔
          ((r.revoked = false ∨ o.revoked = true) ∧
           (r.x_mitre_deprecated = false ∨ o.deprecated = true)))) ∧
    (∀ (o : Options) (st : TState) (r : Record) (nm d : String)
      (refs : List ExtRef) (i : String),
      r.type = some "course-of-action" → r.name = some nm → r.description = some d →
      r.external_references = some refs → resolveId st.id refs = some i →
      dlookup st.g.mitigations i = none →
      ∃ st', mitigationsStep o st r = some st' ∧
        ((dlookup st'.g.mitigations i).isSome ↔
          ((r.revoked = false ∨ o.revoked = true) ∧
           (r.x_mitre_deprecated = false ∨ o.deprecated = true)))) ∧
    (∀ (o : Options) (st : TState) (r : Record) (nm d : String)
      (refs : List ExtRef) (i : String),
      r.type = some "x-mitre-tactic" → r.name = some nm → r.description = some d →
      r.external_references = some refs → resolveId st.id refs = some i →
      dlookup st.g.tactics i = none →
      ∃ st', tacticsStep o st r = some st' ∧
        ((dlookup st'.g.tactics i).isSome ↔
          ((r.revoked = false ∨ o.revoked = true) ∧
           (r.x_mitre_deprecated = false ∨ o.deprecated = true)))) ∧
    (∀ (o : Options) (st : TState) (r : Record) (nm : String)
      (refs : List ExtRef) (i : String),
      r.type = some "attack-pattern" → r.x_mitre_is_subtechnique = none →
      r.name = some nm → r.kill_chain_phases = [] →
      r.external_references = some refs → resolveId st.id refs = some i →
      dlookup st.g.techniques i = none →
      ∃ st', techniquesStep o st r = some st' ∧
        ((dlookup st'.g.techniques i).isSome ↔
          ((r.revoked = false ∨ o.revoked = true) ∧
           (r.x_mitre_deprecated = false ∨ o.deprecated = true)))) ∧
    (∀ (o : Options) (st : TState) (r : Record) (nm : String) (i : String) (pe : Entity)
      (pl : List String),
      r.type = some "attack-pattern" → r.x_mitre_is_subtechnique = some true →
      r.name = some nm → r.external_references = some [mref i] → i ≠ "" →
      dlookup st.g.techniques (dotPrefix i) = some pe →
      pe.rSubtechniques = some (.ids pl) →
      dlookup st.g.subtechniques i = none →
      ∃ st', subtechniquesStep o st r = some st' ∧
        ((dlookup st'.g.subtechniques i).isSome ↔
          ((r.revoked = false ∨ o.revoked = true) ∧
           (r.x_mitre_deprecated = false ∨ o.deprecated = true)))) :=
  ⟨c5h_revoked_skip, c5h_malware_retain, c5h_tool_retain, c5h_actor_retain,
   c5h_mitigation_retain, c5h_tactic_retain, c5h_technique_retain,
   c5h_subtechnique_retain⟩

/-- Claim C5 witness: every conjunct of `C5_filtering_policy` instantiated at
concrete records and policies. -/
theorem C5_witness :
    (malwaresStep ⟨true, false⟩ {} recMalRevoked = some {} ∧
     toolsStep ⟨true, false⟩ {} recMalRevoked = some {}) ∧
    (∃ st', malwaresStep ⟨false, false⟩ {} recMal = some st' ∧
      ((dlookup st'.g.malwares "S0001").isSome ↔
        (recMal.revoked = false ∧
         (recMal.x_mitre_deprecated = false ∨ (⟨false, false⟩ : Options).deprecated = true)))) ∧
    (∃ st', toolsStep ⟨false, false⟩ {} recTool = some st' ∧
      ((dlookup st'.g.tools "S0002").isSome ↔
        (recTool.revoked = false ∧
         (recTool.x_mitre_deprecated = false ∨ (⟨false, false⟩ : Options).deprecated = true)))) ∧
    (∃ st', actorsStep ⟨false, false⟩ {} recActC5 = some st' ∧
      ((dlookup st'.g.actors "G9").isSome ↔
        ((recActC5.revoked = false ∨ (⟨false, false⟩ : Options).revoked = true) ∧
         (recActC5.x_mitre_deprecated = false ∨ (⟨false, false⟩ : Options).deprecated = true)))) ∧
    (∃ st', mitigationsStep ⟨false, false⟩ {} recMit = some st' ∧
      ((dlookup st'.g.mitigations "M1").isSome ↔
        ((recMit.revoked = false ∨ (⟨false, false⟩ : Options).revoked = true) ∧
         (recMit.x_mitre_deprecated = false ∨ (⟨false, false⟩ : Options).deprecated = true)))) ∧
    (∃ st', tacticsStep ⟨false, false⟩ {} recTacC5 = some st' ∧
      ((dlookup st'.g.tactics "TA9").isSome ↔
        ((recTacC5.revoked = false ∨ (⟨false, false⟩ : Options).revoked = true) ∧
         (recTacC5.x_mitre_deprecated = false ∨ (⟨false, false⟩ : Options).deprecated = true)))) ∧
    (∃ st', techniquesStep ⟨false, false⟩ {} recTech = some st' ∧
      ((dlookup st'.g.techniques "T1").isSome ↔
        ((recTech.revoked = false ∨ (⟨false, false⟩ : Options).revoked = true) ∧
         (recTech.x_mitre_deprecated = false ∨ (⟨false, false⟩ : Options).deprecated = true)))) ∧
    (∃ st', subtechniquesStep ⟨false, false⟩ stT1 recSub = some st' ∧
      ((dlookup st'.g.subtechniques "T1.001").isSome ↔
        ((recSub.revoked = false ∨ (⟨false, false⟩ : Options).revoked = true) ∧
         (recSub.x_mitre_deprecated = false ∨ (⟨false, false⟩ : Options).deprecated = true)))) := by
  refine ⟨C5_filtering_policy.1 ⟨true, false⟩ {} recMalRevoked rfl, ?_, ?_, ?_, ?_, ?_, ?_, ?_⟩
  · exact C5_filtering_policy.2.1 ⟨false, false⟩ {} recMal ["Mal"] [mref "S0001"] "S0001"
      rfl rfl rfl rfl rfl
  · exact C5_filtering_policy.2.2.1 ⟨false, false⟩ {} recTool ["Tl"] "dt" [mref "S0002"] "S0002"
      rfl rfl rfl rfl rfl rfl
  · exact C5_filtering_policy.2.2.2.1 ⟨false, false⟩ {} recActC5 ["AA"] [mref "G9"] "G9"
      rfl rfl (by decide) rfl rfl rfl
  · exact C5_filtering_policy.2.2.2.2.1 ⟨false, false⟩ {} recMit "Mit" "dmi" [mref "M1"] "M1"
      rfl rfl rfl rfl rfl rfl
  · exact C5_filtering_policy.2.2.2.2.2.1 ⟨false, false⟩ {} recTacC5 "Tac" "dta" [mref "TA9"] "TA9"
      rfl rfl rfl rfl rfl rfl
  · exact C5_filtering_policy.2.2.2.2.2.2.1 ⟨false, false⟩ {} recTech "Tech One" [mref "T1"] "T1"
      rfl rfl rfl rfl rfl rfl rfl
  · exact C5_filtering_policy.2.2.2.2.2.2.2 ⟨false, false⟩ stT1 recSub "Sub One" "T1.001"
      (techEntity "Tech One" "d1") [] rfl rfl rfl rfl (by decide) rfl rfl rfl

theorem mem_dinsert {κ α : Type} [DecidableEq κ] (l : List (κ × α)) (k : κ) (v : α) (q : κ × α) :
    q ∈ dinsert l k v → q = (k, v) ∨ q ∈ l := by
  unfold dinsert
  by_cases hs : (List.find? (fun p => (p.1 = k : Bool)) l).isSome
  · rw [if_pos hs]
    intro hq
    obtain ⟨q0, hq0, hqe⟩ := List.mem_map.mp hq
    by_cases hx : q0.1 = k
    · rw [if_pos hx] at hqe
      exact Or.inl hqe.symm
    · rw [if_neg hx] at hqe
      exact Or.inr (hqe ▸ hq0)
  · rw [if_neg hs]
    intro hq
    rcases List.mem_append.mp hq with h | h
    · exact Or.inr h
    · simp only [List.mem_singleton] at h
      exact Or.inl h

theorem dinsert_cons_ne {κ α : Type} [DecidableEq κ] (p : κ × α) (t : List (κ × α)) (k : κ)
    (v : α) (h : p.1 ≠ k) :
    dinsert (p :: t) k v = p :: dinsert t k v := by
  unfold dinsert
  have hf : List.find? (fun q => (q.1 = k : Bool)) (p :: t) =
      List.find? (fun q => (q.1 = k : Bool)) t := by
    simp [List.find?, h]
  rw [hf]
  by_cases hs : (List.find? (fun q => (q.1 = k : Bool)) t).isSome
  · rw [if_pos hs, if_pos hs]
    simp [List.map, h]
  · rw [if_neg hs, if_neg hs]
    simp

theorem resolveKind_eq_rkFold (g : Graph) (k : Kind) (l : List String) :
    resolveKind g k l = rkFold (rkF g k) l [] := by
  unfold resolveKind rkFold
  apply List.foldl_ext
  intro acc x _
  unfold rkF
  cases dlookup (g.kmap k) x <;> simp

theorem rkFold_vals (f : String → Option NameDesc) :
    ∀ (l : List String) (acc : List (String × NameDesc)),
      (∀ p, p ∈ acc → f p.1 = some p.2) →
      ∀ p, p ∈ rkFold f l acc → f p.1 = some p.2 := by
  intro l
  induction l with
  | nil => intro acc h p hp; exact h p hp
  | cons x t ih =>
    intro acc h p hp
    simp only [rkFold, List.foldl_cons] at hp
    cases hf : f x with
    | none =>
      rw [hf] at hp
      exact ih acc h p hp
    | some d =>
      rw [hf] at hp
      refine ih _ ?_ p hp
      intro q hq
      rcases mem_dinsert acc x d q hq with hq1 | hq1
      · rw [hq1]; exact hf
      · exact h q hq1

theorem rkFold_keys_nodup (f : String → Option NameDesc) :
    ∀ (l : List String) (acc : List (String × NameDesc)),
      (acc.map Prod.fst).Nodup → ((rkFold f l acc).map Prod.fst).Nodup := by
  intro l
  induction l with
  | nil => intro acc h; exact h
  | cons x t ih =>
    intro acc h
    simp only [rkFold, List.foldl_cons]
    cases hf : f x with
    | none => exact ih acc h
    | some d =>
      apply ih
      by_cases hx : (dlookup acc x).isSome
      · rw [dinsert_keys_of_mem acc x d hx]; exact h
      · have : dlookup acc x = none := by
          cases hc : dlookup acc x
          · rfl
          · rw [hc] at hx; simp at hx
        rw [dinsert_keys_of_not_mem acc x d this]
        simp only [List.nodup_append, List.nodup_cons]
        refine ⟨h, by simp, ?_⟩
        intro y hy
        simp only [List.mem_singleton]
        intro he
        rw [he] at hy
        exact absurd ((dlookup_isSome_iff_mem acc x).mpr hy) hx

theorem rkFold_cons_acc (f : String → Option NameDesc) :
    ∀ (xs : List String) (acc : List (String × NameDesc)) (p : String × NameDesc),
      p.1 ∉ xs → rkFold f xs (p :: acc) = p :: rkFold f xs acc := by
  intro xs
  induction xs with
  | nil => intro acc p _; rfl
  | cons x t ih =>
    intro acc p hp
    have hpx : p.1 ≠ x := fun h => hp (h ▸ List.mem_cons_self x t)
    have hpt : p.1 ∉ t := fun h => hp (List.mem_cons_of_mem x h)
    simp only [rkFold, List.foldl_cons]
    cases hf : f x with
    | none =>
      dsimp only
      exact ih acc p hpt
    | some d =>
      dsimp only
      rw [dinsert_cons_ne p acc x d hpx]
      exact ih (dinsert acc x d) p hpt

theorem rkFold_rebuild (f : String → Option NameDesc) :
    ∀ (xs : List (String × NameDesc)),
      (∀ p, p ∈ xs → f p.1 = some p.2) → (xs.map Prod.fst).Nodup →
      rkFold f (xs.map Prod.fst) [] = xs := by
  intro xs
  induction xs with
  | nil => intro _ _; rfl
  | cons p t ih =>
    intro hv hnd
    simp only [List.map, List.nodup_cons] at hnd
    obtain ⟨hp, hndt⟩ := hnd
    simp only [List.map, rkFold, List.foldl_cons]
    rw [hv p (List.mem_cons_self p t)]
    dsimp only
    have h1 : dinsert ([] : List (String × NameDesc)) p.1 p.2 = [p] := by
      simp [dinsert]
    rw [h1]
    have := rkFold_cons_acc f (t.map Prod.fst) [] p hp
    simp only [rkFold] at this ⊢
    rw [this]
    congr 1
    exact ih (fun q hq => hv q (List.mem_cons_of_mem p hq)) hndt

theorem rkFold_mem_keys (f : String → Option NameDesc) :
    ∀ (l : List String) (acc : List (String × NameDesc)) (x : String),
      (x ∈ (rkFold f l acc).map Prod.fst) ↔
        (x ∈ acc.map Prod.fst ∨ (x ∈ l ∧ (f x).isSome)) := by
  intro l
  induction l with
  | nil => simp [rkFold]
  | cons y t ih =>
    intro acc x
    simp only [rkFold, List.foldl_cons]
    cases hf : f y with
    | none =>
      rw [show (List.foldl _ acc t) = rkFold f t acc from rfl, ih]
      constructor
      · rintro (h | h)
        · exact Or.inl h
        · exact Or.inr ⟨List.mem_cons_of_mem y h.1, h.2⟩
      · rintro (h | ⟨h1, h2⟩)
        · exact Or.inl h
        · rcases List.mem_cons.mp h1 with h1 | h1
          · rw [h1] at h2; rw [hf] at h2; simp at h2
          · exact Or.inr ⟨h1, h2⟩
    | some d =>
      rw [show (List.foldl _ (dinsert acc y d) t) = rkFold f t (dinsert acc y d) from rfl, ih]
      by_cases hyacc : (dlookup acc y).isSome
      · rw [dinsert_keys_of_mem acc y d hyacc]
        constructor
        · rintro (h | h)
          · exact Or.inl h
          · exact Or.inr ⟨List.mem_cons_of_mem y h.1, h.2⟩
        · rintro (h | ⟨h1, h2⟩)
          · exact Or.inl h
          · rcases List.mem_cons.mp h1 with h1 | h1
            · subst h1
              exact Or.inl ((dlookup_isSome_iff_mem acc x).mp hyacc)
            · exact Or.inr ⟨h1, h2⟩
      · have hnone : dlookup acc y = none := by
          cases hc : dlookup acc y
          · rfl
          · rw [hc] at hyacc; simp at hyacc
        rw [dinsert_keys_of_not_mem acc y d hnone]
        simp only [List.mem_append, List.mem_singleton]
        constructor
        · rintro ((h | h) | h)
          · exact Or.inl h
          · rw [h]
            exact Or.inr ⟨List.mem_cons_self y t, by rw [hf]; simp⟩
          · exact Or.inr ⟨List.mem_cons_of_mem y h.1, h.2⟩
        · rintro (h | ⟨h1, h2⟩)
          · exact Or.inl (Or.inl h)
          · rcases List.mem_cons.mp h1 with h1 | h1
            · exact Or.inl (Or.inr h1)
            · exact Or.inr ⟨h1, h2⟩

theorem resolveKind_vals (g : Graph) (k : Kind) (l : List String) :
    ∀ p, p ∈ resolveKind g k l → rkF g k p.1 = some p.2 := by
  rw [resolveKind_eq_rkFold]
  exact rkFold_vals (rkF g k) l []
    (fun p hp => absurd hp (List.not_mem_nil p))

theorem resolveKind_keys_nodup (g : Graph) (k : Kind) (l : List String) :
    ((resolveKind g k l).map Prod.fst).Nodup := by
  rw [resolveKind_eq_rkFold]
  exact rkFold_keys_nodup (rkF g k) l [] (by simp)

theorem resolveKind_mem_keys (g : Graph) (k : Kind) (l : List String) (x : String) :
    x ∈ (resolveKind g k l).map Prod.fst ↔ (x ∈ l ∧ (dlookup (g.kmap k) x).isSome) := by
  rw [resolveKind_eq_rkFold, rkFold_mem_keys]
  simp [rkF]

theorem resolveKind_idem (g : Graph) (k : Kind) (l : List String) :
    resolveKind g k ((resolveKind g k l).map Prod.fst) = resolveKind g k l := by
  conv_lhs => rw [resolveKind_eq_rkFold]
  exact rkFold_rebuild (rkF g k) (resolveKind g k l) (resolveKind_vals g k l)
    (resolveKind_keys_nodup g k l)

theorem resolveKind_mem_pair (g : Graph) (k : Kind) (l : List String) (x : String)
    (t : Entity) (hx : x ∈ l) (ht : dlookup (g.kmap k) x = some t) :
    (x, ({ name := t.name, description := t.description } : NameDesc)) ∈ resolveKind g k l := by
  have hk : x ∈ (resolveKind g k l).map Prod.fst :=
    (resolveKind_mem_keys g k l x).mpr ⟨hx, by rw [ht]; simp⟩
  obtain ⟨p, hp, hpx⟩ := List.mem_map.mp hk
  have hv := resolveKind_vals g k l p hp
  rw [hpx] at hv
  rw [show rkF g k x = some { name := t.name, description := t.description } from
    by simp [rkF, ht]] at hv
  have he : ({ name := t.name, description := t.description } : NameDesc) = p.2 :=
    Option.some.inj hv
  rw [← hpx, he]
  exact hp

theorem resolveKind_not_mem (g : Graph) (k : Kind) (l : List String) (x : String)
    (hx : dlookup (g.kmap k) x = none) :
    x ∉ (resolveKind g k l).map Prod.fst := by
  rw [resolveKind_mem_keys]
  rintro ⟨-, h2⟩
  rw [hx] at h2
  simp at h2

theorem entity_ext (a b : Entity) (hn : a.name = b.name) (hd : a.description = b.description)
    (hs : a.subtechnique_of = b.subtechnique_of) (hr : ∀ k, a.rel k = b.rel k) : a = b := by
  have hA := hr .Actors
  have hM := hr .Malwares
  have hMi := hr .Mitigations
  have hS := hr .Subtechniques
  have hT := hr .Techniques
  have hTo := hr .Tools
  cases a
  cases b
  simp_all [Entity.rel]

theorem setRel_name (e : Entity) (k : Kind) (v : RelVal) : (e.setRel k v).name = e.name := by
  cases k <;> simp [Entity.setRel]

theorem setRel_description (e : Entity) (k : Kind) (v : RelVal) :
    (e.setRel k v).description = e.description := by
  cases k <;> simp [Entity.setRel]

theorem setRel_subtechnique_of (e : Entity) (k : Kind) (v : RelVal) :
    (e.setRel k v).subtechnique_of = e.subtechnique_of := by
  cases k <;> simp [Entity.setRel]

theorem unfoldStep_rel (g : Graph) (e : Entity) (k k' : Kind) :
    (unfoldStep g e k).rel k' = if k' = k then updK g k (e.rel k) else e.rel k' := by
  unfold unfoldStep
  cases he : e.rel k with
  | none =>
    dsimp only
    by_cases hk : k' = k
    · rw [if_pos hk, hk, he]
      rfl
    · rw [if_neg hk]
  | some v =>
    dsimp only
    by_cases ht : relTruthy (some v) = true
    · rw [if_pos ht, rel_setRel]
      by_cases hk : k' = k
      · have hkt : k ≠ Kind.Tactics := by
          intro hkk
          rw [hkk] at he
          exact absurd (rel_tactics e ▸ he) (by simp)
        simp [hk, hkt, he, updK, ht]
      · rw [if_neg (fun hh => hk hh.1), if_neg hk]
    · have ht2 : relTruthy (some v) = false := by
        cases hc : relTruthy (some v)
        · rfl
        · exact absurd hc ht
      rw [if_neg (by rw [ht2]; simp)]
      by_cases hk : k' = k
      · rw [if_pos hk, hk, he]
        simp [updK, ht2]
      · rw [if_neg hk]

theorem unfoldStep_name (g : Graph) (e : Entity) (k : Kind) :
    (unfoldStep g e k).name = e.name := by
  unfold unfoldStep
  cases e.rel k with
  | none => rfl
  | some v =>
    dsimp only
    split
    · exact setRel_name e k _
    · rfl

theorem unfoldStep_description (g : Graph) (e : Entity) (k : Kind) :
    (unfoldStep g e k).description = e.description := by
  unfold unfoldStep
  cases e.rel k with
  | none => rfl
  | some v =>
    dsimp only
    split
    · exact setRel_description e k _
    · rfl

theorem unfoldStep_subtechnique_of (g : Graph) (e : Entity) (k : Kind) :
    (unfoldStep g e k).subtechnique_of = e.subtechnique_of := by
  unfold unfoldStep
  cases e.rel k with
  | none => rfl
  | some v =>
    dsimp only
    split
    · exact setRel_subtechnique_of e k _
    · rfl

theorem unfoldTTP_name (g : Graph) (e : Entity) : (unfoldTTP g e).name = e.name := by
  simp [unfoldTTP, ttpKinds, unfoldStep_name]

theorem unfoldTTP_description (g : Graph) (e : Entity) :
    (unfoldTTP g e).description = e.description := by
  simp [unfoldTTP, ttpKinds, unfoldStep_description]

theorem unfoldTTP_subtechnique_of (g : Graph) (e : Entity) :
    (unfoldTTP g e).subtechnique_of = e.subtechnique_of := by
  simp [unfoldTTP, ttpKinds, unfoldStep_subtechnique_of]

theorem unfoldTTP_rel (g : Graph) (e : Entity) (k : Kind) :
    (unfoldTTP g e).rel k = if k ∈ ttpKinds then updK g k (e.rel k) else e.rel k := by
  cases k <;>
    simp [unfoldTTP, ttpKinds, unfoldStep_rel]

theorem updK_ids_truthy (g : Graph) (k : Kind) (l : List String) (hl : l ≠ []) :
    updK g k (some (.ids l)) = some (.unfolded (resolveKind g k l)) := by
  simp [updK, relTruthy, hl, relKeys]

theorem updK_ids_empty (g : Graph) (k : Kind) :
    updK g k (some (.ids [])) = some (.ids []) := by
  simp [updK, relTruthy]

theorem updK_unfolded_truthy (g : Graph) (k : Kind) (m : List (String × NameDesc))
    (hm : m ≠ []) :
    updK g k (some (.unfolded m)) = some (.unfolded (resolveKind g k (m.map Prod.fst))) := by
  simp [updK, relTruthy, hm, relKeys]

theorem updK_unfolded_empty (g : Graph) (k : Kind) :
    updK g k (some (.unfolded [])) = some (.unfolded []) := by
  simp [updK, relTruthy]

theorem updK_idem (g : Graph) (k : Kind) (v : Option RelVal) :
    updK g k (updK g k v) = updK g k v := by
  cases v with
  | none => rfl
  | some rv =>
    cases rv with
    | ids l =>
      by_cases hl : l = []
      · subst hl
        rw [updK_ids_empty, updK_ids_empty]
      · rw [updK_ids_truthy g k l hl]
        by_cases hr : resolveKind g k l = []
        · rw [hr, updK_unfolded_empty]
        · rw [updK_unfolded_truthy g k _ hr, resolveKind_idem]
    | unfolded m =>
      by_cases hm : m = []
      · subst hm
        rw [updK_unfolded_empty, updK_unfolded_empty]
      · rw [updK_unfolded_truthy g k m hm]
        by_cases hr : resolveKind g k (m.map Prod.fst) = []
        · rw [hr, updK_unfolded_empty]
        · rw [updK_unfolded_truthy g k _ hr, resolveKind_idem]

theorem unfoldTTP_idem (g : Graph) (e : Entity) :
    unfoldTTP g (unfoldTTP g e) = unfoldTTP g e := by
  apply entity_ext
  · rw [unfoldTTP_name, unfoldTTP_name]
  · rw [unfoldTTP_description, unfoldTTP_description]
  · rw [unfoldTTP_subtechnique_of, unfoldTTP_subtechnique_of]
  · intro k
    rw [unfoldTTP_rel, unfoldTTP_rel]
    by_cases hk : k ∈ ttpKinds
    · simp [hk, updK_idem]
    · simp [hk]

theorem resolveKind_congr (g1 g2 : Graph) (k : Kind) (l : List String)
    (h : g1.kmap k = g2.kmap k) : resolveKind g1 k l = resolveKind g2 k l := by
  unfold resolveKind
  rw [h]

theorem updK_congr (g1 g2 : Graph) (k : Kind) (v : Option RelVal)
    (h : g1.kmap k = g2.kmap k) : updK g1 k v = updK g2 k v := by
  cases v with
  | none => rfl
  | some rv =>
    simp only [updK]
    rw [resolveKind_congr g1 g2 k _ h]

theorem unfoldTTP_congr (g1 g2 : Graph) (e : Entity)
    (h : ∀ k, k ∈ ttpKinds → g1.kmap k = g2.kmap k) :
    unfoldTTP g1 e = unfoldTTP g2 e := by
  apply entity_ext
  · rw [unfoldTTP_name, unfoldTTP_name]
  · rw [unfoldTTP_description, unfoldTTP_description]
  · rw [unfoldTTP_subtechnique_of, unfoldTTP_subtechnique_of]
  · intro k
    rw [unfoldTTP_rel, unfoldTTP_rel]
    by_cases hk : k ∈ ttpKinds
    · simp [hk, updK_congr g1 g2 k _ (h k hk)]
    · simp [hk]

theorem unfoldInPlace_fields (g : Graph) (a : String) :
    (unfoldInPlace g a).tactics = g.tactics ∧
    (unfoldInPlace g a).techniques = g.techniques ∧
    (unfoldInPlace g a).subtechniques = g.subtechniques ∧
    (unfoldInPlace g a).malwares = g.malwares ∧
    (unfoldInPlace g a).mitigations = g.mitigations ∧
    (unfoldInPlace g a).tools = g.tools := by
  unfold unfoldInPlace
  cases dlookup g.actors a <;> simp

theorem unfoldInPlace_keys (g : Graph) (a : String) :
    (unfoldInPlace g a).actors.map Prod.fst = g.actors.map Prod.fst := by
  unfold unfoldInPlace
  cases h : dlookup g.actors a with
  | none => rfl
  | some ea =>
    dsimp only
    exact dinsert_keys_of_mem g.actors a _ (by rw [h]; rfl)

theorem unfoldInPlace_other (g : Graph) (a b : String) (hne : b ≠ a) :
    dlookup (unfoldInPlace g a).actors b = dlookup g.actors b := by
  unfold unfoldInPlace
  cases h : dlookup g.actors a with
  | none => rfl
  | some ea =>
    dsimp only
    rw [dlookup_dinsert, if_neg hne]

theorem unfoldInPlace_self (g : Graph) (a : String) (ea : Entity)
    (h : dlookup g.actors a = some ea) :
    dlookup (unfoldInPlace g a).actors a = some (unfoldTTP g ea) := by
  unfold unfoldInPlace
  rw [h]
  dsimp only
  rw [dlookup_dinsert, if_pos rfl]

theorem sameNonActors_ttpKinds (g g0 : Graph) (h : sameNonActors g g0) :
    ∀ k, k ∈ ttpKinds → g.kmap k = g0.kmap k := by
  intro k hk
  obtain ⟨h1, h2, h3, h4, h5, h6⟩ := h
  cases k <;> simp_all [ttpKinds, Graph.kmap]

theorem unfoldInPlace_sameNonActors (g g0 : Graph) (a : String)
    (h : sameNonActors g g0) : sameNonActors (unfoldInPlace g a) g0 := by
  obtain ⟨f1, f2, f3, f4, f5, f6⟩ := unfoldInPlace_fields g a
  obtain ⟨h1, h2, h3, h4, h5, h6⟩ := h
  exact ⟨f1.trans h1, f2.trans h2, f3.trans h3, f4.trans h4, f5.trans h5, f6.trans h6⟩

/-- The re-unfold loop of `findTTPOverlap` (line 301-312 fold over the matched
actors): matched actors end in unfold-normal form, everything else is
untouched. -/
theorem reUnfold_loop_spec (g0 : Graph) :
    ∀ (ms : List String) (g : Graph),
      ms.Nodup →
      sameNonActors g g0 →
      (∀ b, b ∈ ms → ∃ e0, dlookup g0.actors b = some e0 ∧
        (dlookup g.actors b = some e0 ∨ dlookup g.actors b = some (unfoldTTP g0 e0))) →
      sameNonActors (ms.foldl unfoldInPlace g) g0 ∧
      ((ms.foldl unfoldInPlace g).actors.map Prod.fst = g.actors.map Prod.fst) ∧
      (∀ b, b ∉ ms → dlookup (ms.foldl unfoldInPlace g).actors b = dlookup g.actors b) ∧
      (∀ b, b ∈ ms → ∃ e0, dlookup g0.actors b = some e0 ∧
        dlookup (ms.foldl unfoldInPlace g).actors b = some (unfoldTTP g0 e0)) := by
  intro ms
  induction ms with
  | nil =>
    intro g _ hsame _
    refine ⟨hsame, rfl, fun b _ => rfl, fun b hb => absurd hb (List.not_mem_nil b)⟩
  | cons a t ih =>
    intro g hnd hsame hpre
    simp only [List.nodup_cons] at hnd
    obtain ⟨hat, hndt⟩ := hnd
    obtain ⟨e0, he0, hcur⟩ := hpre a (List.mem_cons_self a t)
    have hcurS : (dlookup g.actors a).isSome := by
      rcases hcur with h | h <;> rw [h] <;> rfl
    -- the value stored for a by this step
    have hstep : dlookup (unfoldInPlace g a).actors a = some (unfoldTTP g0 e0) := by
      rcases hcur with h | h
      · rw [unfoldInPlace_self g a e0 h]
        congr 1
        exact unfoldTTP_congr g g0 e0 (sameNonActors_ttpKinds g g0 hsame)
      · rw [unfoldInPlace_self g a _ h]
        congr 1
        rw [unfoldTTP_congr g g0 _ (sameNonActors_ttpKinds g g0 hsame)]
        exact unfoldTTP_idem g0 e0
    have hsame' := unfoldInPlace_sameNonActors g g0 a hsame
    have hpre' : ∀ b, b ∈ t → ∃ e0, dlookup g0.actors b = some e0 ∧
        (dlookup (unfoldInPlace g a).actors b = some e0 ∨
         dlookup (unfoldInPlace g a).actors b = some (unfoldTTP g0 e0)) := by
      intro b hb
      obtain ⟨eb, heb, hcb⟩ := hpre b (List.mem_cons_of_mem a hb)
      have hba : b ≠ a := fun h => hat (h ▸ hb)
      exact ⟨eb, heb, by rw [unfoldInPlace_other g a b hba]; exact hcb⟩
    obtain ⟨s1, s2, s3, s4⟩ := ih (unfoldInPlace g a) hndt hsame' hpre'
    simp only [List.foldl_cons]
    refine ⟨s1, s2.trans (unfoldInPlace_keys g a), ?_, ?_⟩
    · intro b hb
      have hbt : b ∉ t := fun h => hb (List.mem_cons_of_mem a h)
      have hba : b ≠ a := fun h => hb (h ▸ List.mem_cons_self a t)
      rw [s3 b hbt, unfoldInPlace_other g a b hba]
    · intro b hb
      rcases List.mem_cons.mp hb with hb | hb
      · subst hb
        refine ⟨e0, he0, ?_⟩
        rw [s3 b hat, hstep]
      · exact s4 b hb

theorem ttpMatrixFold_go (TTPs : List String) (g0 : Graph) :
    ∀ (rest pre : List String) (g : Graph) (matched : List String),
      g0.actors.map Prod.fst = pre ++ rest →
      (g0.actors.map Prod.fst).Nodup →
      sameNonActors g g0 →
      g.actors.map Prod.fst = g0.actors.map Prod.fst →
      (∀ a, a ∈ matched ↔ (a ∈ pre ∧ ∃ e, dlookup g0.actors a = some e ∧
        ttpQual TTPs e = true)) →
      matched.Nodup →
      (∀ a, a ∉ matched → dlookup g.actors a = dlookup g0.actors a) →
      (∀ a, a ∈ matched → ∃ e0, dlookup g0.actors a = some e0 ∧
        dlookup g.actors a = some (unfoldTTP g0 e0)) →
      (sameNonActors (rest.foldl (ttpCandStep TTPs) (g, matched)).1 g0 ∧
       (rest.foldl (ttpCandStep TTPs) (g, matched)).1.actors.map Prod.fst =
         g0.actors.map Prod.fst ∧
       (∀ a, a ∈ (rest.foldl (ttpCandStep TTPs) (g, matched)).2 ↔
          ((a ∈ pre ∨ a ∈ rest) ∧ ∃ e, dlookup g0.actors a = some e ∧
            ttpQual TTPs e = true)) ∧
       (rest.foldl (ttpCandStep TTPs) (g, matched)).2.Nodup ∧
       (∀ a, a ∉ (rest.foldl (ttpCandStep TTPs) (g, matched)).2 →
          dlookup (rest.foldl (ttpCandStep TTPs) (g, matched)).1.actors a =
            dlookup g0.actors a) ∧
       (∀ a, a ∈ (rest.foldl (ttpCandStep TTPs) (g, matched)).2 →
          ∃ e0, dlookup g0.actors a = some e0 ∧
            dlookup (rest.foldl (ttpCandStep TTPs) (g, matched)).1.actors a =
              some (unfoldTTP g0 e0))) := by
  intro rest
  induction rest with
  | nil =>
    intro pre g matched hsplit hnd hsame hkeys hmem hmnd hun hm
    simp only [List.foldl_nil]
    refine ⟨hsame, hkeys, ?_, hmnd, hun, hm⟩
    intro a
    rw [hmem a]
    simp
  | cons c rest' ih =>
    intro pre g matched hsplit hnd hsame hkeys hmem hmnd hun hm
    -- c is a fresh key: not in pre, not in rest', not matched
    have hckey : c ∈ g0.actors.map Prod.fst := by
      rw [hsplit]
      simp
    have hcnodup := hnd
    rw [hsplit] at hcnodup
    have hcpre : c ∉ pre := by
      intro hc
      rw [List.nodup_append] at hcnodup
      exact hcnodup.2.2 hc (List.mem_cons_self c rest')
    have hcrest : c ∉ rest' := by
      rw [List.nodup_append] at hcnodup
      have := hcnodup.2.1
      rw [List.nodup_cons] at this
      exact this.1
    have hcm : c ∉ matched := by
      intro hc
      exact hcpre ((hmem c).mp hc).1
    obtain ⟨e0c, he0c⟩ : ∃ e, dlookup g0.actors c = some e := by
      have := (dlookup_isSome_iff_mem g0.actors c).mpr hckey
      cases hx : dlookup g0.actors c
      · rw [hx] at this; simp at this
      · exact ⟨_, rfl⟩
    have hgc : dlookup g.actors c = some e0c := by
      rw [hun c hcm, he0c]
    -- unfold one candidate step
    simp only [List.foldl_cons]
    rw [show ttpCandStep TTPs (g, matched) c =
        ((if ttpQual TTPs e0c then matched ++ [c] else matched).foldl unfoldInPlace g,
         if ttpQual TTPs e0c then matched ++ [c] else matched) from by
      simp only [ttpCandStep, hgc, ttpQual]]
    set matched' := if ttpQual TTPs e0c then matched ++ [c] else matched with hmdef
    have hmem' : ∀ a, a ∈ matched' ↔ (a ∈ pre ++ [c] ∧ ∃ e, dlookup g0.actors a = some e ∧
        ttpQual TTPs e = true) := by
      intro a
      rw [hmdef]
      by_cases hq : ttpQual TTPs e0c = true
      · rw [if_pos hq]
        simp only [List.mem_append, List.mem_singleton]
        constructor
        · rintro (h | h)
          · obtain ⟨h1, h2⟩ := (hmem a).mp h
            exact ⟨Or.inl h1, h2⟩
          · subst h
            exact ⟨Or.inr rfl, e0c, he0c, hq⟩
        · rintro ⟨h1 | h1, h2⟩
          · exact Or.inl ((hmem a).mpr ⟨h1, h2⟩)
          · subst h1
            exact Or.inr rfl
      · rw [if_neg hq]
        rw [hmem a]
        simp only [List.mem_append, List.mem_singleton]
        constructor
        · rintro ⟨h1, h2⟩
          exact ⟨Or.inl h1, h2⟩
        · rintro ⟨h1 | h1, h2⟩
          · exact ⟨h1, h2⟩
          · subst h1
            obtain ⟨e, he, heq⟩ := h2
            rw [he0c] at he
            cases he
            exact absurd heq hq
    have hmnd' : matched'.Nodup := by
      rw [hmdef]
      by_cases hq : ttpQual TTPs e0c = true
      · rw [if_pos hq]
        simp only [List.nodup_append, List.nodup_cons]
        exact ⟨hmnd, by simp, fun y hy => by
          simp only [List.mem_singleton]
          intro he
          exact hcm (he ▸ hy)⟩
      · rw [if_neg hq]
        exact hmnd
    have hpre2 : ∀ b, b ∈ matched' → ∃ e0, dlookup g0.actors b = some e0 ∧
        (dlookup g.actors b = some e0 ∨ dlookup g.actors b = some (unfoldTTP g0 e0)) := by
      intro b hb
      rw [hmdef] at hb
      by_cases hq : ttpQual TTPs e0c = true
      · rw [if_pos hq] at hb
        rcases List.mem_append.mp hb with hb | hb
        · obtain ⟨e0, he0, hl⟩ := hm b hb
          exact ⟨e0, he0, Or.inr hl⟩
        · simp only [List.mem_singleton] at hb
          subst hb
          exact ⟨e0c, he0c, Or.inl hgc⟩
      · rw [if_neg hq] at hb
        obtain ⟨e0, he0, hl⟩ := hm b hb
        exact ⟨e0, he0, Or.inr hl⟩
    obtain ⟨r1, r2, r3, r4⟩ := reUnfold_loop_spec g0 matched' g hmnd' hsame hpre2
    have hun' : ∀ a, a ∉ matched' → dlookup (matched'.foldl unfoldInPlace g).actors a =
        dlookup g0.actors a := by
      intro a ha
      rw [r3 a ha]
      apply hun
      intro ham
      apply ha
      rw [hmdef]
      by_cases hq : ttpQual TTPs e0c = true
      · rw [if_pos hq]; exact List.mem_append.mpr (Or.inl ham)
      · rw [if_neg hq]; exact ham
    have := ih (pre ++ [c]) (matched'.foldl unfoldInPlace g) matched'
      (by rw [hsplit]; simp) hnd r1 (r2.trans hkeys) hmem' hmnd' hun' r4
    obtain ⟨s1, s2, s3, s4, s5, s6⟩ := this
    refine ⟨s1, s2, ?_, s4, s5, s6⟩
    intro a
    rw [s3 a]
    simp only [List.mem_append, List.mem_singleton, List.mem_cons]
    tauto

theorem ttpMatrixFold_spec (TTPs : List String) (g0 : Graph)
    (hnd : (g0.actors.map Prod.fst).Nodup) :
    sameNonActors (ttpMatrixFold TTPs g0).1 g0 ∧
    (ttpMatrixFold TTPs g0).1.actors.map Prod.fst = g0.actors.map Prod.fst ∧
    (∀ a, a ∈ (ttpMatrixFold TTPs g0).2 ↔
       ∃ e, dlookup g0.actors a = some e ∧ ttpQual TTPs e = true) ∧
    (ttpMatrixFold TTPs g0).2.Nodup ∧
    (∀ a, a ∉ (ttpMatrixFold TTPs g0).2 →
       dlookup (ttpMatrixFold TTPs g0).1.actors a = dlookup g0.actors a) ∧
    (∀ a, a ∈ (ttpMatrixFold TTPs g0).2 →
       ∃ e0, dlookup g0.actors a = some e0 ∧
         dlookup (ttpMatrixFold TTPs g0).1.actors a = some (unfoldTTP g0 e0)) := by
  have h := ttpMatrixFold_go TTPs g0 (g0.actors.map Prod.fst) [] g0 [] (by simp) hnd
    ⟨rfl, rfl, rfl, rfl, rfl, rfl⟩ rfl (by simp) (by simp) (fun a _ => rfl) (by simp)
  unfold ttpMatrixFold
  obtain ⟨s1, s2, s3, s4, s5, s6⟩ := h
  refine ⟨s1, s2, ?_, s4, s5, s6⟩
  intro a
  rw [s3 a]
  constructor
  · rintro ⟨-, h⟩
    exact h
  · intro h
    refine ⟨Or.inr ?_, h⟩
    obtain ⟨e, he, -⟩ := h
    exact (dlookup_isSome_iff_mem _ _).mp (by rw [he]; rfl)

theorem dlookup_map_keyed {α β : Type} (F : α → β) :
    ∀ (l : List (String × α)) (m : String),
      dlookup (l.map (fun p => (p.1, F p.2))) m = (dlookup l m).map F := by
  intro l
  induction l with
  | nil => intro m; rfl
  | cons p t ih =>
    intro m
    simp only [List.map]
    rw [dlookup_cons, dlookup_cons]
    by_cases hp : p.1 = m
    · simp [hp]
    · simp only [hp, if_false]
      exact ih m

theorem findTTPOverlap_parts (TTPs : List String) (cache : List (String × Graph)) :
    (findTTPOverlap TTPs cache).1 =
      cache.map (fun p => (p.1, (ttpMatrixFold TTPs p.2).1)) ∧
    (findTTPOverlap TTPs cache).2 =
      (cache.map (fun p => (p.1, (ttpMatrixFold TTPs p.2).2))).filterMap (fun p =>
        if p.2.length = 0 then none
        else match dlookup (cache.map (fun p => (p.1, (ttpMatrixFold TTPs p.2).1))) p.1 with
          | some g => some (p.1, materializeActors g p.2)
          | none => none) := by
  unfold findTTPOverlap
  have hgen : ∀ (l : List (String × Graph)) (acc : List (String × Graph) × List (String × List String)),
      l.foldl (fun acc p =>
        ((fun (acc : List (String × Graph) × List (String × List String)) p =>
          (acc.1 ++ [(p.1, (ttpMatrixFold TTPs p.2).1)],
           acc.2 ++ [(p.1, (ttpMatrixFold TTPs p.2).2)])) acc p)) acc =
        (acc.1 ++ l.map (fun p => (p.1, (ttpMatrixFold TTPs p.2).1)),
         acc.2 ++ l.map (fun p => (p.1, (ttpMatrixFold TTPs p.2).2))) := by
    intro l
    induction l with
    | nil => intro acc; simp
    | cons p t ih =>
      intro acc
      simp only [List.foldl_cons, List.map]
      rw [ih]
      simp
  have h1 := hgen cache ([], [])
  simp only [List.nil_append] at h1
  rw [h1]
  exact ⟨rfl, rfl⟩

theorem filterMap_results_dlookup (cacheF : List (String × Graph)) :
    ∀ (l : List (String × List String)) (m : String), (l.map Prod.fst).Nodup →
      dlookup (l.filterMap (fun p =>
        if p.2.length = 0 then none
        else match dlookup cacheF p.1 with
          | some g => some (p.1, materializeActors g p.2)
          | none => none)) m =
      (match dlookup l m with
       | some ms =>
         if ms.length = 0 then none
         else match dlookup cacheF m with
           | some g => some (materializeActors g ms)
           | none => none
       | none => none) := by
  intro l
  induction l with
  | nil => intro m _; rfl
  | cons q t ih =>
    intro m hnd
    simp only [List.map, List.nodup_cons] at hnd
    obtain ⟨hq, hndt⟩ := hnd
    simp only [List.filterMap_cons]
    rw [dlookup_cons]
    by_cases hbody : (q.2.length = 0) ∨ (dlookup cacheF q.1) = none
    · have hb : (if q.2.length = 0 then none
          else match dlookup cacheF q.1 with
            | some g => some ((q.1, materializeActors g q.2) : String × List (String × Entity))
            | none => none) = none := by
        rcases hbody with h | h
        · rw [if_pos h]
        · by_cases h0 : q.2.length = 0
          · rw [if_pos h0]
          · rw [if_neg h0, h]
      rw [hb]
      dsimp only
      rw [ih m hndt]
      by_cases hm : q.1 = m
      · subst hm
        rw [if_pos rfl]
        dsimp only
        have htm : dlookup t q.1 = none := (dlookup_eq_none_iff_not_mem t q.1).mpr hq
        rw [htm]
        dsimp only
        rcases hbody with h | h
        · rw [if_pos h]
        · by_cases h0 : q.2.length = 0
          · rw [if_pos h0]
          · rw [if_neg h0, h]
      · rw [if_neg hm]
    · push_neg at hbody
      obtain ⟨h0, hcf⟩ := hbody
      obtain ⟨gq, hgq⟩ : ∃ g, dlookup cacheF q.1 = some g := by
        cases hx : dlookup cacheF q.1
        · exact absurd hx hcf
        · exact ⟨_, rfl⟩
      have hb : (if q.2.length = 0 then none
          else match dlookup cacheF q.1 with
            | some g => some ((q.1, materializeActors g q.2) : String × List (String × Entity))
            | none => none) = some (q.1, materializeActors gq q.2) := by
        rw [if_neg h0, hgq]
      rw [hb]
      dsimp only
      rw [dlookup_cons]
      by_cases hm : q.1 = m
      · subst hm
        rw [if_pos rfl, if_pos rfl]
        dsimp only
        rw [if_neg h0, hgq]
      · rw [if_neg hm, if_neg hm, ih m hndt]

theorem materializeActors_go (g : Graph) :
    ∀ (matched : List String) (acc : List (String × Entity)),
      (∀ a ∈ matched, (dlookup g.actors a).isSome) →
      (matched.foldl (fun acc a =>
        match dlookup g.actors a with
        | some e => acc ++ [(a, e)]
        | none => acc) acc).map Prod.fst = acc.map Prod.fst ++ matched := by
  intro matched
  induction matched with
  | nil => intro acc _; simp
  | cons a t ih =>
    intro acc hall
    simp only [List.foldl_cons]
    have ha := hall a (List.mem_cons_self a t)
    obtain ⟨e, he⟩ : ∃ e, dlookup g.actors a = some e := by
      cases hx : dlookup g.actors a
      · rw [hx] at ha; exact absurd ha (by simp)
      · exact ⟨_, rfl⟩
    rw [he]
    dsimp only
    rw [ih (acc ++ [(a, e)]) (fun b hb => hall b (List.mem_cons_of_mem a hb))]
    simp

theorem materializeActors_keys (g : Graph) (matched : List String)
    (hall : ∀ a ∈ matched, (dlookup g.actors a).isSome) :
    (materializeActors g matched).map Prod.fst = matched := by
  unfold materializeActors
  rw [materializeActors_go g matched [] hall]
  simp

theorem findTTPOverlap_results_dlookup (TTPs : List String)
    (cache : List (String × Graph)) (m : String)
    (hnd : (cache.map Prod.fst).Nodup) :
    dlookup (findTTPOverlap TTPs cache).2 m =
      (match dlookup cache m with
       | some g =>
         if (ttpMatrixFold TTPs g).2.length = 0 then none
         else some (materializeActors (ttpMatrixFold TTPs g).1 (ttpMatrixFold TTPs g).2)
       | none => none) := by
  rw [(findTTPOverlap_parts TTPs cache).2]
  have hndl : ((cache.map (fun p => (p.1, (ttpMatrixFold TTPs p.2).2))).map Prod.fst).Nodup := by
    simpa [List.map_map, Function.comp] using hnd
  rw [filterMap_results_dlookup (cache.map (fun p => (p.1, (ttpMatrixFold TTPs p.2).1)))
    (cache.map (fun p => (p.1, (ttpMatrixFold TTPs p.2).2))) m hndl]
  rw [dlookup_map_keyed (fun g => (ttpMatrixFold TTPs g).2) cache m,
      dlookup_map_keyed (fun g => (ttpMatrixFold TTPs g).1) cache m]
  cases dlookup cache m with
  | none => rfl
  | some g =>
    dsimp only [Option.map_some']

theorem ttpQual_nil (e : Entity) : ttpQual [] e = true ↔ actorContent e ≠ [] := by
  simp [ttpQual, List.length_pos]

/-- C6: with an empty TTP list, `findTTPOverlap` returns, in every loaded
matrix, exactly those actors whose truthy Malwares / Subtechniques /
Techniques / Tools relation content is non-empty — the containment check
over the empty TTP list is vacuously true — and a matrix in which no actor
qualifies is omitted from the results. -/
theorem C6_empty_ttp_vacuous (cache : List (String × Graph)) (m : String) (g : Graph)
    (hndc : (cache.map Prod.fst).Nodup)
    (hm : dlookup cache m = some g)
    (hnda : (g.actors.map Prod.fst).Nodup) :
    (dlookup (findTTPOverlap [] cache).2 m = none ↔
       ∀ a e, dlookup g.actors a = some e → actorContent e = []) ∧
    (∀ ms, dlookup (findTTPOverlap [] cache).2 m = some ms →
       ∀ a, a ∈ ms.map Prod.fst ↔
         ∃ e, dlookup g.actors a = some e ∧ actorContent e ≠ []) := by
  have hres := findTTPOverlap_results_dlookup [] cache m hndc
  rw [hm] at hres
  dsimp only at hres
  obtain ⟨-, -, hmem, -, -, hmat⟩ := ttpMatrixFold_spec [] g hnda
  have hmem' : ∀ a, a ∈ (ttpMatrixFold [] g).2 ↔
      ∃ e, dlookup g.actors a = some e ∧ actorContent e ≠ [] := by
    intro a
    rw [hmem a]
    constructor
    · rintro ⟨e, he, hq⟩
      exact ⟨e, he, (ttpQual_nil e).mp hq⟩
    · rintro ⟨e, he, hq⟩
      exact ⟨e, he, (ttpQual_nil e).mpr hq⟩
  constructor
  · by_cases h0 : (ttpMatrixFold [] g).2.length = 0
    · rw [if_pos h0] at hres
      rw [hres]
      simp only [true_iff]
      intro a e he
      by_contra hc
      have : a ∈ (ttpMatrixFold [] g).2 := (hmem' a).mpr ⟨e, he, hc⟩
      rw [List.length_eq_zero] at h0
      rw [h0] at this
      exact absurd this (List.not_mem_nil a)
    · rw [if_neg h0] at hres
      rw [hres]
      constructor
      · intro h
        exact absurd h (Option.some_ne_none _)
      · intro hall
        exfalso
        apply h0
        rw [List.length_eq_zero, List.eq_nil_iff_forall_not_mem]
        intro a ha
        obtain ⟨e, he, hc⟩ := (hmem' a).mp ha
        exact hc (hall a e he)
  · intro ms hms a
    by_cases h0 : (ttpMatrixFold [] g).2.length = 0
    · rw [if_pos h0] at hres
      rw [hres] at hms
      exact absurd hms (Option.noConfusion)
    · rw [if_neg h0] at hres
      rw [hres] at hms
      have hms' : ms = materializeActors (ttpMatrixFold [] g).1 (ttpMatrixFold [] g).2 :=
        (Option.some.injEq _ _ ▸ hms).symm
      have hkeys : ms.map Prod.fst = (ttpMatrixFold [] g).2 := by
        rw [hms']
        apply materializeActors_keys
        intro b hb
        obtain ⟨e0, -, hb2⟩ := hmat b hb
        rw [hb2]
        rfl
      rw [hkeys]
      exact hmem' a

theorem C6_witness :
    (dlookup (findTTPOverlap [] [("enterprise", gTTP)]).2 "enterprise" = none ↔
       ∀ a e, dlookup gTTP.actors a = some e → actorContent e = []) ∧
    (∀ ms, dlookup (findTTPOverlap [] [("enterprise", gTTP)]).2 "enterprise" = some ms →
       ∀ a, a ∈ ms.map Prod.fst ↔
         ∃ e, dlookup gTTP.actors a = some e ∧ actorContent e ≠ []) :=
  C6_empty_ttp_vacuous [("enterprise", gTTP)] "enterprise" gTTP (by decide) (by rfl)
    (by decide)

theorem materializeActors_go_mem (g : Graph) :
    ∀ (matched : List String) (acc : List (String × Entity)) (p : String × Entity),
      p ∈ matched.foldl (fun acc a =>
        match dlookup g.actors a with
        | some e => acc ++ [(a, e)]
        | none => acc) acc →
      p ∈ acc ∨ (p.1 ∈ matched ∧ dlookup g.actors p.1 = some p.2) := by
  intro matched
  induction matched with
  | nil => intro acc p hp; exact Or.inl hp
  | cons a t ih =>
    intro acc p hp
    simp only [List.foldl_cons] at hp
    cases hx : dlookup g.actors a with
    | none =>
      simp only [hx] at hp
      rcases ih acc p hp with h | ⟨h1, h2⟩
      · exact Or.inl h
      · exact Or.inr ⟨List.mem_cons_of_mem a h1, h2⟩
    | some e =>
      simp only [hx] at hp
      rcases ih (acc ++ [(a, e)]) p hp with h | ⟨h1, h2⟩
      · rcases List.mem_append.mp h with h | h
        · exact Or.inl h
        · rw [List.mem_singleton] at h
          subst h
          exact Or.inr ⟨List.mem_cons_self a t, hx⟩
      · exact Or.inr ⟨List.mem_cons_of_mem a h1, h2⟩

theorem materializeActors_mem (g : Graph) (matched : List String) (p : String × Entity)
    (hp : p ∈ materializeActors g matched) :
    p.1 ∈ matched ∧ dlookup g.actors p.1 = some p.2 := by
  unfold materializeActors at hp
  rcases materializeActors_go_mem g matched [] p hp with h | h
  · exact absurd h (List.not_mem_nil p)
  · exact h

/-- C4 (amended): for every actor entity returned by `findTTPOverlap`, each
non-empty id-list relation of a TTP kind is replaced by the dict produced by
`resolveKind`: ids that still resolve map to the referenced entity's
`{name, description}` pair, and an id that no longer resolves is SILENTLY
OMITTED from the dict — there is no `DEPRECATED OR REVOKED` placeholder branch
in `findTTPOverlap` (lines 306-312), unlike `search`'s unfolding. -/
theorem C4_amended_silent_drop (TTPs : List String) (cache : List (String × Graph))
    (m : String) (g : Graph)
    (hndc : (cache.map Prod.fst).Nodup)
    (hm : dlookup cache m = some g)
    (hnda : (g.actors.map Prod.fst).Nodup)
    (ms : List (String × Entity))
    (hms : dlookup (findTTPOverlap TTPs cache).2 m = some ms)
    (a : String) (e' : Entity) (hae : (a, e') ∈ ms) :
    ∃ e0, dlookup g.actors a = some e0 ∧ e' = unfoldTTP g e0 ∧
      ∀ k ∈ ttpKinds, ∀ l, e0.rel k = some (.ids l) → l ≠ [] →
        e'.rel k = some (.unfolded (resolveKind g k l)) ∧
        (∀ i t, i ∈ l → dlookup (g.kmap k) i = some t →
           (i, ({ name := t.name, description := t.description } : NameDesc)) ∈
             resolveKind g k l) ∧
        (∀ i, dlookup (g.kmap k) i = none → i ∉ (resolveKind g k l).map Prod.fst) := by
  have hres := findTTPOverlap_results_dlookup TTPs cache m hndc
  rw [hm] at hres
  dsimp only at hres
  obtain ⟨-, -, -, -, -, hmat⟩ := ttpMatrixFold_spec TTPs g hnda
  by_cases h0 : (ttpMatrixFold TTPs g).2.length = 0
  · rw [if_pos h0, hms] at hres
    exact absurd hres.symm (Option.noConfusion)
  · rw [if_neg h0, hms] at hres
    have hms' : ms = materializeActors (ttpMatrixFold TTPs g).1 (ttpMatrixFold TTPs g).2 :=
      Option.some.inj hres
    rw [hms'] at hae
    obtain ⟨h1, h2⟩ := materializeActors_mem _ _ (a, e') hae
    obtain ⟨e0, he0, hgf⟩ := hmat a h1
    rw [h2] at hgf
    have he' : e' = unfoldTTP g e0 := Option.some.inj hgf
    refine ⟨e0, he0, he', ?_⟩
    intro k hk l hl hlne
    refine ⟨?_, ?_, ?_⟩
    · rw [he', unfoldTTP_rel, if_pos hk, hl, updK_ids_truthy g k l hlne]
    · intro i t hi hti
      exact resolveKind_mem_pair g k l i t hi hti
    · intro i hno
      exact resolveKind_not_mem g k l i hno

theorem C4_witness :
    ∃ e0, dlookup gTTP.actors "GA" = some e0 ∧
      unfoldTTP gTTP actGA = unfoldTTP gTTP e0 ∧
      ∀ k ∈ ttpKinds, ∀ l, e0.rel k = some (.ids l) → l ≠ [] →
        (unfoldTTP gTTP actGA).rel k = some (.unfolded (resolveKind gTTP k l)) ∧
        (∀ i t, i ∈ l → dlookup (gTTP.kmap k) i = some t →
           (i, ({ name := t.name, description := t.description } : NameDesc)) ∈
             resolveKind gTTP k l) ∧
        (∀ i, dlookup (gTTP.kmap k) i = none →
           i ∉ (resolveKind gTTP k l).map Prod.fst) :=
  C4_amended_silent_drop ["T1"] [("enterprise", gTTP)] "enterprise" gTTP
    (by decide) (by rfl) (by decide)
    [("GA", unfoldTTP gTTP actGA)] (by rfl)
    "GA" (unfoldTTP gTTP actGA) (by simp)

/-- C8 (amended): `explore`, `search` and `actorOverlap` build fresh result
dicts, but `findTTPOverlap` writes through the `results` alias into the very
graph it queries: in the cache entry returned for a matrix, every matched
actor's truthy TTP-kind relation value has been deleted and replaced by the
resolved `{name, description}` dict (`unfoldTTP`), while the six non-actor
maps, the actor key list, and every unmatched actor are unchanged. -/
theorem C8_amended_mutation (TTPs : List String) (cache : List (String × Graph))
    (m : String) (g : Graph)
    (hm : dlookup cache m = some g)
    (hnda : (g.actors.map Prod.fst).Nodup) :
    ∃ g', dlookup (findTTPOverlap TTPs cache).1 m = some g' ∧
      sameNonActors g' g ∧
      g'.actors.map Prod.fst = g.actors.map Prod.fst ∧
      (∀ a e, dlookup g.actors a = some e → ttpQual TTPs e = false →
         dlookup g'.actors a = dlookup g.actors a) ∧
      (∀ a e, dlookup g.actors a = some e → ttpQual TTPs e = true →
         dlookup g'.actors a = some (unfoldTTP g e)) := by
  have hp := (findTTPOverlap_parts TTPs cache).1
  obtain ⟨s1, s2, s3, s4, s5, s6⟩ := ttpMatrixFold_spec TTPs g hnda
  refine ⟨(ttpMatrixFold TTPs g).1, ?_, s1, s2, ?_, ?_⟩
  · rw [hp, dlookup_map_keyed (fun g => (ttpMatrixFold TTPs g).1) cache m, hm]
    rfl
  · intro a e he hq
    apply s5
    intro hmem
    obtain ⟨e2, he2, hq2⟩ := (s3 a).mp hmem
    rw [he] at he2
    rw [← Option.some.inj he2] at hq2
    rw [hq] at hq2
    exact Bool.false_ne_true hq2
  · intro a e he hq
    have hmem : a ∈ (ttpMatrixFold TTPs g).2 := (s3 a).mpr ⟨e, he, hq⟩
    obtain ⟨e0, he0, hgf⟩ := s6 a hmem
    rw [he] at he0
    rw [← Option.some.inj he0] at hgf
    exact hgf

theorem C8_witness :
    ∃ g', dlookup (findTTPOverlap [] [("enterprise", gTTP)]).1 "enterprise" = some g' ∧
      sameNonActors g' gTTP ∧
      g'.actors.map Prod.fst = gTTP.actors.map Prod.fst ∧
      (∀ a e, dlookup gTTP.actors a = some e → ttpQual [] e = false →
         dlookup g'.actors a = dlookup gTTP.actors a) ∧
      (∀ a e, dlookup gTTP.actors a = some e → ttpQual [] e = true →
         dlookup g'.actors a = some (unfoldTTP gTTP e)) :=
  C8_amended_mutation [] [("enterprise", gTTP)] "enterprise" gTTP
    (by rfl) (by decide)

theorem mem_keys_dinsert {κ α : Type} [DecidableEq κ] (l : List (κ × α)) (k : κ) (v : α)
    (m : κ) : m ∈ (dinsert l k v).map Prod.fst ↔ m ∈ l.map Prod.fst ∨ m = k := by
  by_cases hk : k ∈ l.map Prod.fst
  · rw [dinsert_keys_of_mem l k v ((dlookup_isSome_iff_mem l k).mpr hk)]
    constructor
    · exact Or.inl
    · rintro (h | h)
      · exact h
      · rw [h]; exact hk
  · rw [dinsert_keys_of_not_mem l k v ((dlookup_eq_none_iff_not_mem l k).mpr hk)]
    simp [List.mem_append]

theorem mem_of_dlookup_eq_some {κ α : Type} [DecidableEq κ] :
    ∀ (l : List (κ × α)) (m : κ) (v : α), dlookup l m = some v → (m, v) ∈ l := by
  intro l
  induction l with
  | nil => intro m v h; exact absurd h (by simp [dlookup])
  | cons p t ih =>
    intro m v h
    rw [dlookup_cons] at h
    by_cases hp : p.1 = m
    · rw [if_pos hp] at h
      have : (m, v) = p := by
        rw [← hp, ← Option.some.inj h]
      rw [this]
      exact List.mem_cons_self p t
    · rw [if_neg hp] at h
      exact List.mem_cons_of_mem p (ih m v h)

theorem dlookup_of_mem_nodup {κ α : Type} [DecidableEq κ] :
    ∀ (l : List (κ × α)) (p : κ × α), (l.map Prod.fst).Nodup → p ∈ l →
      dlookup l p.1 = some p.2 := by
  intro l
  induction l with
  | nil => intro p _ h; exact absurd h (List.not_mem_nil p)
  | cons q t ih =>
    intro p hnd hp
    simp only [List.map, List.nodup_cons] at hnd
    obtain ⟨hq, hndt⟩ := hnd
    rw [dlookup_cons]
    rcases List.mem_cons.mp hp with h | h
    · rw [h]
      rw [if_pos rfl]
    · have hne : q.1 ≠ p.1 := by
        intro he
        apply hq
        rw [he]
        exact List.mem_map_of_mem Prod.fst h
      rw [if_neg hne]
      exact ih p hndt h

theorem mem_foldl_dedupAppend :
    ∀ (l acc : List String) (x : String),
      x ∈ l.foldl dedupAppend acc ↔ x ∈ acc ∨ x ∈ l := by
  intro l
  induction l with
  | nil => intro acc x; simp
  | cons y t ih =>
    intro acc x
    simp only [List.foldl_cons]
    rw [ih]
    unfold dedupAppend
    by_cases hy : y ∈ acc
    · rw [if_pos hy]
      constructor
      · rintro (h | h)
        · exact Or.inl h
        · exact Or.inr (List.mem_cons_of_mem y h)
      · rintro (h | h)
        · exact Or.inl h
        · rcases List.mem_cons.mp h with h | h
          · exact Or.inl (h ▸ hy)
          · exact Or.inr h
    · rw [if_neg hy]
      simp only [List.mem_append, List.mem_singleton, List.mem_cons]
      tauto

theorem mem_setUnion (l1 l2 : List String) (x : String) :
    x ∈ setUnion l1 l2 ↔ x ∈ l1 ∨ x ∈ l2 := by
  unfold setUnion
  rw [mem_foldl_dedupAppend, mem_foldl_dedupAppend]
  simp

theorem cActs_go (a : String) :
    ∀ (l : List (String × Graph)) (acc : List (String × Entity)),
      (List.foldlM (fun acc (p : String × Graph) =>
        match dlookup p.2.actors a with
        | some _ =>
          match dlookup p.2.actors a with
          | some e => pure (dinsert acc p.1 e)
          | none => none
        | none => pure acc) acc l : Option (List (String × Entity))) =
      some (List.foldl (fun acc (p : String × Graph) =>
        match dlookup p.2.actors a with
        | some e => dinsert acc p.1 e
        | none => acc) acc l) := by
  intro l
  induction l with
  | nil => intro acc; rfl
  | cons p t ih =>
    intro acc
    rw [List.foldlM_cons, List.foldl_cons]
    cases hx : dlookup p.2.actors a with
    | none =>
      simp only [hx]
      exact ih acc
    | some e =>
      simp only [hx]
      exact ih (dinsert acc p.1 e)

theorem collectActor_strip (cache : List (String × Graph)) (a : String)
    (hs : pyRstripSlash a = a) :
    collectActor cache a = some (cActs cache a) := by
  unfold collectActor cActs
  simp only [hs]
  exact cActs_go a cache []

theorem cActs_go_notmem (a : String) :
    ∀ (l : List (String × Graph)) (acc : List (String × Entity)) (m : String),
      m ∉ l.map Prod.fst →
      dlookup (List.foldl (fun acc (p : String × Graph) =>
        match dlookup p.2.actors a with
        | some e => dinsert acc p.1 e
        | none => acc) acc l) m = dlookup acc m := by
  intro l
  induction l with
  | nil => intro acc m _; rfl
  | cons p t ih =>
    intro acc m hm
    simp only [List.map, List.mem_cons, not_or] at hm
    obtain ⟨hm1, hm2⟩ := hm
    rw [List.foldl_cons]
    cases hx : dlookup p.2.actors a with
    | none =>
      simp only [hx]
      exact ih acc m hm2
    | some e =>
      simp only [hx]
      rw [ih (dinsert acc p.1 e) m hm2]
      rw [dlookup_dinsert]
      rw [if_neg hm1]

theorem cActs_go_mem (a : String) :
    ∀ (l : List (String × Graph)) (acc : List (String × Entity)) (m : String) (g : Graph),
      (l.map Prod.fst).Nodup → dlookup l m = some g →
      dlookup (List.foldl (fun acc (p : String × Graph) =>
        match dlookup p.2.actors a with
        | some e => dinsert acc p.1 e
        | none => acc) acc l) m =
      (match dlookup g.actors a with
       | some e => some e
       | none => dlookup acc m) := by
  intro l
  induction l with
  | nil => intro acc m g _ h; exact absurd h (by simp [dlookup])
  | cons p t ih =>
    intro acc m g hnd hg
    simp only [List.map, List.nodup_cons] at hnd
    obtain ⟨hp, hndt⟩ := hnd
    rw [dlookup_cons] at hg
    rw [List.foldl_cons]
    by_cases hm : p.1 = m
    · rw [if_pos hm] at hg
      have hgp : g = p.2 := (Option.some.inj hg).symm
      subst hgp
      subst hm
      cases hx : dlookup p.2.actors a with
      | none =>
        simp only [hx]
        rw [cActs_go_notmem a t acc p.1 hp]
      | some e =>
        simp only [hx]
        rw [cActs_go_notmem a t (dinsert acc p.1 e) p.1 hp]
        rw [dlookup_dinsert, if_pos rfl]
    · rw [if_neg hm] at hg
      cases hx : dlookup p.2.actors a with
      | none =>
        simp only [hx]
        exact ih acc m g hndt hg
      | some e =>
        simp only [hx]
        rw [ih (dinsert acc p.1 e) m g hndt hg]
        cases dlookup g.actors a with
        | none =>
          dsimp only
          rw [dlookup_dinsert, if_neg (fun h => hm h.symm)]
        | some e2 => rfl

theorem cActs_lookup (cache : List (String × Graph)) (a : String) (m : String)
    (hnd : (cache.map Prod.fst).Nodup) :
    dlookup (cActs cache a) m = (dlookup cache m).bind (fun g => dlookup g.actors a) := by
  unfold cActs
  cases hm : dlookup cache m with
  | none =>
    rw [cActs_go_notmem a cache [] m ((dlookup_eq_none_iff_not_mem cache m).mp hm)]
    rfl
  | some g =>
    rw [cActs_go_mem a cache [] m g hnd hm]
    cases hx : dlookup g.actors a with
    | none => simp [hx, dlookup_nil]
    | some e => simp [hx]

theorem relKeys_of_not_truthy (v : RelVal) (h : relTruthy (some v) = false) :
    relKeys v = [] := by
  cases v with
  | ids l =>
    simp [relTruthy] at h
    simp [relKeys, h]
  | unfolded m =>
    simp [relTruthy] at h
    simp [relKeys, h]

theorem kstep_lookup_ne (e : Entity) (am : List (Kind × List String)) (k k2 : Kind)
    (h : k2 ≠ k) : dlookup (kstep e am k) k2 = dlookup am k2 := by
  unfold kstep
  cases e.rel k with
  | none => rfl
  | some v =>
    dsimp only
    by_cases ht : relTruthy (some v)
    · rw [if_pos ht, dlookup_dinsert, if_neg h]
    · rw [if_neg ht]

theorem kstep_mem_self (e : Entity) (am : List (Kind × List String)) (k : Kind) (x : String) :
    x ∈ (dlookup (kstep e am k) k).getD [] ↔
      x ∈ (dlookup am k).getD [] ∨ ∃ v, e.rel k = some v ∧ x ∈ relKeys v := by
  unfold kstep
  cases hr : e.rel k with
  | none => simp
  | some v =>
    dsimp only
    by_cases ht : relTruthy (some v)
    · rw [if_pos ht, dlookup_dinsert, if_pos rfl]
      simp only [Option.getD_some]
      rw [mem_foldl_dedupAppend]
      constructor
      · rintro (h | h)
        · exact Or.inl h
        · exact Or.inr ⟨v, rfl, h⟩
      · rintro (h | ⟨v', hv', h⟩)
        · exact Or.inl h
        · have hv : v' = v := (Option.some.inj hv').symm
          rw [hv] at h
          exact Or.inr h
    · rw [if_neg ht]
      constructor
      · exact Or.inl
      · rintro (h | ⟨v', hv', h⟩)
        · exact h
        · rw [← Option.some.inj hv'] at h
          rw [relKeys_of_not_truthy v (Bool.eq_false_iff.mpr ht)] at h
          exact absurd h (List.not_mem_nil x)

theorem kfold_mem (e : Entity) (am : List (Kind × List String)) (k : Kind)
    (hk : k ∈ aoKinds) (x : String) :
    x ∈ (dlookup (aoKinds.foldl (kstep e) am) k).getD [] ↔
      x ∈ (dlookup am k).getD [] ∨ ∃ v, e.rel k = some v ∧ x ∈ relKeys v := by
  cases k with
  | Tactics => simp [aoKinds] at hk
  | Actors => simp [aoKinds] at hk
  | Malwares =>
    simp only [aoKinds, List.foldl_cons, List.foldl_nil]
    rw [kstep_lookup_ne e _ .Tools .Malwares (by decide),
        kstep_lookup_ne e _ .Techniques .Malwares (by decide),
        kstep_lookup_ne e _ .Subtechniques .Malwares (by decide),
        kstep_lookup_ne e _ .Mitigations .Malwares (by decide)]
    exact kstep_mem_self e am .Malwares x
  | Mitigations =>
    simp only [aoKinds, List.foldl_cons, List.foldl_nil]
    rw [kstep_lookup_ne e _ .Tools .Mitigations (by decide),
        kstep_lookup_ne e _ .Techniques .Mitigations (by decide),
        kstep_lookup_ne e _ .Subtechniques .Mitigations (by decide)]
    rw [kstep_mem_self]
    rw [kstep_lookup_ne e am .Malwares .Mitigations (by decide)]
  | Subtechniques =>
    simp only [aoKinds, List.foldl_cons, List.foldl_nil]
    rw [kstep_lookup_ne e _ .Tools .Subtechniques (by decide),
        kstep_lookup_ne e _ .Techniques .Subtechniques (by decide)]
    rw [kstep_mem_self]
    rw [kstep_lookup_ne e _ .Mitigations .Subtechniques (by decide),
        kstep_lookup_ne e am .Malwares .Subtechniques (by decide)]
  | Techniques =>
    simp only [aoKinds, List.foldl_cons, List.foldl_nil]
    rw [kstep_lookup_ne e _ .Tools .Techniques (by decide)]
    rw [kstep_mem_self]
    rw [kstep_lookup_ne e _ .Subtechniques .Techniques (by decide),
        kstep_lookup_ne e _ .Mitigations .Techniques (by decide),
        kstep_lookup_ne e am .Malwares .Techniques (by decide)]
  | Tools =>
    simp only [aoKinds, List.foldl_cons, List.foldl_nil]
    rw [kstep_mem_self]
    rw [kstep_lookup_ne e _ .Techniques .Tools (by decide),
        kstep_lookup_ne e _ .Subtechniques .Tools (by decide),
        kstep_lookup_ne e _ .Mitigations .Tools (by decide),
        kstep_lookup_ne e am .Malwares .Tools (by decide)]

theorem amapStep_mem (acts : List (String × Entity)) (am : List (Kind × List String))
    (m : String) (k : Kind) (hk : k ∈ aoKinds) (x : String) :
    x ∈ (dlookup (amapStep acts am m) k).getD [] ↔
      x ∈ (dlookup am k).getD [] ∨
      ∃ e v, dlookup acts m = some e ∧ e.rel k = some v ∧ x ∈ relKeys v := by
  unfold amapStep
  cases hm : dlookup acts m with
  | none => simp
  | some e =>
    dsimp only
    rw [kfold_mem e am k hk x]
    constructor
    · rintro (h | ⟨v, hv, hx⟩)
      · exact Or.inl h
      · exact Or.inr ⟨e, v, rfl, hv, hx⟩
    · rintro (h | ⟨e', v, he', hv, hx⟩)
      · exact Or.inl h
      · have he : e' = e := (Option.some.inj he').symm
        rw [he] at hv
        exact Or.inr ⟨v, hv, hx⟩

theorem accumSide_fst (acts : List (String × Entity)) (m i : String)
    (am : List (Kind × List String)) (as : List (String × ActorSum)) :
    (accumSide acts m i am as).1 = amapStep acts am m := by
  unfold accumSide amapStep kstep
  cases dlookup acts m <;> rfl

theorem amapFold_mem (acts : List (String × Entity)) :
    ∀ (morder : List String) (am : List (Kind × List String)) (k : Kind),
      k ∈ aoKinds → ∀ (x : String),
      (x ∈ (dlookup (morder.foldl (amapStep acts) am) k).getD [] ↔
        x ∈ (dlookup am k).getD [] ∨
        ∃ m e v, m ∈ morder ∧ dlookup acts m = some e ∧ e.rel k = some v ∧ x ∈ relKeys v) := by
  intro morder
  induction morder with
  | nil => intro am k hk x; simp
  | cons m0 t ih =>
    intro am k hk x
    rw [List.foldl_cons, ih (amapStep acts am m0) k hk x, amapStep_mem acts am m0 k hk x]
    constructor
    · rintro ((h | ⟨e, v, he, hv, hx⟩) | ⟨m, e, v, hm, he, hv, hx⟩)
      · exact Or.inl h
      · exact Or.inr ⟨m0, e, v, List.mem_cons_self m0 t, he, hv, hx⟩
      · exact Or.inr ⟨m, e, v, List.mem_cons_of_mem m0 hm, he, hv, hx⟩
    · rintro (h | ⟨m, e, v, hm, he, hv, hx⟩)
      · exact Or.inl (Or.inl h)
      · rcases List.mem_cons.mp hm with h1 | h1
        · subst h1
          exact Or.inl (Or.inr ⟨e, v, he, hv, hx⟩)
        · exact Or.inr ⟨m, e, v, h1, he, hv, hx⟩

theorem aoAccFold_proj (acts : List (String × Entity)) (i1 i2 : String) :
    ∀ (morder : List String) (am : List (Kind × List String)) (as : List (String × ActorSum)),
      (morder.foldl (fun (acc : (List (Kind × List String)) × (List (Kind × List String)) × (List (String × ActorSum))) m =>
          let a1 := accumSide acts m i1 acc.1 acc.2.2
          let a2 := accumSide acts m i2 acc.2.1 a1.2
          (a1.1, a2.1, a2.2)) (am, am, as)).1 = morder.foldl (amapStep acts) am ∧
      (morder.foldl (fun (acc : (List (Kind × List String)) × (List (Kind × List String)) × (List (String × ActorSum))) m =>
          let a1 := accumSide acts m i1 acc.1 acc.2.2
          let a2 := accumSide acts m i2 acc.2.1 a1.2
          (a1.1, a2.1, a2.2)) (am, am, as)).2.1 = morder.foldl (amapStep acts) am := by
  intro morder
  induction morder with
  | nil => intro am as; exact ⟨rfl, rfl⟩
  | cons m0 t ih =>
    intro am as
    rw [List.foldl_cons, List.foldl_cons]
    dsimp only
    rw [accumSide_fst, accumSide_fst]
    exact ih (amapStep acts am m0) ((accumSide acts m0 i2 am (accumSide acts m0 i1 am as).2).2)

theorem actorKindUnion_go (a : String) (k : Kind) :
    ∀ (l : List (String × Graph)) (acc : List String) (x : String),
      (x ∈ l.foldl (fun acc p =>
        match dlookup p.2.actors a with
        | some e =>
          match e.rel k with
          | some v => acc ++ relKeys v
          | none => acc
        | none => acc) acc ↔
      x ∈ acc ∨ ∃ p, p ∈ l ∧ ∃ e v,
        dlookup p.2.actors a = some e ∧ e.rel k = some v ∧ x ∈ relKeys v) := by
  intro l
  induction l with
  | nil => intro acc x; simp
  | cons p t ih =>
    intro acc x
    rw [List.foldl_cons]
    cases hp : dlookup p.2.actors a with
    | none =>
      simp only [hp]
      rw [ih acc x]
      constructor
      · rintro (h | ⟨q, hq, rest⟩)
        · exact Or.inl h
        · exact Or.inr ⟨q, List.mem_cons_of_mem p hq, rest⟩
      · rintro (h | ⟨q, hq, e, v, he, hv, hx⟩)
        · exact Or.inl h
        · rcases List.mem_cons.mp hq with h1 | h1
          · rw [h1] at he
            rw [hp] at he
            exact absurd he (Option.noConfusion)
          · exact Or.inr ⟨q, h1, e, v, he, hv, hx⟩
    | some e =>
      simp only [hp]
      cases hr : e.rel k with
      | none =>
        simp only [hr]
        rw [ih acc x]
        constructor
        · rintro (h | ⟨q, hq, rest⟩)
          · exact Or.inl h
          · exact Or.inr ⟨q, List.mem_cons_of_mem p hq, rest⟩
        · rintro (h | ⟨q, hq, e2, v, he, hv, hx⟩)
          · exact Or.inl h
          · rcases List.mem_cons.mp hq with h1 | h1
            · rw [h1, hp] at he
              have he2 : e2 = e := (Option.some.inj he).symm
              rw [he2, hr] at hv
              exact absurd hv (Option.noConfusion)
            · exact Or.inr ⟨q, h1, e2, v, he, hv, hx⟩
      | some v =>
        simp only [hr]
        rw [ih (acc ++ relKeys v) x]
        simp only [List.mem_append]
        constructor
        · rintro ((h | h) | ⟨q, hq, rest⟩)
          · exact Or.inl h
          · exact Or.inr ⟨p, List.mem_cons_self p t, e, v, hp, hr, h⟩
          · exact Or.inr ⟨q, List.mem_cons_of_mem p hq, rest⟩
        · rintro (h | ⟨q, hq, e2, v2, he, hv, hx⟩)
          · exact Or.inl (Or.inl h)
          · rcases List.mem_cons.mp hq with h1 | h1
            · rw [h1, hp] at he
              have he2 : e2 = e := (Option.some.inj he).symm
              rw [he2, hr] at hv
              have hv2 : v2 = v := (Option.some.inj hv).symm
              rw [hv2] at hx
              exact Or.inl (Or.inr hx)
            · exact Or.inr ⟨q, h1, e2, v2, he, hv, hx⟩

theorem actorKindUnion_mem (cache : List (String × Graph)) (a : String) (k : Kind)
    (x : String) :
    x ∈ actorKindUnion cache a k ↔
      ∃ p, p ∈ cache ∧ ∃ e v,
        dlookup p.2.actors a = some e ∧ e.rel k = some v ∧ x ∈ relKeys v := by
  unfold actorKindUnion
  rw [actorKindUnion_go a k cache [] x]
  simp

theorem kodInner_mem (k : Kind) (key : String) :
    ∀ (l : List (String × Graph)) (acc : List (String × NameDesc)) (i : String),
      (i ∈ (l.foldl (fun acc (p : String × Graph) =>
        match dlookup (p.2.kmap k) key with
        | some t => dinsert acc key { name := t.name, description := t.description }
        | none => acc) acc).map Prod.fst ↔
      i ∈ acc.map Prod.fst ∨ (i = key ∧ ∃ p, p ∈ l ∧ (dlookup (p.2.kmap k) key).isSome)) := by
  intro l
  induction l with
  | nil => intro acc i; simp
  | cons p t ih =>
    intro acc i
    rw [List.foldl_cons]
    cases hp : dlookup (p.2.kmap k) key with
    | none =>
      simp only [hp]
      rw [ih acc i]
      constructor
      · rintro (h | ⟨h1, q, hq, h2⟩)
        · exact Or.inl h
        · exact Or.inr ⟨h1, q, List.mem_cons_of_mem p hq, h2⟩
      · rintro (h | ⟨h1, q, hq, h2⟩)
        · exact Or.inl h
        · rcases List.mem_cons.mp hq with hq1 | hq1
          · rw [hq1, hp] at h2
            exact absurd h2 (by simp)
          · exact Or.inr ⟨h1, q, hq1, h2⟩
    | some t0 =>
      simp only [hp]
      rw [ih (dinsert acc key { name := t0.name, description := t0.description }) i]
      rw [mem_keys_dinsert]
      constructor
      · rintro ((h | h) | ⟨h1, q, hq, h2⟩)
        · exact Or.inl h
        · exact Or.inr ⟨h, p, List.mem_cons_self p t, by rw [hp]; rfl⟩
        · exact Or.inr ⟨h1, q, List.mem_cons_of_mem p hq, h2⟩
      · rintro (h | ⟨h1, q, hq, h2⟩)
        · exact Or.inl (Or.inl h)
        · rcases List.mem_cons.mp hq with hq1 | hq1
          · exact Or.inl (Or.inr h1)
          · exact Or.inr ⟨h1, q, hq1, h2⟩

theorem kindOverlapDict_go (cache : List (String × Graph)) (k : Kind) :
    ∀ (keys : List String) (acc : List (String × NameDesc)) (i : String),
      (i ∈ (keys.foldl (fun acc key =>
        cache.foldl (fun acc (p : String × Graph) =>
          match dlookup (p.2.kmap k) key with
          | some t => dinsert acc key { name := t.name, description := t.description }
          | none => acc) acc) acc).map Prod.fst ↔
      i ∈ acc.map Prod.fst ∨
        (i ∈ keys ∧ ∃ p, p ∈ cache ∧ (dlookup (p.2.kmap k) i).isSome)) := by
  intro keys
  induction keys with
  | nil => intro acc i; simp
  | cons key t ih =>
    intro acc i
    rw [List.foldl_cons, ih _ i]
    rw [kodInner_mem k key cache acc i]
    constructor
    · rintro ((h | ⟨h1, hres⟩) | ⟨h1, hres⟩)
      · exact Or.inl h
      · rw [← h1] at hres
        refine Or.inr ⟨?_, hres⟩
        rw [h1]
        exact List.mem_cons_self key t
      · exact Or.inr ⟨List.mem_cons_of_mem key h1, hres⟩
    · rintro (h | ⟨h1, hres⟩)
      · exact Or.inl (Or.inl h)
      · rcases List.mem_cons.mp h1 with hq | hq
        · exact Or.inl (Or.inr ⟨hq, hq ▸ hres⟩)
        · exact Or.inr ⟨hq, hres⟩

theorem kindOverlapDict_mem (cache : List (String × Graph)) (k : Kind)
    (keys : List String) (i : String) :
    i ∈ (kindOverlapDict cache k keys).map Prod.fst ↔
      i ∈ keys ∧ ∃ p, p ∈ cache ∧ (dlookup (p.2.kmap k) i).isSome := by
  unfold kindOverlapDict
  rw [kindOverlapDict_go cache k keys [] i]
  simp

theorem findActorOverlap_self (cache : List (String × Graph)) (a : String)
    (hs : pyRstripSlash a = a) :
    findActorOverlap cache a a = some (aoResSelf cache a) := by
  unfold findActorOverlap
  rw [collectActor_strip cache a hs]
  unfold aoResSelf
  rw [apply_ite some]
  rfl

theorem aoAccSelf_proj (cache : List (String × Graph)) (a : String) :
    (aoAccSelf cache a).1 =
      (setUnion ((cActs cache a).map Prod.fst) ((cActs cache a).map Prod.fst)).foldl
        (amapStep (cActs cache a)) aoAmap0 ∧
    (aoAccSelf cache a).2.1 =
      (setUnion ((cActs cache a).map Prod.fst) ((cActs cache a).map Prod.fst)).foldl
        (amapStep (cActs cache a)) aoAmap0 :=
  aoAccFold_proj (cActs cache a) a a _ aoAmap0 (aoAsum0 a a)

theorem aoAmap0_lookup (k : Kind) (hk : k ∈ aoKinds) : dlookup aoAmap0 k = some [] := by
  cases k <;> first
    | exact absurd hk (by decide)
    | decide

theorem aoA_mem (cache : List (String × Graph)) (a : String)
    (hndc : (cache.map Prod.fst).Nodup) (k : Kind) (hk : k ∈ aoKinds) (x : String) :
    x ∈ (dlookup (aoAccSelf cache a).1 k).getD [] ↔ x ∈ actorKindUnion cache a k := by
  rw [(aoAccSelf_proj cache a).1,
      amapFold_mem (cActs cache a) _ aoAmap0 k hk x,
      aoAmap0_lookup k hk]
  simp only [Option.getD_some, List.not_mem_nil, false_or]
  rw [actorKindUnion_mem]
  constructor
  · rintro ⟨m, e, v, hm, he, hv, hx⟩
    rw [cActs_lookup cache a m hndc] at he
    cases hg : dlookup cache m with
    | none =>
      rw [hg] at he
      exact absurd he (by simp)
    | some g =>
      rw [hg] at he
      simp only [Option.some_bind] at he
      exact ⟨(m, g), mem_of_dlookup_eq_some cache m g hg, e, v, he, hv, hx⟩
  · rintro ⟨p, hp, e, v, he, hv, hx⟩
    have hlook : dlookup (cActs cache a) p.1 = some e := by
      rw [cActs_lookup cache a p.1 hndc, dlookup_of_mem_nodup cache p hndc hp]
      simp [he]
    refine ⟨p.1, e, v, ?_, hlook, hv, hx⟩
    rw [mem_setUnion]
    exact Or.inl ((dlookup_isSome_iff_mem _ _).mp (by rw [hlook]; rfl))

theorem aoKeysSelf_eq (cache : List (String × Graph)) (a : String) (k : Kind) :
    ((dlookup (aoAccSelf cache a).1 k).getD []).filter
      (fun x => x ∈ (dlookup (aoAccSelf cache a).2.1 k).getD []) =
    (dlookup (aoAccSelf cache a).1 k).getD [] := by
  have h21 : (aoAccSelf cache a).2.1 = (aoAccSelf cache a).1 :=
    (aoAccSelf_proj cache a).2.trans (aoAccSelf_proj cache a).1.symm
  rw [h21]
  exact List.filter_eq_self.mpr (fun x hx => decide_eq_true hx)

theorem aoMkSelf_none_iff (cache : List (String × Graph)) (a : String)
    (hndc : (cache.map Prod.fst).Nodup) (k : Kind) (hk : k ∈ aoKinds) :
    aoMkSelf cache a k = none ↔ actorKindUnion cache a k = [] := by
  unfold aoMkSelf
  rw [aoKeysSelf_eq cache a k]
  by_cases h0 : ((dlookup (aoAccSelf cache a).1 k).getD []).length = 0
  · rw [if_pos h0]
    simp only [true_iff]
    rw [List.length_eq_zero] at h0
    rw [List.eq_nil_iff_forall_not_mem]
    intro x hx
    have := (aoA_mem cache a hndc k hk x).mpr hx
    rw [h0] at this
    exact absurd this (List.not_mem_nil x)
  · rw [if_neg h0]
    constructor
    · intro h
      exact absurd h (Option.some_ne_none _)
    · intro hall
      exfalso
      apply h0
      rw [List.length_eq_zero, List.eq_nil_iff_forall_not_mem]
      intro x hx
      have := (aoA_mem cache a hndc k hk x).mp hx
      rw [hall] at this
      exact absurd this (List.not_mem_nil x)

theorem aoMkSelf_some (cache : List (String × Graph)) (a : String)
    (hndc : (cache.map Prod.fst).Nodup) (k : Kind) (hk : k ∈ aoKinds)
    (hne : actorKindUnion cache a k ≠ []) :
    ∃ keys, aoMkSelf cache a k =
        some (kindOverlapDict cache k keys) ∧
      (∀ x, x ∈ keys ↔ x ∈ actorKindUnion cache a k) := by
  refine ⟨(dlookup (aoAccSelf cache a).1 k).getD [], ?_, fun x => aoA_mem cache a hndc k hk x⟩
  unfold aoMkSelf
  rw [aoKeysSelf_eq cache a k]
  rw [if_neg ?_]
  intro h0
  apply hne
  rw [List.length_eq_zero] at h0
  rw [List.eq_nil_iff_forall_not_mem]
  intro x hx
  have := (aoA_mem cache a hndc k hk x).mpr hx
  rw [h0] at this
  exact absurd this (List.not_mem_nil x)

/-- C7 (amended): for every actor id with no trailing slash, over a cache with
duplicate-free matrix keys, `actorOverlap(a, a)` completes; it returns the
explicit absent result exactly when every one of the five kind union-sets is
empty; and in a returned overlap, each kind with a non-empty union-set carries
a dict over exactly the union-set's RESOLVABLE ids — an id resolving in some
loaded matrix is a key of the dict, an id resolving nowhere is silently
dropped (not every union-set id appears, contrary to the claim as stated). -/
theorem C7_amended_self_overlap (cache : List (String × Graph)) (a : String)
    (hs : pyRstripSlash a = a) (hndc : (cache.map Prod.fst).Nodup) :
    ∃ res, findActorOverlap cache a a = some res ∧
      ((res = none) ↔ ∀ k, k ∈ aoKinds → actorKindUnion cache a k = []) ∧
      (∀ ov, res = some ov → ∀ k, k ∈ aoKinds → ∀ x, x ∈ actorKindUnion cache a k →
        ∃ dict, ov.okind k = some dict ∧
          ((∃ p, p ∈ cache ∧ (dlookup (p.2.kmap k) x).isSome) → x ∈ dict.map Prod.fst) ∧
          ((∀ p, p ∈ cache → dlookup (p.2.kmap k) x = none) → x ∉ dict.map Prod.fst)) := by
  refine ⟨aoResSelf cache a, findActorOverlap_self cache a hs, ?_, ?_⟩
  · constructor
    · intro h k hk
      unfold aoResSelf at h
      by_cases hc : ((aoMkSelf cache a .Malwares).isSome || (aoMkSelf cache a .Mitigations).isSome ||
          (aoMkSelf cache a .Subtechniques).isSome || (aoMkSelf cache a .Techniques).isSome ||
          (aoMkSelf cache a .Tools).isSome) = true
      · rw [if_pos hc] at h
        exact absurd h (Option.some_ne_none _)
      · simp only [Bool.or_eq_true, not_or, Bool.not_eq_true] at hc
        obtain ⟨⟨⟨⟨h1, h2⟩, h3⟩, h4⟩, h5⟩ := hc
        apply (aoMkSelf_none_iff cache a hndc k hk).mp
        cases hmk : aoMkSelf cache a k with
        | none => rfl
        | some d =>
          exfalso
          cases k with
          | Tactics => exact absurd hk (by decide)
          | Actors => exact absurd hk (by decide)
          | Malwares => rw [hmk] at h1; exact absurd h1 (by simp)
          | Mitigations => rw [hmk] at h2; exact absurd h2 (by simp)
          | Subtechniques => rw [hmk] at h3; exact absurd h3 (by simp)
          | Techniques => rw [hmk] at h4; exact absurd h4 (by simp)
          | Tools => rw [hmk] at h5; exact absurd h5 (by simp)
    · intro hall
      have hmk : ∀ k, k ∈ aoKinds → aoMkSelf cache a k = none :=
        fun k hk => (aoMkSelf_none_iff cache a hndc k hk).mpr (hall k hk)
      have h1 := hmk .Malwares (by decide)
      have h2 := hmk .Mitigations (by decide)
      have h3 := hmk .Subtechniques (by decide)
      have h4 := hmk .Techniques (by decide)
      have h5 := hmk .Tools (by decide)
      unfold aoResSelf
      rw [if_neg (by simp [h1, h2, h3, h4, h5])]
  · intro ov hov k hk x hx
    unfold aoResSelf at hov
    by_cases hc : ((aoMkSelf cache a .Malwares).isSome || (aoMkSelf cache a .Mitigations).isSome ||
        (aoMkSelf cache a .Subtechniques).isSome || (aoMkSelf cache a .Techniques).isSome ||
        (aoMkSelf cache a .Tools).isSome) = true
    · rw [if_pos hc] at hov
      have heq := Option.some.inj hov
      have hok : ov.okind k = aoMkSelf cache a k := by
        rw [← heq]
        cases k with
        | Tactics => exact absurd hk (by decide)
        | Actors => exact absurd hk (by decide)
        | Malwares => rfl
        | Mitigations => rfl
        | Subtechniques => rfl
        | Techniques => rfl
        | Tools => rfl
      obtain ⟨keys, hmk, hkeys⟩ := aoMkSelf_some cache a hndc k hk (List.ne_nil_of_mem hx)
      refine ⟨kindOverlapDict cache k keys, by rw [hok, hmk], ?_, ?_⟩
      · intro hres
        rw [kindOverlapDict_mem]
        exact ⟨(hkeys x).mpr hx, hres⟩
      · intro hnores hmem
        rw [kindOverlapDict_mem] at hmem
        obtain ⟨-, p, hp, hps⟩ := hmem
        rw [hnores p hp] at hps
        exact absurd hps (by simp)
    · rw [if_neg hc] at hov
      exact Option.noConfusion hov

theorem C7_witness :
    ∃ res, findActorOverlap [("enterprise", gAO1)] "G1" "G1" = some res ∧
      ((res = none) ↔ ∀ k, k ∈ aoKinds → actorKindUnion [("enterprise", gAO1)] "G1" k = []) ∧
      (∀ ov, res = some ov → ∀ k, k ∈ aoKinds →
        ∀ x, x ∈ actorKindUnion [("enterprise", gAO1)] "G1" k →
        ∃ dict, ov.okind k = some dict ∧
          ((∃ p, p ∈ [("enterprise", gAO1)] ∧ (dlookup (p.2.kmap k) x).isSome) →
            x ∈ dict.map Prod.fst) ∧
          ((∀ p, p ∈ [("enterprise", gAO1)] → dlookup (p.2.kmap k) x = none) →
            x ∉ dict.map Prod.fst)) :=
  C7_amended_self_overlap [("enterprise", gAO1)] "G1" (by decide) (by decide)

theorem appendForm_lookup (g : Graph) (k : Kind) (sid : String) (e : Entity) (k' : Kind)
    (l : List String) (tid : String) (A : Kind) (x : String) :
    dlookup ((appendForm g k sid e k' l tid).kmap A) x =
      if A = k ∧ x = sid then some (e.setRel k' (.ids (l ++ [tid])))
      else dlookup (g.kmap A) x := by
  unfold appendForm
  rw [kmap_setKmap]
  by_cases hA : A = k
  · subst hA
    rw [if_pos rfl, dlookup_dinsert]
    by_cases hx : x = sid
    · rw [if_pos hx, if_pos ⟨rfl, hx⟩]
    · rw [if_neg hx, if_neg (fun h => hx h.2)]
  · rw [if_neg hA, if_neg (fun h => hA h.1)]

theorem appendForm_pres (g : Graph) (k : Kind) (sid : String) (e : Entity) (k' : Kind)
    (l : List String) (tid : String) (hlk : dlookup (g.kmap k) sid = some e)
    (A : Kind) (x : String) :
    Pres (appendForm g k sid e k' l tid) A x ↔ Pres g A x := by
  unfold Pres
  rw [appendForm_lookup]
  by_cases h : A = k ∧ x = sid
  · rw [if_pos h, h.1, h.2, hlk]
    simp
  · rw [if_neg h]

theorem relMem_setRel_ids (e : Entity) (k' : Kind) (l : List String) (tid : String)
    (hrel : e.rel k' = some (.ids l)) (hk' : k' ≠ Kind.Tactics) (B : Kind) (y : String) :
    relMem (e.setRel k' (.ids (l ++ [tid]))) B y ↔ relMem e B y ∨ (B = k' ∧ y = tid) := by
  unfold relMem
  rw [rel_setRel]
  by_cases hB : B = k'
  · rw [if_pos ⟨hB, hk'⟩, hB, hrel]
    simp only [relKeys, List.mem_append, List.mem_singleton]
    constructor
    · rintro (h | h)
      · exact Or.inl h
      · exact Or.inr ⟨by trivial, h⟩
    · rintro (h | ⟨-, h⟩)
      · exact Or.inl h
      · exact Or.inr h
  · rw [if_neg (fun h => hB h.1)]
    constructor
    · exact Or.inl
    · rintro (h | ⟨h1, -⟩)
      · exact h
      · exact absurd h1 hB

theorem appendForm_medge (g : Graph) (k : Kind) (sid : String) (e : Entity) (k' : Kind)
    (l : List String) (tid : String) (hlk : dlookup (g.kmap k) sid = some e)
    (hrel : e.rel k' = some (.ids l)) (hk' : k' ≠ Kind.Tactics)
    (A : Kind) (x : String) (B : Kind) (y : String) :
    MEdge (appendForm g k sid e k' l tid) A x B y ↔
      MEdge g A x B y ∨ (A = k ∧ x = sid ∧ B = k' ∧ y = tid) := by
  unfold MEdge
  by_cases h : A = k ∧ x = sid
  · obtain ⟨hA, hx⟩ := h
    subst hA
    subst hx
    constructor
    · rintro ⟨e1, he1, hm⟩
      rw [appendForm_lookup] at he1
      rw [if_pos ⟨rfl, rfl⟩] at he1
      have he1' : e1 = e.setRel k' (.ids (l ++ [tid])) := (Option.some.inj he1).symm
      rw [he1'] at hm
      rcases (relMem_setRel_ids e k' l tid hrel hk' B y).mp hm with h | ⟨hB, hy⟩
      · exact Or.inl ⟨e, hlk, h⟩
      · exact Or.inr ⟨rfl, rfl, hB, hy⟩
    · rintro (⟨e1, he1, hm⟩ | ⟨-, -, hB, hy⟩)
      · have he1' : e1 = e := by rw [hlk] at he1; exact (Option.some.inj he1).symm
        rw [he1'] at hm
        refine ⟨e.setRel k' (.ids (l ++ [tid])), ?_, ?_⟩
        · rw [appendForm_lookup, if_pos ⟨rfl, rfl⟩]
        · exact (relMem_setRel_ids e k' l tid hrel hk' B y).mpr (Or.inl hm)
      · refine ⟨e.setRel k' (.ids (l ++ [tid])), ?_, ?_⟩
        · rw [appendForm_lookup, if_pos ⟨rfl, rfl⟩]
        · exact (relMem_setRel_ids e k' l tid hrel hk' B y).mpr (Or.inr ⟨hB, hy⟩)
  · constructor
    · rintro ⟨e1, he1, hm⟩
      rw [appendForm_lookup, if_neg h] at he1
      exact Or.inl ⟨e1, he1, hm⟩
    · rintro (⟨e1, he1, hm⟩ | ⟨hA, hx, -⟩)
      · refine ⟨e1, ?_, hm⟩
        rw [appendForm_lookup, if_neg h]
        exact he1
      · exact absurd ⟨hA, hx⟩ h

theorem symmX_iff_medge (g : Graph) :
    SymmX g ↔ ∀ A B, schemaHas A B = true → schemaHas B A = true →
      ∀ s t, Pres g A s → Pres g B t → (MEdge g A s B t ↔ MEdge g B t A s) := by
  constructor
  · intro h A B hAB hBA s t hps hpt
    obtain ⟨es, hes⟩ := Option.isSome_iff_exists.mp hps
    obtain ⟨et, het⟩ := Option.isSome_iff_exists.mp hpt
    have hiff := h A B hAB hBA s es t et hes het
    constructor
    · rintro ⟨e1, he1, hm⟩
      rw [hes] at he1
      rw [← Option.some.inj he1] at hm
      exact ⟨et, het, hiff.mp hm⟩
    · rintro ⟨e1, he1, hm⟩
      rw [het] at he1
      rw [← Option.some.inj he1] at hm
      exact ⟨es, hes, hiff.mpr hm⟩
  · intro h A B hAB hBA s es t et hes het
    have hiff := h A B hAB hBA s t
      (by show (dlookup (g.kmap A) s).isSome; rw [hes]; rfl)
      (by show (dlookup (g.kmap B) t).isSome; rw [het]; rfl)
    constructor
    · intro hm
      obtain ⟨e1, he1, hm1⟩ := hiff.mp ⟨es, hes, hm⟩
      rw [het] at he1
      rw [← Option.some.inj he1] at hm1
      exact hm1
    · intro hm
      obtain ⟨e1, he1, hm1⟩ := hiff.mpr ⟨et, het, hm⟩
      rw [hes] at he1
      rw [← Option.some.inj he1] at hm1
      exact hm1

theorem namePred_congr (A : Kind) (e1 e2 : Entity) (h : e1.name = e2.name) :
    namePred A e1 ↔ namePred A e2 := by
  cases A <;> simp [namePred, h]

theorem appendForm_shape (g : Graph) (k : Kind) (sid : String) (e : Entity) (k' : Kind)
    (l : List String) (tid : String) (hshape : ShapeX g)
    (hlk : dlookup (g.kmap k) sid = some e) (hrel : e.rel k' = some (.ids l))
    (hk' : k' ≠ Kind.Tactics) :
    ShapeX (appendForm g k sid e k' l tid) := by
  intro A i e1 he1 B
  rw [appendForm_lookup] at he1
  by_cases h : A = k ∧ i = sid
  · rw [if_pos h] at he1
    have he1' : e1 = e.setRel k' (.ids (l ++ [tid])) := (Option.some.inj he1).symm
    obtain ⟨hA, hi⟩ := h
    subst hA
    subst hi
    constructor
    · intro hs
      rw [he1', rel_setRel]
      by_cases hB : B = k'
      · rw [if_pos ⟨hB, hk'⟩]
        exact ⟨l ++ [tid], rfl⟩
      · rw [if_neg (fun hh => hB hh.1)]
        exact (hshape A i e hlk B).1 hs
    · intro hs
      rw [he1', rel_setRel]
      by_cases hB : B = k'
      · exfalso
        have hnone := (hshape A i e hlk k').2 (hB ▸ hs)
        rw [hrel] at hnone
        exact Option.noConfusion hnone
      · rw [if_neg (fun hh => hB hh.1)]
        exact (hshape A i e hlk B).2 hs
  · rw [if_neg h] at he1
    exact hshape A i e1 he1 B

theorem appendForm_nodup (g : Graph) (k : Kind) (sid : String) (e : Entity) (k' : Kind)
    (l : List String) (tid : String) (hnodup : NodupX g)
    (hlk : dlookup (g.kmap k) sid = some e) (hrel : e.rel k' = some (.ids l))
    (hk' : k' ≠ Kind.Tactics) (htid : tid ∉ l) :
    NodupX (appendForm g k sid e k' l tid) := by
  intro A i e1 he1 B v hv hex
  rw [appendForm_lookup] at he1
  by_cases h : A = k ∧ i = sid
  · rw [if_pos h] at he1
    have he1' : e1 = e.setRel k' (.ids (l ++ [tid])) := (Option.some.inj he1).symm
    obtain ⟨hA, hi⟩ := h
    subst hA
    subst hi
    rw [he1', rel_setRel] at hv
    by_cases hB : B = k'
    · rw [if_pos ⟨hB, hk'⟩] at hv
      have hv' : v = .ids (l ++ [tid]) := (Option.some.inj hv).symm
      rw [hB] at hex
      have hl : l.Nodup := by
        have := hnodup A i e hlk k' (.ids l) hrel hex
        simpa [relKeys] using this
      rw [hv']
      simp [relKeys, List.nodup_append, hl, htid]
    · rw [if_neg (fun hh => hB hh.1)] at hv
      exact hnodup A i e hlk B v hv hex
  · rw [if_neg h] at he1
    exact hnodup A i e1 he1 B v hv hex

theorem appendForm_name (g : Graph) (k : Kind) (sid : String) (e : Entity) (k' : Kind)
    (l : List String) (tid : String) (hname : NameInv g)
    (hlk : dlookup (g.kmap k) sid = some e) :
    NameInv (appendForm g k sid e k' l tid) := by
  intro A i e1 he1
  rw [appendForm_lookup] at he1
  by_cases h : A = k ∧ i = sid
  · rw [if_pos h] at he1
    have he1' : e1 = e.setRel k' (.ids (l ++ [tid])) := (Option.some.inj he1).symm
    obtain ⟨hA, hi⟩ := h
    subst hA
    subst hi
    rw [he1']
    exact (namePred_congr A _ e (name_setRel e k' _)).mpr (hname A i e hlk)
  · rw [if_neg h] at he1
    exact hname A i e1 he1

theorem consInv_empty : ConsInv ({} : Graph) := by
  have hnone : ∀ (A : Kind) (i : String), dlookup (({} : Graph).kmap A) i = none := by
    intro A i
    cases A <;> rfl
  refine ⟨?_, ?_, ?_, ?_⟩
  · intro A i e he
    rw [hnone A i] at he
    exact absurd he (Option.noConfusion)
  · intro A i e he
    rw [hnone A i] at he
    exact absurd he (Option.noConfusion)
  · intro A i e he
    rw [hnone A i] at he
    exact absurd he (Option.noConfusion)
  · intro A B hAB hBA i e he
    rw [hnone A i] at he
    exact absurd he (Option.noConfusion)

theorem symm_of_crossEmpty (g : Graph) (hce : CrossEmpty g) : SymmX g := by
  intro A B hAB hBA s es t et hes het
  have h1 := hce A B hAB hBA s es hes
  have h2 := hce B A hBA hAB t et het
  unfold relMem
  rw [h1, h2]
  simp [relKeys]

theorem shape_rel_cases (g : Graph) (hshape : ShapeX g) (A : Kind) (i : String) (e : Entity)
    (he : dlookup (g.kmap A) i = some e) (B : Kind) :
    e.rel B = none ∨ ∃ l, e.rel B = some (.ids l) := by
  by_cases hs : schemaHas A B = true
  · exact Or.inr ((hshape A i e he B).1 hs)
  · exact Or.inl ((hshape A i e he B).2 (Bool.eq_false_iff.mpr hs))

theorem tryAppend_cases (g : Graph) (sk tk : Option Kind) (sid tid : String) (g' : Graph)
    (hshape : ShapeX g) (h : tryAppend g sk sid tk tid = some g') :
    ∃ k, sk = some k ∧
      ((g' = g ∧
         (dlookup (g.kmap k) sid = none ∨
          (∃ k' e, tk = some k' ∧ dlookup (g.kmap k) sid = some e ∧ e.rel k' = none) ∨
          (∃ k' e l, tk = some k' ∧ dlookup (g.kmap k) sid = some e ∧
             e.rel k' = some (.ids l) ∧ tid ∈ l))) ∨
       (∃ k' e l, tk = some k' ∧ dlookup (g.kmap k) sid = some e ∧
          e.rel k' = some (.ids l) ∧ tid ∉ l ∧
          g' = appendForm g k sid e k' l tid)) := by
  cases sk with
  | none => simp [tryAppend] at h
  | some k =>
    refine ⟨k, rfl, ?_⟩
    unfold tryAppend at h
    simp only [Option.bind_eq_bind, Option.some_bind] at h
    cases hlk : dlookup (g.kmap k) sid with
    | none =>
      rw [hlk] at h
      dsimp only at h
      exact Or.inl ⟨(Option.some.inj h).symm, Or.inl rfl⟩
    | some e =>
      rw [hlk] at h
      dsimp only at h
      cases tk with
      | none => simp at h
      | some k1 =>
        simp only [Option.bind_eq_bind, Option.some_bind] at h
        cases hrel : e.rel k1 with
        | none =>
          rw [hrel] at h
          dsimp only at h
          exact Or.inl ⟨(Option.some.inj h).symm, Or.inr (Or.inl ⟨k1, e, rfl, rfl, hrel⟩)⟩
        | some v =>
          rw [hrel] at h
          cases v with
          | ids l =>
            dsimp only at h
            by_cases hmem : tid ∈ l
            · rw [if_pos hmem] at h
              exact Or.inl ⟨(Option.some.inj h).symm,
                Or.inr (Or.inr ⟨k1, e, l, rfl, rfl, hrel, hmem⟩)⟩
            · rw [if_neg hmem] at h
              exact Or.inr ⟨k1, e, l, rfl, rfl, hrel, hmem, (Option.some.inj h).symm⟩
          | unfolded m =>
            rcases shape_rel_cases g hshape k sid e hlk k1 with hn | ⟨l, hl⟩
            · rw [hrel] at hn
              exact absurd hn (Option.noConfusion)
            · rw [hrel] at hl
              exact absurd (Option.some.inj hl) (by simp)

theorem symm_one_append (g : Graph) (k k' : Kind) (sid tid : String) (e : Entity)
    (l : List String) (hsym : SymmX g)
    (hlk : dlookup (g.kmap k) sid = some e) (hrel : e.rel k' = some (.ids l))
    (hexc : ¬ Pres g k' tid ∨ schemaHas k' k = false ∨ MEdge g k' tid k sid) :
    SymmX (appendForm g k sid e k' l tid) := by
  have hkT : k' ≠ Kind.Tactics := by
    intro hT
    rw [hT, rel_tactics] at hrel
    exact Option.noConfusion hrel
  rw [symmX_iff_medge]
  intro A B hAB hBA s t hps hpt
  rw [appendForm_medge g k sid e k' l tid hlk hrel hkT,
      appendForm_medge g k sid e k' l tid hlk hrel hkT]
  rw [show (Pres (appendForm g k sid e k' l tid) A s) = Pres g A s from
        propext (appendForm_pres g k sid e k' l tid hlk A s)] at hps
  rw [show (Pres (appendForm g k sid e k' l tid) B t) = Pres g B t from
        propext (appendForm_pres g k sid e k' l tid hlk B t)] at hpt
  have hbase := (symmX_iff_medge g).mp hsym A B hAB hBA s t hps hpt
  constructor
  · rintro (hm | ⟨hA, hs, hB, ht⟩)
    · exact Or.inl (hbase.mp hm)
    · rw [hB, ht] at hpt
      rw [hA] at hAB hBA
      rw [hB] at hAB hBA
      rcases hexc with hx | hx | hx
      · exact absurd hpt hx
      · rw [hx] at hBA
        exact absurd hBA (Bool.false_ne_true)
      · rw [hA, hs, hB, ht]
        exact Or.inl hx
  · rintro (hm | ⟨hB, ht, hA, hs⟩)
    · exact Or.inl (hbase.mpr hm)
    · rw [hA, hs] at hps
      rw [hA] at hAB hBA
      rw [hB] at hAB hBA
      rcases hexc with hx | hx | hx
      · exact absurd hps hx
      · rw [hx] at hAB
        exact absurd hAB (Bool.false_ne_true)
      · rw [hA, hs, hB, ht]
        exact Or.inl hx

theorem symm_two_appends (g g1 : Graph) (k k' : Kind) (sid tid : String)
    (e1 e2 : Entity) (l1 l2 : List String) (hsym : SymmX g)
    (hlk1 : dlookup (g.kmap k) sid = some e1) (hrel1 : e1.rel k' = some (.ids l1))
    (hg1 : g1 = appendForm g k sid e1 k' l1 tid)
    (hlk2 : dlookup (g1.kmap k') tid = some e2) (hrel2 : e2.rel k = some (.ids l2)) :
    SymmX (appendForm g1 k' tid e2 k l2 sid) := by
  have hkT : k' ≠ Kind.Tactics := by
    intro hT
    rw [hT, rel_tactics] at hrel1
    exact Option.noConfusion hrel1
  have hkT2 : k ≠ Kind.Tactics := by
    intro hT
    rw [hT, rel_tactics] at hrel2
    exact Option.noConfusion hrel2
  rw [symmX_iff_medge]
  intro A B hAB hBA s t hps hpt
  rw [appendForm_medge g1 k' tid e2 k l2 sid hlk2 hrel2 hkT2,
      appendForm_medge g1 k' tid e2 k l2 sid hlk2 hrel2 hkT2]
  rw [show (Pres (appendForm g1 k' tid e2 k l2 sid) A s) = Pres g1 A s from
        propext (appendForm_pres g1 k' tid e2 k l2 sid hlk2 A s)] at hps
  rw [show (Pres (appendForm g1 k' tid e2 k l2 sid) B t) = Pres g1 B t from
        propext (appendForm_pres g1 k' tid e2 k l2 sid hlk2 B t)] at hpt
  subst hg1
  rw [appendForm_medge g k sid e1 k' l1 tid hlk1 hrel1 hkT,
      appendForm_medge g k sid e1 k' l1 tid hlk1 hrel1 hkT]
  rw [show (Pres (appendForm g k sid e1 k' l1 tid) A s) = Pres g A s from
        propext (appendForm_pres g k sid e1 k' l1 tid hlk1 A s)] at hps
  rw [show (Pres (appendForm g k sid e1 k' l1 tid) B t) = Pres g B t from
        propext (appendForm_pres g k sid e1 k' l1 tid hlk1 B t)] at hpt
  have hbase := (symmX_iff_medge g).mp hsym A B hAB hBA s t hps hpt
  constructor
  · rintro ((hm | ⟨h1, h2, h3, h4⟩) | ⟨h1, h2, h3, h4⟩)
    · exact Or.inl (Or.inl (hbase.mp hm))
    · exact Or.inr ⟨h3, h4, h1, h2⟩
    · exact Or.inl (Or.inr ⟨h3, h4, h1, h2⟩)
  · rintro ((hm | ⟨h1, h2, h3, h4⟩) | ⟨h1, h2, h3, h4⟩)
    · exact Or.inl (Or.inl (hbase.mpr hm))
    · exact Or.inr ⟨h3, h4, h1, h2⟩
    · exact Or.inl (Or.inr ⟨h3, h4, h1, h2⟩)

theorem linker_symm (g g1 g2 : Graph) (sk tk : Option Kind) (sid tid : String)
    (hne : sid ≠ tid) (hshape : ShapeX g) (hsym : SymmX g)
    (h1 : tryAppend g sk sid tk tid = some g1)
    (h2 : tryAppend g1 tk tid sk sid = some g2) :
    SymmX g2 := by
  obtain ⟨k, hsk, hc1⟩ := tryAppend_cases g sk tk sid tid g1 hshape h1
  have hshape1 : ShapeX g1 := by
    rcases hc1 with ⟨hg1, -⟩ | ⟨k', e, l, htk, hlk, hrel, hmem, hg1⟩
    · rw [hg1]
      exact hshape
    · rw [hg1]
      exact appendForm_shape g k sid e k' l tid hshape hlk hrel
        (by intro hT; rw [hT, rel_tactics] at hrel; exact Option.noConfusion hrel)
  obtain ⟨k2, htk2, hc2⟩ := tryAppend_cases g1 tk sk tid sid g2 hshape1 h2
  rcases hc1 with ⟨hg1, hreason1⟩ | ⟨k', e1, l1, htk, hlk1, hrel1, hmem1, hg1⟩
  · rcases hc2 with ⟨hg2, -⟩ | ⟨k2', e2, l2, hsk2, hlk2, hrel2, hmem2, hg2⟩
    · rw [hg2, hg1]
      exact hsym
    · have hk2' : k2' = k := by
        rw [hsk] at hsk2
        exact (Option.some.inj hsk2).symm
      rw [hk2'] at hg2 hrel2
      rw [hg1] at hg2 hlk2
      rw [hg2]
      apply symm_one_append g k2 k tid sid e2 l2 hsym hlk2 hrel2
      rcases hreason1 with hn | ⟨k'', e, htk'', hlk, hrl⟩ | ⟨k'', e, l, htk'', hlk, hrl, hm⟩
      · refine Or.inl ?_
        intro hp
        unfold Pres at hp
        rw [hn] at hp
        exact Bool.false_ne_true hp
      · have hk'' : k'' = k2 := by
          rw [htk2] at htk''
          exact (Option.some.inj htk'').symm
        rw [hk''] at hrl
        refine Or.inr (Or.inl ?_)
        by_cases hsc : schemaHas k k2 = true
        · obtain ⟨l0, hl0⟩ := (hshape k sid e hlk k2).1 hsc
          rw [hrl] at hl0
          exact absurd hl0 (Option.noConfusion)
        · exact Bool.eq_false_iff.mpr hsc
      · have hk'' : k'' = k2 := by
          rw [htk2] at htk''
          exact (Option.some.inj htk'').symm
        rw [hk''] at hrl
        refine Or.inr (Or.inr ⟨e, hlk, ?_⟩)
        unfold relMem
        rw [hrl]
        exact hm
  · have hk2 : k2 = k' := by
      rw [htk] at htk2
      exact (Option.some.inj htk2).symm
    rw [hk2] at hc2
    rcases hc2 with ⟨hg2, hreason2⟩ | ⟨k2', e2, l2, hsk2, hlk2, hrel2, hmem2, hg2⟩
    · rw [hg2, hg1]
      have hkT : k' ≠ Kind.Tactics := by
        intro hT
        rw [hT, rel_tactics] at hrel1
        exact Option.noConfusion hrel1
      apply symm_one_append g k k' sid tid e1 l1 hsym hlk1 hrel1
      rcases hreason2 with hn | ⟨k'', e2, hsk'', hlk2, hrl2⟩ | ⟨k'', e2, l2, hsk'', hlk2, hrl2, hm2⟩
      · refine Or.inl ?_
        intro hp
        have hp1 := (appendForm_pres g k sid e1 k' l1 tid hlk1 k' tid).mpr hp
        rw [hg1] at hn
        unfold Pres at hp1
        rw [hn] at hp1
        exact Bool.false_ne_true hp1
      · have hk'' : k'' = k := by
          rw [hsk] at hsk''
          exact (Option.some.inj hsk'').symm
        rw [hk''] at hrl2
        refine Or.inr (Or.inl ?_)
        by_cases hsc : schemaHas k' k = true
        · obtain ⟨l0, hl0⟩ := (hshape1 k' tid e2 hlk2 k).1 hsc
          rw [hrl2] at hl0
          exact absurd hl0 (Option.noConfusion)
        · exact Bool.eq_false_iff.mpr hsc
      · have hk'' : k'' = k := by
          rw [hsk] at hsk''
          exact (Option.some.inj hsk'').symm
        rw [hk''] at hrl2
        have hmg1 : MEdge g1 k' tid k sid := by
          refine ⟨e2, hlk2, ?_⟩
          unfold relMem
          rw [hrl2]
          exact hm2
        rw [hg1] at hmg1
        rcases (appendForm_medge g k sid e1 k' l1 tid hlk1 hrel1 hkT k' tid k sid).mp hmg1 with
          h | ⟨-, hts, -, -⟩
        · exact Or.inr (Or.inr h)
        · exact absurd hts.symm hne
    · have hk2' : k2' = k := by
        rw [hsk] at hsk2
        exact (Option.some.inj hsk2).symm
      rw [hk2'] at hrel2 hg2
      rw [hg2]
      exact symm_two_appends g g1 k k' sid tid e1 e2 l1 l2 hsym hlk1 hrel1 hg1 hlk2 hrel2

theorem tryAppend_inv3 (g g' : Graph) (sk tk : Option Kind) (sid tid : String)
    (hs : ShapeX g) (hn : NodupX g) (hm : NameInv g)
    (h : tryAppend g sk sid tk tid = some g') :
    ShapeX g' ∧ NodupX g' ∧ NameInv g' := by
  obtain ⟨k, hsk, hc⟩ := tryAppend_cases g sk tk sid tid g' hs h
  rcases hc with ⟨hg, -⟩ | ⟨k', e, l, htk, hlk, hrel, hmem, hg⟩
  · rw [hg]
    exact ⟨hs, hn, hm⟩
  · have hkT : k' ≠ Kind.Tactics := by
      intro hT
      rw [hT, rel_tactics] at hrel
      exact Option.noConfusion hrel
    rw [hg]
    exact ⟨appendForm_shape g k sid e k' l tid hs hlk hrel hkT,
           appendForm_nodup g k sid e k' l tid hn hlk hrel hkT hmem,
           appendForm_name g k sid e k' l tid hm hlk⟩

theorem linkStep_g_cases (o : Options) (bundle : List Record) (st : TState) (r : Record)
    (st' : TState) (h : linkStep o bundle st r = some st') :
    st'.g = st.g ∨ ∃ sk sid tk tid g1, sid ≠ tid ∧
      tryAppend st.g sk sid tk tid = some g1 ∧
      tryAppend g1 tk tid sk sid = some st'.g := by
  unfold linkStep at h
  by_cases hel : (elig o r && pyTruthy? r.type) = true
  · rw [if_pos hel] at h
    by_cases hty : r.type = some "relationship"
    · rw [if_pos hty] at h
      dsimp only at h
      cases hrtv : (if pyTruthy? r.relationship_type = true then r.relationship_type
                    else st.relationship_type) with
      | none =>
        rw [hrtv] at h
        simp at h
      | some rtv =>
        rw [hrtv] at h
        simp only [Option.bind_eq_bind, Option.some_bind] at h
        by_cases hmu : (rtv = "mitigates" || rtv = "uses") = true
        · rw [if_pos hmu] at h
          cases hsrc : r.source_ref with
          | none => rw [hsrc] at h; simp at h
          | some src =>
            rw [hsrc] at h
            simp only [Option.bind_eq_bind, Option.some_bind] at h
            cases htgt : r.target_ref with
            | none => rw [htgt] at h; simp at h
            | some tgt =>
              rw [htgt] at h
              simp only [Option.bind_eq_bind, Option.some_bind] at h
              cases hscan1 : scanEndpoint bundle src st.sourcetype with
              | none => rw [hscan1] at h; simp at h
              | some p1 =>
                rw [hscan1] at h
                simp only [Option.bind_eq_bind, Option.some_bind] at h
                cases hscan2 : scanEndpoint bundle tgt st.targettype with
                | none => rw [hscan2] at h; simp at h
                | some p2 =>
                  rw [hscan2] at h
                  simp only [Option.bind_eq_bind, Option.some_bind] at h
                  obtain ⟨sk, sid?⟩ := p1
                  obtain ⟨tk, tid?⟩ := p2
                  dsimp only at h
                  cases hsid : sid? with
                  | none =>
                    rw [hsid] at h
                    cases tid? <;> simp only [Option.pure_def, Option.some.injEq] at h <;>
                      rw [← h] <;> exact Or.inl rfl
                  | some sid =>
                    rw [hsid] at h
                    cases htid : tid? with
                    | none =>
                      rw [htid] at h
                      dsimp only at h
                      simp only [Option.pure_def, Option.some.injEq] at h
                      rw [← h]
                      exact Or.inl rfl
                    | some tid =>
                      rw [htid] at h
                      dsimp only at h
                      by_cases hg : (sid ≠ "" && tid ≠ "" && sid ≠ tid) = true
                      · rw [if_pos hg] at h
                        cases htry1 : tryAppend st.g sk sid tk tid with
                        | none => rw [htry1] at h; simp at h
                        | some g1 =>
                          rw [htry1] at h
                          simp only [Option.bind_eq_bind, Option.some_bind] at h
                          cases htry2 : tryAppend g1 tk tid sk sid with
                          | none => rw [htry2] at h; simp at h
                          | some g2 =>
                            rw [htry2] at h
                            simp only [Option.bind_eq_bind, Option.some_bind,
                              Option.pure_def, Option.some.injEq] at h
                            refine Or.inr ⟨sk, sid, tk, tid, g1, ?_, htry1, ?_⟩
                            · simp only [Bool.and_eq_true, decide_eq_true_eq,
                                ne_eq] at hg
                              exact hg.2
                            · rw [← h]
                              exact htry2
                      · rw [if_neg hg] at h
                        simp only [Option.pure_def, Option.some.injEq] at h
                        rw [← h]
                        exact Or.inl rfl
        · rw [if_neg hmu] at h
          simp only [Option.pure_def, Option.some.injEq] at h
          rw [← h]
          exact Or.inl rfl
    · rw [if_neg hty] at h
      simp only [Option.pure_def, Option.some.injEq] at h
      rw [← h]
      exact Or.inl rfl
  · rw [if_neg hel] at h
    simp only [Option.pure_def, Option.some.injEq] at h
    rw [← h]
    exact Or.inl rfl

theorem linkStep_inv (o : Options) (bundle : List Record) (st : TState) (r : Record)
    (st' : TState) (hli : LinkInv st.g) (h : linkStep o bundle st r = some st') :
    LinkInv st'.g := by
  obtain ⟨hs, hn, hm, hsym⟩ := hli
  rcases linkStep_g_cases o bundle st r st' h with hg | ⟨sk, sid, tk, tid, g1, hne, h1, h2⟩
  · rw [hg]
    exact ⟨hs, hn, hm, hsym⟩
  · obtain ⟨hs1, hn1, hm1⟩ := tryAppend_inv3 st.g g1 sk tk sid tid hs hn hm h1
    obtain ⟨hs2, hn2, hm2⟩ := tryAppend_inv3 g1 st'.g tk sk tid sid hs1 hn1 hm1 h2
    exact ⟨hs2, hn2, hm2, linker_symm st.g g1 st'.g sk tk sid tid hne hs hsym h1 h2⟩

theorem consInv_congr (g1 g2 : Graph) (h : ∀ A, g1.kmap A = g2.kmap A)
    (hg : ConsInv g2) : ConsInv g1 := by
  obtain ⟨hs, hn, hm, hc⟩ := hg
  refine ⟨?_, ?_, ?_, ?_⟩
  · intro A x e he
    rw [h A] at he
    exact hs A x e he
  · intro A x e he
    rw [h A] at he
    exact hn A x e he
  · intro A x e he
    rw [h A] at he
    exact hm A x e he
  · intro A B hab hba x e he
    rw [h A] at he
    exact hc A B hab hba x e he

theorem setK_insert_lookup (g : Graph) (K : Kind) (i : String) (e0 : Entity)
    (A : Kind) (x : String) :
    dlookup ((g.setKmap K (dinsert (g.kmap K) i e0)).kmap A) x =
      if A = K ∧ x = i then some e0 else dlookup (g.kmap A) x := by
  rw [kmap_setKmap]
  by_cases hA : A = K
  · rw [if_pos hA, hA, dlookup_dinsert]
    by_cases hx : x = i
    · rw [if_pos hx, if_pos ⟨rfl, hx⟩]
    · rw [if_neg hx, if_neg (fun hh => hx hh.2)]
  · rw [if_neg hA, if_neg (fun hh => hA hh.1)]

theorem consInv_setK_insert (g : Graph) (K : Kind) (i : String) (e0 : Entity)
    (hg : ConsInv g) (hf : FreshAt K e0) :
    ConsInv (g.setKmap K (dinsert (g.kmap K) i e0)) := by
  obtain ⟨hs, hn, hm, hc⟩ := hg
  obtain ⟨hf1, hf2⟩ := hf
  refine ⟨?_, ?_, ?_, ?_⟩
  · intro A x e he B
    rw [setK_insert_lookup] at he
    by_cases hAi : A = K ∧ x = i
    · rw [if_pos hAi] at he
      have he' : e = e0 := (Option.some.inj he).symm
      rw [he', hAi.1]
      exact ⟨fun hb => ⟨[], (hf1 B).1 hb⟩, fun hb => (hf1 B).2 hb⟩
    · rw [if_neg hAi] at he
      exact hs A x e he B
  · intro A x e he B v hv hex
    rw [setK_insert_lookup] at he
    by_cases hAi : A = K ∧ x = i
    · rw [if_pos hAi] at he
      have he' : e = e0 := (Option.some.inj he).symm
      rw [he'] at hv
      by_cases hb : schemaHas K B = true
      · have hbv := (hf1 B).1 hb
        rw [hbv] at hv
        have hv' : v = .ids [] := (Option.some.inj hv).symm
        rw [hv']
        simp [relKeys]
      · have hbv := (hf1 B).2 (Bool.eq_false_iff.mpr hb)
        rw [hbv] at hv
        exact absurd hv (Option.noConfusion)
    · rw [if_neg hAi] at he
      exact hn A x e he B v hv hex
  · intro A x e he
    rw [setK_insert_lookup] at he
    by_cases hAi : A = K ∧ x = i
    · rw [if_pos hAi] at he
      have he' : e = e0 := (Option.some.inj he).symm
      rw [he', hAi.1]
      exact hf2
    · rw [if_neg hAi] at he
      exact hm A x e he
  · intro A B hab hba x e he
    rw [setK_insert_lookup] at he
    by_cases hAi : A = K ∧ x = i
    · rw [if_pos hAi] at he
      have he' : e = e0 := (Option.some.inj he).symm
      rw [he']
      refine (hf1 B).1 ?_
      rw [← hAi.1]
      exact hab
    · rw [if_neg hAi] at he
      exact hc A B hab hba x e he

theorem consInv_dinsOpt (g : Graph) (K : Kind) (i : Option String) (e0 : Entity)
    (hg : ConsInv g) (hf : FreshAt K e0) :
    ConsInv (g.setKmap K (dinsOpt (g.kmap K) i e0)) := by
  cases i with
  | none =>
    refine consInv_congr _ g ?_ hg
    intro A
    rw [kmap_setKmap]
    by_cases hA : A = K
    · rw [if_pos hA, hA]
      rfl
    · rw [if_neg hA]
  | some k => exact consInv_setK_insert g K k e0 hg hf

theorem consInv_appendForm (g : Graph) (K B : Kind) (i : String) (e : Entity)
    (l : List String) (iv : String) (hg : ConsInv g)
    (hlk : dlookup (g.kmap K) i = some e) (hrel : e.rel B = some (.ids l))
    (hBA : schemaHas B K = false)
    (hnd : iv ∉ l ∨ (K = Kind.Techniques ∧ B = Kind.Subtechniques)) :
    ConsInv (appendForm g K i e B l iv) := by
  obtain ⟨hs, hn, hm, hc⟩ := hg
  have hB : B ≠ Kind.Tactics := by
    intro hT
    rw [hT, rel_tactics] at hrel
    exact Option.noConfusion hrel
  refine ⟨appendForm_shape g K i e B l iv hs hlk hrel hB, ?_,
          appendForm_name g K i e B l iv hm hlk, ?_⟩
  · intro A x e1 he1 C v hv hex
    rw [appendForm_lookup] at he1
    by_cases hAx : A = K ∧ x = i
    · rw [if_pos hAx] at he1
      have he1' : e1 = e.setRel B (.ids (l ++ [iv])) := (Option.some.inj he1).symm
      rw [he1', rel_setRel] at hv
      by_cases hCB : C = B
      · rw [if_pos ⟨hCB, hB⟩] at hv
        have hv' : v = .ids (l ++ [iv]) := (Option.some.inj hv).symm
        by_cases hexm : K = Kind.Techniques ∧ B = Kind.Subtechniques
        · exact absurd ⟨hAx.1.trans hexm.1, hCB.trans hexm.2⟩ hex
        · rcases hnd with hivl | hnd2
          · have hl : l.Nodup := by
              have := hn K i e hlk B (.ids l) hrel hexm
              simpa [relKeys] using this
            rw [hv']
            simp [relKeys, List.nodup_append, hl, hivl]
          · exact absurd hnd2 hexm
      · rw [if_neg (fun hh => hCB hh.1)] at hv
        rw [hAx.1] at hex
        exact hn K i e hlk C v hv hex
    · rw [if_neg hAx] at he1
      exact hn A x e1 he1 C v hv hex
  · intro A C hac hca x e1 he1
    rw [appendForm_lookup] at he1
    by_cases hAx : A = K ∧ x = i
    · rw [if_pos hAx] at he1
      have he1' : e1 = e.setRel B (.ids (l ++ [iv])) := (Option.some.inj he1).symm
      rw [he1', rel_setRel]
      by_cases hCB : C = B
      · exfalso
        rw [hCB, hAx.1] at hca
        rw [hBA] at hca
        exact Bool.false_ne_true hca
      · rw [if_neg (fun hh => hCB hh.1)]
        rw [hAx.1] at hac hca
        exact hc K C hac hca i e hlk
    · rw [if_neg hAx] at he1
      exact hc A C hac hca x e1 he1

theorem killChainFold_inv (i : Option String) (kcps : List KCP) (g0 g' : Graph)
    (hg : ConsInv g0) (h : killChainFold i kcps g0 = some g') : ConsInv g' := by
  unfold killChainFold at h
  refine foldlM_option_inv ConsInv _ ?_ kcps g0 g' hg h
  intro g kcp g1 hP hstep
  by_cases hcond : (strContains kcp.kill_chain_name "attack" && pyTruthy? kcp.phase_name) = true
  · rw [if_pos hcond] at hstep
    refine foldlM_option_inv ConsInv _ ?_ _ g g1 hP hstep
    intro g2 tid g3 hP2 hstep2
    cases hte : dlookup g2.tactics tid with
    | none =>
      rw [hte] at hstep2
      exact (Option.some.inj hstep2) ▸ hP2
    | some te =>
      rw [hte] at hstep2
      dsimp only at hstep2
      cases hnm : te.name with
      | list l0 =>
        rw [hnm] at hstep2
        exact absurd hstep2 (Option.noConfusion)
      | scalar nm =>
        rw [hnm] at hstep2
        dsimp only at hstep2
        by_cases hmatch : strContains
            (strLower (capwords ⟨(kcp.phase_name.getD "").data.map
              (fun c => if c = '-' then ' ' else c)⟩)) (strLower nm) = true
        · rw [if_pos hmatch] at hstep2
          cases hi : i with
          | none =>
            rw [hi] at hstep2
            exact (Option.some.inj hstep2) ▸ hP2
          | some iv =>
            rw [hi] at hstep2
            try dsimp only at hstep2
            cases hrT : te.rTechniques with
            | none =>
              rw [hrT] at hstep2
              exact absurd hstep2 (Option.noConfusion)
            | some v =>
              rw [hrT] at hstep2
              try dsimp only at hstep2
              cases v with
              | unfolded m => exact absurd hstep2 (Option.noConfusion)
              | ids l =>
                dsimp only at hstep2
                by_cases hiv : iv ∈ l
                · rw [if_pos hiv] at hstep2
                  exact (Option.some.inj hstep2) ▸ hP2
                · rw [if_neg hiv] at hstep2
                  rw [← Option.some.inj hstep2]
                  rw [← hnm]
                  exact consInv_appendForm g2 Kind.Tactics Kind.Techniques tid te l iv hP2
                    hte hrT (by decide) (Or.inl hiv)
        · rw [if_neg hmatch] at hstep2
          exact (Option.some.inj hstep2) ▸ hP2
  · rw [if_neg hcond] at hstep
    exact (Option.some.inj hstep) ▸ hP

theorem tacticsStep_inv (o : Options) (st : TState) (r : Record) (st' : TState)
    (hg : ConsInv st.g) (h : tacticsStep o st r = some st') : ConsInv st'.g := by
  unfold tacticsStep at h
  by_cases hel : (elig o r && pyTruthy? r.type) = true
  · rw [if_pos hel] at h
    by_cases hty : r.type = some "x-mitre-tactic"
    · rw [if_pos hty] at h
      cases hnm : r.name with
      | none => rw [hnm] at h; simp at h
      | some tac =>
        rw [hnm] at h
        simp only [Option.bind_eq_bind, Option.some_bind] at h
        cases hds : r.description with
        | none => rw [hds] at h; simp at h
        | some desc =>
          rw [hds] at h
          simp only [Option.bind_eq_bind, Option.some_bind] at h
          cases hrf : r.external_references with
          | none => rw [hrf] at h; simp at h
          | some refs =>
            rw [hrf] at h
            simp only [Option.bind_eq_bind, Option.some_bind, Option.pure_def,
              Option.some.injEq] at h
            rw [← h]
            exact consInv_dinsOpt st.g Kind.Tactics (resolveId st.id refs)
              { name := .scalar tac, description := desc, rTechniques := some (.ids []) } hg
              ⟨fun B => by
                cases B <;> refine ⟨fun hh => ?_, fun hh => ?_⟩ <;>
                  first | rfl | exact absurd hh (by decide), ⟨tac, rfl⟩⟩
    · rw [if_neg hty] at h
      simp only [Option.pure_def, Option.some.injEq] at h
      rw [← h]
      exact hg
  · rw [if_neg hel] at h
    simp only [Option.pure_def, Option.some.injEq] at h
    rw [← h]
    exact hg

theorem bindSome {α β : Type} (x : Option α) (f : α → Option β) (b : β)
    (h : (x >>= f) = some b) : ∃ a, x = some a ∧ f a = some b := by
  cases hx : x with
  | none => rw [hx] at h; simp at h
  | some a =>
    rw [hx] at h
    simp only [Option.bind_eq_bind, Option.some_bind] at h
    exact ⟨a, rfl, h⟩

theorem techniquesStep_inv (o : Options) (st : TState) (r : Record) (st' : TState)
    (hg : ConsInv st.g) (h : techniquesStep o st r = some st') : ConsInv st'.g := by
  unfold techniquesStep at h
  by_cases hel : (elig o r && pyTruthy? r.type) = true
  · rw [if_pos hel] at h
    by_cases hty : r.type = some "attack-pattern"
    · rw [if_pos hty] at h
      by_cases hsub : pyTruthyB r.x_mitre_is_subtechnique = true
      · rw [if_pos hsub] at h
        simp only [Option.pure_def, Option.some.injEq] at h
        rw [← h]
        exact hg
      · rw [if_neg hsub] at h
        cases hnm : r.name with
        | none => rw [hnm] at h; simp at h
        | some nm =>
          rw [hnm] at h
          simp only [Option.bind_eq_bind, Option.some_bind] at h
          cases hrf : r.external_references with
          | none => rw [hrf] at h; simp at h
          | some refs =>
            rw [hrf] at h
            simp only [Option.bind_eq_bind, Option.some_bind] at h
            by_cases hkc : r.kill_chain_phases ≠ []
            · rw [if_pos hkc] at h
              obtain ⟨g2, hkf, hjp⟩ := bindSome _ _ _ h
              simp only [Option.pure_def, Option.some.injEq] at hjp
              rw [← hjp]
              refine killChainFold_inv (resolveId st.id refs) r.kill_chain_phases _ g2 ?_ hkf
              exact consInv_dinsOpt st.g Kind.Techniques (resolveId st.id refs)
                (techEntity nm (descOrNA r.description)) hg
                ⟨fun B => by
                  cases B <;> refine ⟨fun hh => ?_, fun hh => ?_⟩ <;>
                    first | rfl | exact absurd hh (by decide), ⟨nm, rfl⟩⟩
            · rw [if_neg hkc] at h
              simp only [Option.bind_eq_bind, Option.some_bind, Option.pure_def,
                Option.some.injEq] at h
              rw [← h]
              exact consInv_dinsOpt st.g Kind.Techniques (resolveId st.id refs)
                (techEntity nm (descOrNA r.description)) hg
                ⟨fun B => by
                  cases B <;> refine ⟨fun hh => ?_, fun hh => ?_⟩ <;>
                    first | rfl | exact absurd hh (by decide), ⟨nm, rfl⟩⟩
    · rw [if_neg hty] at h
      simp only [Option.pure_def, Option.some.injEq] at h
      rw [← h]
      exact hg
  · rw [if_neg hel] at h
    simp only [Option.pure_def, Option.some.injEq] at h
    rw [← h]
    exact hg

theorem subtechniquesStep_inv (o : Options) (st : TState) (r : Record) (st' : TState)
    (hg : ConsInv st.g) (h : subtechniquesStep o st r = some st') : ConsInv st'.g := by
  unfold subtechniquesStep at h
  by_cases hel : (elig o r && pyTruthy? r.type) = true
  · rw [if_pos hel] at h
    by_cases hty : r.type = some "attack-pattern"
    · rw [if_pos hty] at h
      by_cases hsub : pyTruthyB r.x_mitre_is_subtechnique = true
      · rw [if_pos hsub] at h
        cases hnm : r.name with
        | none => rw [hnm] at h; simp at h
        | some nm =>
          rw [hnm] at h
          simp only [Option.bind_eq_bind, Option.some_bind] at h
          cases hrf : r.external_references with
          | none => rw [hrf] at h; simp at h
          | some refs =>
            rw [hrf] at h
            simp only [Option.bind_eq_bind, Option.some_bind] at h
            obtain ⟨⟨i, tech⟩, hsrf, h⟩ := bindSome _ _ _ h
            obtain ⟨t, htech, h⟩ := bindSome _ _ _ h
            dsimp only at h
            cases hpe : dlookup st.g.techniques t with
            | none =>
              rw [hpe] at h
              exact absurd h (Option.noConfusion)
            | some pe =>
              rw [hpe] at h
              dsimp only at h
              have hg1 : ConsInv { st.g with
                  subtechniques := dinsOpt st.g.subtechniques i
                    { name := .scalar nm, subtechnique_of := some t,
                      description := descOrNA r.description,
                      rActors := some (.ids []), rMalwares := some (.ids []),
                      rMitigations := some (.ids []), rSubtechniques := some (.ids []),
                      rTools := some (.ids []) } } :=
                consInv_dinsOpt st.g Kind.Subtechniques i _ hg
                  ⟨fun B => by
                    cases B <;> refine ⟨fun hh => ?_, fun hh => ?_⟩ <;>
                      first | rfl | exact absurd hh (by decide), ⟨nm, rfl⟩⟩
              cases hi : i with
              | none =>
                rw [hi] at h
                simp only [Option.pure_def, Option.bind_eq_bind, Option.some_bind,
                  Option.some.injEq] at h
                rw [← h]
                rw [hi] at hg1
                exact hg1
              | some iv =>
                rw [hi] at h
                cases hrS : pe.rSubtechniques with
                | none =>
                  rw [hrS] at h
                  exact absurd h (Option.noConfusion)
                | some v =>
                  rw [hrS] at h
                  cases v with
                  | unfolded m => exact absurd h (Option.noConfusion)
                  | ids l =>
                    simp only [Option.pure_def, Option.bind_eq_bind, Option.some_bind,
                      Option.some.injEq] at h
                    rw [← h]
                    rw [hi] at hg1
                    exact consInv_appendForm _ Kind.Techniques Kind.Subtechniques t pe l iv
                      hg1 hpe hrS (by decide) (Or.inr ⟨rfl, rfl⟩)
      · rw [if_neg hsub] at h
        simp only [Option.pure_def, Option.some.injEq] at h
        rw [← h]
        exact hg
    · rw [if_neg hty] at h
      simp only [Option.pure_def, Option.some.injEq] at h
      rw [← h]
      exact hg
  · rw [if_neg hel] at h
    simp only [Option.pure_def, Option.some.injEq] at h
    rw [← h]
    exact hg

theorem actorsStep_inv (o : Options) (st : TState) (r : Record) (st' : TState)
    (hg : ConsInv st.g) (h : actorsStep o st r = some st') : ConsInv st'.g := by
  unfold actorsStep at h
  by_cases hel : (elig o r && pyTruthy? r.type) = true
  · rw [if_pos hel] at h
    by_cases hty : r.type = some "intrusion-set"
    · rw [if_pos hty] at h
      dsimp only at h
      cases hal : r.aliases with
      | some l =>
        rw [hal] at h
        dsimp only at h
        by_cases hl : l ≠ []
        · rw [if_pos hl] at h
          simp only [Option.pure_def, Option.bind_eq_bind, Option.some_bind] at h
          have hnp : (∃ l2, l2 ≠ [] ∧ (NameF.list l : NameF) = NameF.list l2) ∨
              (∃ s0, (NameF.list l : NameF) = NameF.scalar s0) := Or.inl ⟨l, hl, rfl⟩
          cases hrf : r.external_references with
          | none => rw [hrf] at h; simp at h
          | some refs =>
            rw [hrf] at h
            simp only [Option.bind_eq_bind, Option.some_bind, Option.pure_def,
              Option.some.injEq] at h
            rw [← h]
            exact consInv_dinsOpt st.g Kind.Actors (resolveId st.id refs) _ hg
              ⟨fun B => by
                cases B <;> refine ⟨fun hh => ?_, fun hh => ?_⟩ <;>
                  first | rfl | exact absurd hh (by decide), hnp⟩
        · rw [if_neg hl] at h
          cases hrn : r.name with
          | none => rw [hrn] at h; simp at h
          | some s0 =>
            rw [hrn] at h
            simp only [Option.map_eq_map, Option.map_some', Option.bind_eq_bind,
              Option.some_bind] at h
            have hnp : (∃ l2, l2 ≠ [] ∧ (NameF.scalar s0 : NameF) = NameF.list l2) ∨
                (∃ s1, (NameF.scalar s0 : NameF) = NameF.scalar s1) := Or.inr ⟨s0, rfl⟩
            cases hrf : r.external_references with
            | none => rw [hrf] at h; simp at h
            | some refs =>
              rw [hrf] at h
              simp only [Option.bind_eq_bind, Option.some_bind, Option.pure_def,
                Option.some.injEq] at h
              rw [← h]
              exact consInv_dinsOpt st.g Kind.Actors (resolveId st.id refs) _ hg
                ⟨fun B => by
                  cases B <;> refine ⟨fun hh => ?_, fun hh => ?_⟩ <;>
                    first | rfl | exact absurd hh (by decide), hnp⟩
      | none =>
        rw [hal] at h
        dsimp only at h
        cases hrn : r.name with
        | none => rw [hrn] at h; simp at h
        | some s0 =>
          rw [hrn] at h
          simp only [Option.map_eq_map, Option.map_some', Option.bind_eq_bind,
            Option.some_bind] at h
          have hnp : (∃ l2, l2 ≠ [] ∧ (NameF.scalar s0 : NameF) = NameF.list l2) ∨
              (∃ s1, (NameF.scalar s0 : NameF) = NameF.scalar s1) := Or.inr ⟨s0, rfl⟩
          cases hrf : r.external_references with
          | none => rw [hrf] at h; simp at h
          | some refs =>
            rw [hrf] at h
            simp only [Option.bind_eq_bind, Option.some_bind, Option.pure_def,
              Option.some.injEq] at h
            rw [← h]
            exact consInv_dinsOpt st.g Kind.Actors (resolveId st.id refs) _ hg
              ⟨fun B => by
                cases B <;> refine ⟨fun hh => ?_, fun hh => ?_⟩ <;>
                  first | rfl | exact absurd hh (by decide), hnp⟩
    · rw [if_neg hty] at h
      simp only [Option.pure_def, Option.some.injEq] at h
      rw [← h]
      exact hg
  · rw [if_neg hel] at h
    simp only [Option.pure_def, Option.some.injEq] at h
    rw [← h]
    exact hg

theorem malwaresStep_inv (o : Options) (st : TState) (r : Record) (st' : TState)
    (hg : ConsInv st.g) (h : malwaresStep o st r = some st') : ConsInv st'.g := by
  unfold malwaresStep at h
  by_cases hel : (eligNoRev o r && pyTruthy? r.type) = true
  · rw [if_pos hel] at h
    by_cases hty : r.type = some "malware"
    · rw [if_pos hty] at h
      cases hal : r.x_mitre_aliases with
      | none => rw [hal] at h; simp at h
      | some al =>
        rw [hal] at h
        simp only [Option.bind_eq_bind, Option.some_bind] at h
        cases hrf : r.external_references with
        | none => rw [hrf] at h; simp at h
        | some refs =>
          rw [hrf] at h
          simp only [Option.bind_eq_bind, Option.some_bind, Option.pure_def,
            Option.some.injEq] at h
          rw [← h]
          exact consInv_dinsOpt st.g Kind.Malwares (resolveId st.id refs)
            { name := .list al, description := descOrNA r.description,
              rActors := some (.ids []), rSubtechniques := some (.ids []),
              rTechniques := some (.ids []) } hg
            ⟨fun B => by
              cases B <;> refine ⟨fun hh => ?_, fun hh => ?_⟩ <;>
                first | rfl | exact absurd hh (by decide), ⟨al, rfl⟩⟩
    · rw [if_neg hty] at h
      simp only [Option.pure_def, Option.some.injEq] at h
      rw [← h]
      exact hg
  · rw [if_neg hel] at h
    simp only [Option.pure_def, Option.some.injEq] at h
    rw [← h]
    exact hg

theorem mitigationsStep_inv (o : Options) (st : TState) (r : Record) (st' : TState)
    (hg : ConsInv st.g) (h : mitigationsStep o st r = some st') : ConsInv st'.g := by
  unfold mitigationsStep at h
  by_cases hel : (elig o r && pyTruthy? r.type) = true
  · rw [if_pos hel] at h
    by_cases hty : r.type = some "course-of-action"
    · rw [if_pos hty] at h
      cases hnm : r.name with
      | none => rw [hnm] at h; simp at h
      | some nm =>
        rw [hnm] at h
        simp only [Option.bind_eq_bind, Option.some_bind] at h
        cases hds : r.description with
        | none => rw [hds] at h; simp at h
        | some desc =>
          rw [hds] at h
          simp only [Option.bind_eq_bind, Option.some_bind] at h
          cases hrf : r.external_references with
          | none => rw [hrf] at h; simp at h
          | some refs =>
            rw [hrf] at h
            simp only [Option.bind_eq_bind, Option.some_bind, Option.pure_def,
              Option.some.injEq] at h
            rw [← h]
            exact consInv_dinsOpt st.g Kind.Mitigations (resolveId st.id refs)
              { name := .scalar nm, description := desc,
                rSubtechniques := some (.ids []), rTechniques := some (.ids []) } hg
              ⟨fun B => by
                cases B <;> refine ⟨fun hh => ?_, fun hh => ?_⟩ <;>
                  first | rfl | exact absurd hh (by decide), ⟨nm, rfl⟩⟩
    · rw [if_neg hty] at h
      simp only [Option.pure_def, Option.some.injEq] at h
      rw [← h]
      exact hg
  · rw [if_neg hel] at h
    simp only [Option.pure_def, Option.some.injEq] at h
    rw [← h]
    exact hg

theorem toolsStep_inv (o : Options) (st : TState) (r : Record) (st' : TState)
    (hg : ConsInv st.g) (h : toolsStep o st r = some st') : ConsInv st'.g := by
  unfold toolsStep at h
  by_cases hel : (eligNoRev o r && pyTruthy? r.type) = true
  · rw [if_pos hel] at h
    by_cases hty : r.type = some "tool"
    · rw [if_pos hty] at h
      cases hal : r.x_mitre_aliases with
      | none => rw [hal] at h; simp at h
      | some al =>
        rw [hal] at h
        simp only [Option.bind_eq_bind, Option.some_bind] at h
        cases hds : r.description with
        | none => rw [hds] at h; simp at h
        | some desc =>
          rw [hds] at h
          simp only [Option.bind_eq_bind, Option.some_bind] at h
          cases hrf : r.external_references with
          | none => rw [hrf] at h; simp at h
          | some refs =>
            rw [hrf] at h
            simp only [Option.bind_eq_bind, Option.some_bind, Option.pure_def,
              Option.some.injEq] at h
            rw [← h]
            exact consInv_dinsOpt st.g Kind.Tools (resolveId st.id refs)
              { name := .list al, description := desc,
                rActors := some (.ids []), rSubtechniques := some (.ids []),
                rTechniques := some (.ids []) } hg
              ⟨fun B => by
                cases B <;> refine ⟨fun hh => ?_, fun hh => ?_⟩ <;>
                  first | rfl | exact absurd hh (by decide), ⟨al, rfl⟩⟩
    · rw [if_neg hty] at h
      simp only [Option.pure_def, Option.some.injEq] at h
      rw [← h]
      exact hg
  · rw [if_neg hel] at h
    simp only [Option.pure_def, Option.some.injEq] at h
    rw [← h]
    exact hg

theorem transform_inv (o : Options) (bundle : List Record) (g : Graph)
    (h : Transform o bundle = some g) : LinkInv g := by
  unfold Transform at h
  obtain ⟨st1, h1, h⟩ := bindSome _ _ _ h
  obtain ⟨st2, h2, h⟩ := bindSome _ _ _ h
  obtain ⟨st3, h3, h⟩ := bindSome _ _ _ h
  obtain ⟨st4, h4, h⟩ := bindSome _ _ _ h
  obtain ⟨st5, h5, h⟩ := bindSome _ _ _ h
  obtain ⟨st6, h6, h⟩ := bindSome _ _ _ h
  obtain ⟨st7, h7, h⟩ := bindSome _ _ _ h
  obtain ⟨st8, h8, h⟩ := bindSome _ _ _ h
  simp only [Option.pure_def, Option.some.injEq] at h
  rw [← h]
  have hc1 : ConsInv st1.g := foldlM_option_inv (fun st => ConsInv st.g) (tacticsStep o)
    (fun s a s' hP hf => tacticsStep_inv o s a s' hP hf) bundle {} st1 consInv_empty h1
  have hc2 : ConsInv st2.g := foldlM_option_inv (fun st => ConsInv st.g) (techniquesStep o)
    (fun s a s' hP hf => techniquesStep_inv o s a s' hP hf) bundle st1 st2 hc1 h2
  have hc3 : ConsInv st3.g := foldlM_option_inv (fun st => ConsInv st.g) (subtechniquesStep o)
    (fun s a s' hP hf => subtechniquesStep_inv o s a s' hP hf) bundle st2 st3 hc2 h3
  have hc4 : ConsInv st4.g := foldlM_option_inv (fun st => ConsInv st.g) (actorsStep o)
    (fun s a s' hP hf => actorsStep_inv o s a s' hP hf) bundle st3 st4 hc3 h4
  have hc5 : ConsInv st5.g := foldlM_option_inv (fun st => ConsInv st.g) (malwaresStep o)
    (fun s a s' hP hf => malwaresStep_inv o s a s' hP hf) bundle st4 st5 hc4 h5
  have hc6 : ConsInv st6.g := foldlM_option_inv (fun st => ConsInv st.g) (mitigationsStep o)
    (fun s a s' hP hf => mitigationsStep_inv o s a s' hP hf) bundle st5 st6 hc5 h6
  have hc7 : ConsInv st7.g := foldlM_option_inv (fun st => ConsInv st.g) (toolsStep o)
    (fun s a s' hP hf => toolsStep_inv o s a s' hP hf) bundle st6 st7 hc6 h7
  have hl7 : LinkInv st7.g :=
    ⟨hc7.1, hc7.2.1, hc7.2.2.1, symm_of_crossEmpty st7.g hc7.2.2.2⟩
  exact foldlM_option_inv (fun st => LinkInv st.g) (linkStep o bundle)
    (fun s a s' hP hf => linkStep_inv o bundle s a s' hP hf) bundle st7 st8 hl7 h8

/-- C1 (amended): after `Transform` completes on any bundle and filter policy,
bidirectional symmetry holds for every pair of kinds whose entity dict
literals carry reciprocal relation keys (`SymmX`), and every relation list is
duplicate-free except a Technique's `Subtechniques` list, which the
un-deduplicated append at line 501 may fill with duplicates (`NodupX`); the
containment edges tactic→technique and technique→subtechnique connect
non-reciprocal pairs and are stored one-directionally. -/
theorem C1_amended_symmetry_nodup (o : Options) (bundle : List Record) (g : Graph)
    (h : Transform o bundle = some g) : SymmX g ∧ NodupX g :=
  ⟨(transform_inv o bundle g h).2.2.2, (transform_inv o bundle g h).2.1⟩

theorem C1_witness : SymmX gC1 ∧ NodupX gC1 :=
  C1_amended_symmetry_nodup {} [recTech, recSub, recSub] gC1 (by rfl)

/-- C9 (amended): in every graph `Transform` produces, Tactic / Technique /
Subtechnique / Mitigation names are scalar strings and Malware / Tool names
are alias lists; an Actor's name is a NON-EMPTY alias list when the record
carries a truthy `aliases` field and otherwise falls back to the SCALAR record
name — the claim's "list including for records with no aliases field" is false
(see `C9_counterexample`). -/
theorem C9_amended_name_shapes (o : Options) (bundle : List Record) (g : Graph)
    (h : Transform o bundle = some g) :
    (∀ k, k ∈ [Kind.Tactics, Kind.Techniques, Kind.Subtechniques, Kind.Mitigations] →
       ∀ i e, dlookup (g.kmap k) i = some e → ∃ s, e.name = NameF.scalar s) ∧
    (∀ k, k ∈ [Kind.Malwares, Kind.Tools] →
       ∀ i e, dlookup (g.kmap k) i = some e → ∃ l, e.name = NameF.list l) ∧
    (∀ i e, dlookup (g.kmap Kind.Actors) i = some e →
       (∃ l, l ≠ [] ∧ e.name = NameF.list l) ∨ (∃ s, e.name = NameF.scalar s)) := by
  have hname := (transform_inv o bundle g h).2.2.1
  refine ⟨?_, ?_, ?_⟩
  · intro k hk i e he
    fin_cases hk <;> exact hname _ i e he
  · intro k hk i e he
    fin_cases hk <;> exact hname _ i e he
  · intro i e he
    exact hname Kind.Actors i e he

theorem C9_witness :
    (∀ k, k ∈ [Kind.Tactics, Kind.Techniques, Kind.Subtechniques, Kind.Mitigations] →
       ∀ i e, dlookup (gC1.kmap k) i = some e → ∃ s, e.name = NameF.scalar s) ∧
    (∀ k, k ∈ [Kind.Malwares, Kind.Tools] →
       ∀ i e, dlookup (gC1.kmap k) i = some e → ∃ l, e.name = NameF.list l) ∧
    (∀ i e, dlookup (gC1.kmap Kind.Actors) i = some e →
       (∃ l, l ≠ [] ∧ e.name = NameF.list l) ∨ (∃ s, e.name = NameF.scalar s)) :=
  C9_amended_name_shapes {} [recTech, recSub, recSub] gC1 (by rfl)
